import Mathlib

/-!
# ebwt2snp: the cluster-to-variant pipeline of `clust2snp.cpp`

A shallow embedding of the classifier (`dH`, `distance`), the per-cluster
variant finder (`find_variants`), the context extractor (`extract_variants`)
and the emitter (`to_file`) of `src/clust2snp.cpp`, with the properties of
the specification proved about them.

Conventions of the embedding.

* A C++ `string` is a `List Char`; `s.substr(0,n)` is `s.take n`.
* A value of type `int` is an `Int`; the lengths involved are far below
  `2^31`, so no `int` computation wraps.
* The configuration globals (`k_left`, `k_right`, `mcov_out`, `max_gap`, ...)
  are natural numbers: `main` replaces a zero by the positive default, and
  the code compares them with unsigned operands.
* An `assert` that fails, a `substr` that throws and an index out of range
  make the embedded function return `none`.
-/

namespace Ebwt2snp

/-! ## Hamming distance and the gapped distance -/

/-- Right-aligned Hamming distance, `dH` of `clust2snp.cpp`: the loop
`for(i=0;i<len;++i) d += a[a.size()-i-1]!=b[b.size()-i-1]` over
`len = min(|a|,|b|)`. -/
def dH (a b : List Char) : Int :=
  let len := if a.length < b.length then a.length else b.length
  (List.range len).foldl
    (fun d i => d + (if a[a.length - i - 1]? ≠ b[b.length - i - 1]? then 1 else 0)) 0

/-- The scan of `std::min_element` after its first element: `bi` is the
index of the smallest element met so far, `bv` its value, `i` the index of
the element examined next; only a strictly smaller element replaces it. -/
def min_element_loop : List Int → Nat → Nat → Int → Nat
  | [], _, bi, _ => bi
  | x :: xs, i, bi, bv =>
    if x < bv then min_element_loop xs (i + 1) i x else min_element_loop xs (i + 1) bi bv

/-- Index of the first smallest element,
`std::distance(v.begin(), std::min_element(v.begin(), v.end()))`. -/
def min_element : List Int → Nat
  | [] => 0
  | x :: xs => min_element_loop xs 1 0 x

/-- The vector `dist_ab` of `distance`: entry `i-1` is
`dH(a.substr(0,|a|-i), b) + i` for `i = 1..max_gap`. -/
def dist_ab (max_gap : Nat) (a b : List Char) : List Int :=
  (List.range' 1 max_gap).map fun i => dH (a.take (a.length - i)) b + (i : Int)

/-- The vector `dist_ba` of `distance`: entry `i-1` is
`dH(a, b.substr(0,|b|-i)) + i` for `i = 1..max_gap`. -/
def dist_ba (max_gap : Nat) (a b : List Char) : List Int :=
  (List.range' 1 max_gap).map fun i => dH a (b.take (b.length - i)) + (i : Int)

/-- The function `distance` of `clust2snp.cpp`, the global `max_gap` being a
parameter (a negative `max_gap` makes the constructor of `dist_ab` throw, so
it is a natural number here). The result is `none` when one of its two
assertions fails (`a.length()==b.length()`, and, once `max_gap ≠ 0`,
`max_gap<=a.length()`). -/
def distance (max_gap : Nat) (a b : List Char) : Option (Int × Int) :=
  if a.length ≠ b.length then none
  else
    let dist_no_indel := dH a b
    if max_gap = 0 then some (dist_no_indel, 0)
    else if ¬ max_gap ≤ a.length then none
    else
      let min_ab_idx := min_element (dist_ab max_gap a b)
      let min_ba_idx := min_element (dist_ba max_gap a b)
      let min_ab := (dist_ab max_gap a b).getD min_ab_idx 0
      let min_ba := (dist_ba max_gap a b).getD min_ba_idx 0
      if dist_no_indel < min_ab ∧ dist_no_indel < min_ba then
        some (dist_no_indel, 0)
      else if min_ab < min_ba then
        some (min_ab - ((min_ab_idx : Int) + 1), (min_ab_idx : Int) + 1)
      else
        some (min_ba - ((min_ba_idx : Int) + 1), -((min_ba_idx : Int) + 1))

/-! ## Data model -/

/-- An EGSA row, `t_GSA`: read index, offset of the suffix in the read, LCP
with the previous row and the character preceding the suffix. The fields
`text`, `suff` and `lcp` hold unsigned 64-bit values. -/
structure t_GSA where
  text : Nat
  suff : Nat
  lcp : Nat
  bwt : Char
deriving DecidableEq

/-- The struct `candidate_variant`: coordinates of the two left contexts and
of the shared right context. -/
structure candidate_variant where
  left_context_idx_0 : Nat
  left_context_pos_0 : Nat
  left_context_idx_1 : Nat
  left_context_pos_1 : Nat
  right_context_idx : Nat
  right_context_pos : Nat
deriving DecidableEq

/-- The struct `variant_t`: the three DNA strings of a variant. -/
structure variant_t where
  left_context_0 : List Char
  left_context_1 : List Char
  right_context : List Char
deriving DecidableEq

/-- The configuration globals of `clust2snp.cpp` as they stand when the
pipeline runs. The last field is not a global of the program: it is the
column that `base_to_int` (of `include.hpp`, which is not among the sources)
returns for a character other than `A`, `C`, `G`, `T`. It is carried with the
configuration so that every property is proved for each possible value. -/
structure Config where
  k_left : Nat
  k_right : Nat
  max_snvs : Int
  mcov_out : Nat
  max_clust_length : Nat
  max_gap : Nat
  nr_reads1 : Nat
  base_other : Char → Fin 4 := fun _ => 0

/-- The compile-time default `max_snvs_def = 2`. -/
def max_snvs_def : Int := 2

/-- Modelled from the spec: `base_to_int` of `include.hpp`, which is not
among the sources. The columns of the 2×4 matrix are the bases `A`, `C`, `G`,
`T` in this order; for another character the spec names no column (`none`). -/
def base_to_int (c : Char) : Option Nat :=
  if c = 'A' then some 0
  else if c = 'C' then some 1
  else if c = 'G' then some 2
  else if c = 'T' then some 3
  else none

/-- The value `base_to_int(c)` with which `find_variants` indexes a row of
`counts`, a vector of four cells: the column of the base, and for another
character the column `cfg.base_other c`. -/
def base_index (cfg : Config) (c : Char) : Nat :=
  (base_to_int c).getD (cfg.base_other c).val

/-- Modelled from the spec: `int_to_base` of `include.hpp`, which is not
among the sources; the base of column `i` of the 2×4 matrix. -/
def int_to_base (i : Nat) : Char :=
  match i with
  | 0 => 'A'
  | 1 => 'C'
  | 2 => 'G'
  | _ => 'T'

/-- Subtraction of unsigned 64-bit integers (wraps modulo `2^64`). -/
def usub64 (a b : Nat) : Nat :=
  (a + 18446744073709551616 - b % 18446744073709551616) % 18446744073709551616

/-- The call `std::sort(v.begin(), v.end())` on a vector of characters. -/
def sort_chars (l : List Char) : List Char :=
  l.insertionSort (fun x y => x.toNat ≤ y.toNat)

/-- The call `v.erase(std::unique(v.begin(), v.end()), v.end())`: of every
run of equal consecutive elements only one is kept. -/
def unique {α : Type} [DecidableEq α] : List α → List α
  | [] => []
  | [x] => [x]
  | x :: y :: r => if x = y then unique (y :: r) else x :: unique (y :: r)

/-! ## The variant finder -/

/-- The variables updated by the first loop of `find_variants`: the matrix
`counts` (`unsigned int` cells) and the coordinates of the LCP peak. -/
structure scan_state where
  counts : Nat → Nat → Nat
  max_lcp_val : Nat
  max_lcp_read_idx : Nat
  max_lcp_read_pos : Nat

/-- The values of those variables before the first loop. -/
def scan_init : scan_state :=
  { counts := fun _ _ => 0, max_lcp_val := 0, max_lcp_read_idx := 0, max_lcp_read_pos := 0 }

/-- One iteration of the first loop of `find_variants` on the entry `e`: the
update of the LCP peak, then `counts[sample?1:0][base_to_int(e.bwt)]++`,
which is executed for every entry. -/
def scan_step (cfg : Config) (st : scan_state) (e : t_GSA) : scan_state :=
  let st1 : scan_state :=
    if e.lcp > st.max_lcp_val then
      { st with max_lcp_val := e.lcp, max_lcp_read_idx := e.text, max_lcp_read_pos := e.suff }
    else st
  let sample : Bool := if e.text < cfg.nr_reads1 then false else true
  let b := base_index cfg e.bwt
  { st1 with counts := fun s c =>
      if s = (if sample then 1 else 0) ∧ c = b then (st1.counts s c + 1) % 4294967296
      else st1.counts s c }

/-- The first loop of `find_variants`. -/
def scan (cfg : Config) (gsa_cluster : List t_GSA) : scan_state :=
  gsa_cluster.foldl (scan_step cfg) scan_init

/-- The loop `for(int c=0;c<4;++c)` of `find_variants` for one sample: the
bases whose count reaches `mcov_out`, followed by `std::sort`. -/
def frequent_char (cfg : Config) (counts : Nat → Nat) : List Char :=
  sort_chars (((List.range 4).filter fun c => counts c ≥ cfg.mcov_out).map int_to_base)

/-- The vector `all_chars` of `find_variants`. -/
def all_chars (frequent_char_0 frequent_char_1 : List Char) : List Char :=
  unique (sort_chars (frequent_char_1 ++ frequent_char_0))

/-- The variables updated by the innermost loop of `find_variants`. -/
structure left_state where
  max_left_len_0 : Nat
  max_left_idx_0 : Nat
  max_left_pos_0 : Nat
  max_left_len_1 : Nat
  max_left_idx_1 : Nat
  max_left_pos_1 : Nat

/-- The values of those variables before the innermost loop. -/
def left_init : left_state :=
  { max_left_len_0 := 0, max_left_idx_0 := 0, max_left_pos_0 := 0,
    max_left_len_1 := 0, max_left_idx_1 := 0, max_left_pos_1 := 0 }

/-- One iteration of the innermost loop of `find_variants` on the entry `e`,
for the pair of characters `(c0, c1)`. -/
def left_step (cfg : Config) (c0 c1 : Char) (st : left_state) (e : t_GSA) : left_state :=
  let sample : Bool := if e.text < cfg.nr_reads1 then false else true
  let st1 : left_state :=
    if e.suff ≥ cfg.k_left ∧ e.bwt = c0 ∧ sample = false then
      { st with max_left_len_0 := cfg.k_left, max_left_idx_0 := e.text,
                max_left_pos_0 := usub64 e.suff cfg.k_left }
    else st
  if e.suff ≥ cfg.k_left ∧ e.bwt = c1 ∧ sample = true then
    { st1 with max_left_len_1 := cfg.k_left, max_left_idx_1 := e.text,
               max_left_pos_1 := usub64 e.suff cfg.k_left }
  else st1

/-- The body of the two nested loops over `frequent_char_0` and
`frequent_char_1` for one pair `(c0, c1)`: the vector `out` after it. -/
def pair_step (cfg : Config) (gsa_cluster : List t_GSA) (st : scan_state) (c0 c1 : Char)
    (out : List candidate_variant) : List candidate_variant :=
  if c0 ≠ c1 then
    let ls := gsa_cluster.foldl (left_step cfg c0 c1) left_init
    if ls.max_left_len_0 > 0 ∧ ls.max_left_len_1 > 0 then
      out ++ [{ left_context_idx_0 := ls.max_left_idx_0, left_context_pos_0 := ls.max_left_pos_0,
                left_context_idx_1 := ls.max_left_idx_1, left_context_pos_1 := ls.max_left_pos_1,
                right_context_idx := st.max_lcp_read_idx,
                right_context_pos := st.max_lcp_read_pos }]
    else out
  else out

/-- The function `find_variants` of `clust2snp.cpp`. -/
def find_variants (cfg : Config) (gsa_cluster : List t_GSA) : List candidate_variant :=
  let st := scan cfg gsa_cluster
  if st.max_lcp_val < cfg.k_right then []
  else
    let frequent_char_0 := frequent_char cfg (st.counts 0)
    let frequent_char_1 := frequent_char cfg (st.counts 1)
    if frequent_char_0.length = 0 ∨ frequent_char_1.length = 0 ∨
        frequent_char_0.length > 2 ∨ frequent_char_1.length > 2 ∨
        frequent_char_0 = frequent_char_1 ∨
        (all_chars frequent_char_0 frequent_char_1).length > 3 then []
    else
      frequent_char_0.foldl
        (fun out c0 => frequent_char_1.foldl
          (fun out c1 => pair_step cfg gsa_cluster st c0 c1 out) out) []

/-! ## The context extractor -/

/-- The call `s.substr(pos, n)`: it throws (`none`) when `pos > s.size()`. -/
def substr (s : List Char) (pos n : Nat) : Option (List Char) :=
  if pos ≤ s.length then some ((s.drop pos).take n) else none

/-- The call `std::sort(v.begin(), v.end())` on a vector of read ranks. -/
def sort_ranks (l : List Nat) : List Nat :=
  l.insertionSort (fun x y => x ≤ y)

/-- The vector `read_ranks` of `extract_variants` once sorted and freed of
duplicates: the access plan handed to `get_reads`. -/
def read_ranks (candidate_variants : List candidate_variant) : List Nat :=
  unique (sort_ranks (candidate_variants.flatMap fun v =>
    [v.left_context_idx_0, v.left_context_idx_1, v.right_context_idx]))

/-- The body of the second loop of `extract_variants`: the variant pushed for
the candidate `v`; `none` when an index is out of range or `substr` throws.
The position of a rank is `std::distance(begin, std::find(begin, end, rank))`. -/
def materialize (cfg : Config) (ranks : List Nat) (reads : List (List Char))
    (v : candidate_variant) : Option variant_t :=
  match reads[ranks.indexOf v.left_context_idx_0]?, reads[ranks.indexOf v.left_context_idx_1]?,
      reads[ranks.indexOf v.right_context_idx]? with
  | some r0, some r1, some r =>
    match substr r0 v.left_context_pos_0 cfg.k_left, substr r1 v.left_context_pos_1 cfg.k_left,
        substr r v.right_context_pos cfg.k_right with
    | some l0, some l1, some rc =>
      some { left_context_0 := l0, left_context_1 := l1, right_context := rc }
    | _, _, _ => none
  | _, _, _ => none

/-- The second loop of `extract_variants`: one variant per candidate, in order. -/
def extract_loop (cfg : Config) (ranks : List Nat) (reads : List (List Char)) :
    List candidate_variant → Option (List variant_t)
  | [] => some []
  | v :: vs =>
    match materialize cfg ranks reads v with
    | none => none
    | some w =>
      match extract_loop cfg ranks reads vs with
      | none => none
      | some ws => some (w :: ws)

/-- The function `extract_variants` of `clust2snp.cpp`. The read store is the
parameter `get_reads`: the vector `out_DNA` that `get_reads(fasta_path, ·, ·)`
fills for a given vector of ranks. -/
def extract_variants (get_reads : List Nat → List (List Char)) (cfg : Config)
    (candidate_variants : List candidate_variant) : Option (List variant_t) :=
  extract_loop cfg (read_ranks candidate_variants) (get_reads (read_ranks candidate_variants))
    candidate_variants

/-! ## The emitter -/

/-- The call `std::to_string(n)` on an unsigned integer. -/
def to_string (n : Nat) : List Char :=
  (Nat.repr n).toList

/-- The call `s.substr(pos)` with `pos` computed from `size_t` and `int`
operands: a negative `pos` wraps to a huge unsigned value, and the call
throws (`none`) unless `0 ≤ pos ≤ s.size()`. -/
def substr_from (s : List Char) (pos : Int) : Option (List Char) :=
  if 0 ≤ pos ∧ pos ≤ (s.length : Int) then some (s.drop pos.toNat) else none

/-- The string `snv_type` of `to_file` for the variant `v` and the result `d`
of `distance`; reading the last character of an empty context is `none`. -/
def snv_type (v : variant_t) (d : Int × Int) : Option (List Char) :=
  if d.2 = 0 then
    match v.left_context_0.getLast?, v.left_context_1.getLast? with
    | some x, some y => some ([x] ++ ['/'] ++ [y])
    | _, _ => none
  else if d.2 > 0 then
    match substr_from v.left_context_0 ((v.left_context_0.length : Int) - d.2) with
    | some t => some (t ++ ['/'])
    | none => none
  else
    match substr_from v.left_context_1 ((v.left_context_1.length : Int) - (-d.2)) with
    | some t => some (['/'] ++ t)
    | none => none

/-- The header line `ID` of `to_file`: `indel_id` and `snp_id` are the two
literals it starts from (`">INDEL_higher_path_"` and `">SNP_higher_path_"`,
or the two of the lower path). -/
def header (indel_id snp_id : List Char) (id_nr : Nat) (v : variant_t) (d : Int × Int)
    (snv : List Char) : List Char :=
  (if d.2 ≠ 0 then indel_id else snp_id)
    ++ to_string id_nr ++ "|P_1:".toList ++ to_string v.right_context.length ++ "_".toList
    ++ snv ++ "|".toList ++ "high".toList ++ "|nb_pol_1".toList

/-- The string `DNA` of the higher path before the right context is appended. -/
def dna_higher (v : variant_t) (d : Int × Int) : Option (List Char) :=
  if d.2 = 0 then some v.left_context_0
  else if d.2 > 0 then some v.left_context_0
  else substr_from v.left_context_0 (-d.2)

/-- The string `DNA` of the lower path before the right context is appended. -/
def dna_lower (v : variant_t) (d : Int × Int) : Option (List Char) :=
  if d.2 = 0 then some v.left_context_1
  else if d.2 > 0 then substr_from v.left_context_1 d.2
  else some v.left_context_1

/-- One iteration of the loop of `to_file` on the variant `v`. The state is
the list of lines written so far and the counter `id_nr`; `none` when the run
aborts (an assertion of `distance` fails, or a string access is out of range). -/
def to_file_step (cfg : Config) (st : List (List Char) × Nat) (v : variant_t) :
    Option (List (List Char) × Nat) :=
  match distance cfg.max_gap v.left_context_0 v.left_context_1 with
  | none => none
  | some d =>
    if d.1 ≤ max_snvs_def then
      match snv_type v d, dna_higher v d, dna_lower v d with
      | some snv, some hi, some lo =>
        some (st.1 ++
            [header ">INDEL_higher_path_".toList ">SNP_higher_path_".toList st.2 v d snv,
             hi ++ v.right_context,
             header ">INDEL_lower_path_".toList ">SNP_lower_path_".toList st.2 v d snv,
             lo ++ v.right_context],
          st.2 + 1)
      | _, _, _ => none
    else some st

/-- The loop of `to_file` over the variants. -/
def to_file_loop (cfg : Config) :
    List variant_t → List (List Char) × Nat → Option (List (List Char) × Nat)
  | [], st => some st
  | v :: vs, st =>
    match to_file_step cfg st v with
    | none => none
    | some st2 => to_file_loop cfg vs st2

/-- The function `to_file` of `clust2snp.cpp`: the lines written to the
output file, `id_nr` starting at 1. -/
def to_file (cfg : Config) (output_variants : List variant_t) : Option (List (List Char)) :=
  match to_file_loop cfg output_variants ([], 1) with
  | none => none
  | some st => some st.1

/-! ## Notions of the specification used to state the properties -/

/-- Largest `lcp` value of a cluster (0 for the empty cluster). -/
def max_lcp (cluster : List t_GSA) : Nat :=
  (cluster.map fun e => e.lcp).foldl max 0

/-- The entry `e*` of maximum `lcp`: the first one attaining the maximum. -/
def peak_entry (cluster : List t_GSA) : Option t_GSA :=
  cluster.find? fun e => e.lcp = max_lcp cluster

/-- The set `F_s` of frequent bases of sample `s`: the bases `b` with
`cnt[s][b] ≥ mcov_out`, `cnt` being the matrix built by `find_variants`. -/
def frequent_set (cfg : Config) (cluster : List t_GSA) (s : Nat) : Finset Char :=
  ((Finset.range 4).filter fun c => cfg.mcov_out ≤ (scan cfg cluster).counts s c).image
    int_to_base

/-- A cluster is inadmissible when its LCP peak is below `k_right` or its
frequent sets fail the locus filter. -/
def inadmissible (cfg : Config) (cluster : List t_GSA) : Prop :=
  max_lcp cluster < cfg.k_right ∨
  (frequent_set cfg cluster 0).card = 0 ∨
  (frequent_set cfg cluster 1).card = 0 ∨
  2 < (frequent_set cfg cluster 0).card ∨
  2 < (frequent_set cfg cluster 1).card ∨
  frequent_set cfg cluster 0 = frequent_set cfg cluster 1 ∨
  3 < (frequent_set cfg cluster 0 ∪ frequent_set cfg cluster 1).card

instance (cfg : Config) (cluster : List t_GSA) : Decidable (inadmissible cfg cluster) := by
  unfold inadmissible
  infer_instance

/-- The entry `e_a`: the last entry of the cluster with `text < N1`,
`bwt = c0` and `suff ≥ k_left`. -/
def last_entry_0 (cfg : Config) (cluster : List t_GSA) (c0 : Char) : Option t_GSA :=
  (cluster.filter fun e => e.text < cfg.nr_reads1 ∧ e.bwt = c0 ∧ cfg.k_left ≤ e.suff).getLast?

/-- The entry `e_b`: the last entry of the cluster with `text ≥ N1`,
`bwt = c1` and `suff ≥ k_left`. -/
def last_entry_1 (cfg : Config) (cluster : List t_GSA) (c1 : Char) : Option t_GSA :=
  (cluster.filter fun e => cfg.nr_reads1 ≤ e.text ∧ e.bwt = c1 ∧ cfg.k_left ≤ e.suff).getLast?

/-- The candidate of the pair `(c0, c1)` according to the specification:
`(e_a.text, e_a.suff − k_left, e_b.text, e_b.suff − k_left, e*.text, e*.suff)`
when `e_a` and `e_b` exist, nothing otherwise. -/
def spec_candidate (cfg : Config) (cluster : List t_GSA) (c0 c1 : Char) :
    Option candidate_variant :=
  match last_entry_0 cfg cluster c0, last_entry_1 cfg cluster c1, peak_entry cluster with
  | some ea, some eb, some es =>
    some { left_context_idx_0 := ea.text, left_context_pos_0 := ea.suff - cfg.k_left,
           left_context_idx_1 := eb.text, left_context_pos_1 := eb.suff - cfg.k_left,
           right_context_idx := es.text, right_context_pos := es.suff }
  | _, _, _ => none

/-- The candidates of a cluster according to the specification: one per pair
`(c0, c1)` of `F0 × F1` with `c0 ≠ c1`, in lexicographic order. -/
def spec_candidates (cfg : Config) (cluster : List t_GSA) : List candidate_variant :=
  ((frequent_set cfg cluster 0).sort (· ≤ ·)).flatMap fun c0 =>
    ((frequent_set cfg cluster 1).sort (· ≤ ·)).filterMap fun c1 =>
      if c0 ≠ c1 then spec_candidate cfg cluster c0 c1 else none

/-! ## Auxiliary definitions and examples used by the proofs -/

/-- The candidate pushed by the loop body for the pair `(c0, c1)`, if any. -/
def pair_cand (cfg : Config) (gsa_cluster : List t_GSA) (st : scan_state) (c0 c1 : Char) :
    Option candidate_variant :=
  if c0 ≠ c1 then
    let ls := gsa_cluster.foldl (left_step cfg c0 c1) left_init
    if ls.max_left_len_0 > 0 ∧ ls.max_left_len_1 > 0 then
      some { left_context_idx_0 := ls.max_left_idx_0, left_context_pos_0 := ls.max_left_pos_0,
             left_context_idx_1 := ls.max_left_idx_1, left_context_pos_1 := ls.max_left_pos_1,
             right_context_idx := st.max_lcp_read_idx,
             right_context_pos := st.max_lcp_read_pos }
    else none
  else none

/-- The sorted vector of frequent characters as a function of the four
tests `counts[s][c] >= mcov_out`. -/
def fc (b0 b1 b2 b3 : Bool) : List Char :=
  sort_chars (((List.range 4).filter fun c => [b0, b1, b2, b3].getD c false).map int_to_base)

/-- The set of frequent characters as a function of the same four tests. -/
def fs (b0 b1 b2 b3 : Bool) : Finset Char :=
  ((Finset.range 4).filter fun c => [b0, b1, b2, b3].getD c false = true).image int_to_base

/-- The cluster of the scenario "Minimal SNP" of the specification. -/
def example_cluster : List t_GSA :=
  [⟨0, 3, 0, 'A'⟩, ⟨0, 7, 3, 'A'⟩, ⟨1, 4, 3, 'C'⟩, ⟨2, 5, 3, 'C'⟩]

/-- The configuration of the scenario "Minimal SNP" of the specification:
`N1=1`, `k_left=3`, `k_right=3`, `mcov_out=2`. -/
def example_cfg : Config :=
  { k_left := 3, k_right := 3, max_snvs := 2, mcov_out := 2, max_clust_length := 150,
    max_gap := 2, nr_reads1 := 1 }

/-- The reads of the scenario "Minimal SNP": the characters preceding the
suffixes of `example_cluster` are its `bwt` characters. -/
def example_read (i : Nat) : List Char :=
  [['G','T','A','T','G','T','A','C','C','G'], ['T','G','T','C','C','C','G'],
    ['A','T','G','T','C','C','C','G']].getD i []

/-! ## Notions of the specification for the emitter -/

/-- A variant is accepted when `distance(L0, L1)` returns a `D` of at most 2. -/
def accepted (cfg : Config) (v : variant_t) : Bool :=
  match distance cfg.max_gap v.left_context_0 v.left_context_1 with
  | some d => decide (d.1 ≤ 2)
  | none => false

/-- The signed indel length `L` returned by the classifier for a variant. -/
def indel_len (cfg : Config) (v : variant_t) : Int :=
  match distance cfg.max_gap v.left_context_0 v.left_context_1 with
  | some d => d.2
  | none => 0

/-- The string `ALLELE` of the specification: `x/y` with the last characters
of `L0` and `L1` when `L = 0`, the last `L` characters of `L0` followed by `/`
when `L > 0`, and `/` followed by the last `-L` characters of `L1` when
`L < 0`. -/
def spec_allele (v : variant_t) (L : Int) : List Char :=
  if L = 0 then v.left_context_0.getLast?.toList ++ ['/'] ++ v.left_context_1.getLast?.toList
  else if 0 < L then v.left_context_0.drop (v.left_context_0.length - L.toNat) ++ ['/']
  else ['/'] ++ v.left_context_1.drop (v.left_context_1.length - (-L).toNat)

/-- The header `>KIND_PATH_path_n|P_1:|R|_ALLELE|high|nb_pol_1` of the
specification; `path` is `higher` or `lower`. -/
def spec_header (path : List Char) (n : Nat) (v : variant_t) (L : Int) : List Char :=
  ">".toList ++ (if L = 0 then "SNP".toList else "INDEL".toList) ++ "_".toList ++ path
    ++ "_path_".toList ++ (Nat.repr n).toList ++ "|P_1:".toList
    ++ (Nat.repr v.right_context.length).toList ++ "_".toList ++ spec_allele v L
    ++ "|high|nb_pol_1".toList

/-- The DNA body of the higher path according to the specification. -/
def spec_body_higher (v : variant_t) (L : Int) : List Char :=
  (if 0 ≤ L then v.left_context_0 else v.left_context_0.drop (-L).toNat) ++ v.right_context

/-- The DNA body of the lower path according to the specification. -/
def spec_body_lower (v : variant_t) (L : Int) : List Char :=
  (if L ≤ 0 then v.left_context_1 else v.left_context_1.drop L.toNat) ++ v.right_context

/-- The four lines of the specification for an accepted variant with id `n`. -/
def spec_records (cfg : Config) (n : Nat) (v : variant_t) : List (List Char) :=
  [spec_header "higher".toList n v (indel_len cfg v), spec_body_higher v (indel_len cfg v),
   spec_header "lower".toList n v (indel_len cfg v), spec_body_lower v (indel_len cfg v)]

/-- The lines of the specification for a list of variants, the ids of the
accepted ones starting at `n`. -/
def spec_output (cfg : Config) : Nat → List variant_t → List (List Char)
  | _, [] => []
  | n, v :: vs =>
    if accepted cfg v then spec_records cfg n v ++ spec_output cfg (n + 1) vs
    else spec_output cfg n vs

/-- The shape that `to_file` relies on: two left contexts of the same
non-zero length, not shorter than `max_gap`. -/
def wf_variant (cfg : Config) (v : variant_t) : Prop :=
  v.left_context_0.length = v.left_context_1.length ∧ v.left_context_0 ≠ [] ∧
  cfg.max_gap ≤ v.left_context_0.length

instance (cfg : Config) (v : variant_t) : Decidable (wf_variant cfg v) := by
  unfold wf_variant
  infer_instance

/-- The variant of the scenario "Minimal SNP": contexts `GTA`, `GTC`, `CCG`. -/
def example_variant : variant_t :=
  ⟨['G','T','A'], ['G','T','C'], ['C','C','G']⟩

/-- A variant with an insertion in the first context: `distance` with
`max_gap = 2` returns `(1, 1)` for `TTACCG`, `TTTACG`. -/
def example_indel : variant_t :=
  ⟨['T','T','A','C','C','G'], ['T','T','T','A','C','G'], ['A','A','A']⟩

/-! ## Cluster statistics -/

/-- The pairs `(start, length)` met by the body of a loop
`while(not clusters.eof())`: the stream reports end of file only after a read
has failed, so the body runs once more after the last record; its two reads
fail and leave `start` and `length` uninitialised. `stale` stands for the
values found in them. -/
def loop_records (records : List (Nat × Nat)) (stale : Nat × Nat) : List (Nat × Nat) :=
  records ++ [stale]

/-- The variables updated by the first loop of `statistics`: the vector
`clust_len_freq` (of `MAX_C_LEN + 1` cells), `max_len` and the globals
`n_clust`, `n_bases`. -/
structure stat_state where
  clust_len_freq : Nat → Nat
  max_len : Nat
  n_clust : Nat
  n_bases : Nat

/-- The values of those variables before the loop. -/
def stat_init : stat_state :=
  { clust_len_freq := fun _ => 0, max_len := 0, n_clust := 0, n_bases := 0 }

/-- One iteration of the first loop of `statistics` on the pair `r`. -/
def stat_step (MAX_C_LEN : Nat) (st : stat_state) (r : Nat × Nat) : stat_state :=
  let length := r.2
  let st1 : stat_state :=
    if length ≤ MAX_C_LEN then
      { st with
        clust_len_freq := fun l => if l = length then st.clust_len_freq l + 1
                                   else st.clust_len_freq l,
        max_len := if length > st.max_len then length else st.max_len }
    else st
  { st1 with n_clust := st1.n_clust + 1, n_bases := st1.n_bases + length }

/-- The first loop of `statistics` on a cluster file holding `records`. -/
def stat_scan (MAX_C_LEN : Nat) (records : List (Nat × Nat)) (stale : Nat × Nat) : stat_state :=
  (loop_records records stale).foldl (stat_step MAX_C_LEN) stat_init

/-- Division of unsigned integers: `none` on a division by zero. -/
def udiv (a b : Nat) : Option Nat :=
  if b = 0 then none else some (a / b)

/-- The read `clust_len_freq[i]` of a vector of `MAX_C_LEN + 1` cells: `none`
when the index is out of range. -/
def hist_at (MAX_C_LEN : Nat) (hist : Nat → Nat) (i : Nat) : Option Nat :=
  if i ≤ MAX_C_LEN then some (hist i) else none

/-- The loops `for(int i=1;i<=MAX_C_LEN;++i) max = w(i) > max ? w(i) : max`
of `statistics`, for a weight `w` of the cells. -/
def hist_max (MAX_C_LEN : Nat) (w : Nat → Nat) : Nat :=
  (List.range' 1 MAX_C_LEN).foldl (fun m i => if w i > m then w i else m) 0

/-- The two printing loops `for(int i=0;i<=max_len;++i)` of `statistics`:
the lengths `(100*w(clust_len_freq[i], i))/max` of the bars printed for the
indices of the list. -/
def bars (MAX_C_LEN : Nat) (hist : Nat → Nat) (w : Nat → Nat → Nat) (max : Nat) :
    List Nat → Option (List Nat)
  | [] => some []
  | i :: r =>
    match hist_at MAX_C_LEN hist i with
    | none => none
    | some h =>
      match udiv (100 * w h i) max with
      | none => none
      | some b =>
        match bars MAX_C_LEN hist w max r with
        | none => none
        | some bs => some (b :: bs)

/-- The loop `while(double(cumulative)/double(n_bases) < pval and
max_clust_length < MAX_C_LEN)` of `statistics`, from the values `L` of
`max_clust_length` and `cum` of `cumulative`; `below c` is the floating-point
test `double(c)/double(n_bases) < pval`. Every iteration increments
`max_clust_length`, so `MAX_C_LEN - L` iterations are enough: that is the
first argument. -/
def lmax_loop (MAX_C_LEN : Nat) (hist : Nat → Nat) (below : Nat → Bool) :
    Nat → Nat → Nat → Option Nat
  | 0, L, _ => some L
  | fuel + 1, L, cum =>
    if below cum = true ∧ L < MAX_C_LEN then
      match hist_at MAX_C_LEN hist (L + 1) with
      | none => none
      | some h => lmax_loop MAX_C_LEN hist below fuel (L + 1) (cum + h * (L + 1))
    else some L

/-- The auto-detection of the maximum cluster length in `statistics`:
`max_clust_length = 2*mcov_out`, `cumulative = clust_len_freq[max_clust_length]
*max_clust_length`, then the loop. -/
def auto_lmax (MAX_C_LEN mcov_out : Nat) (hist : Nat → Nat) (below : Nat → Bool) : Option Nat :=
  match hist_at MAX_C_LEN hist (2 * mcov_out) with
  | none => none
  | some h =>
    lmax_loop MAX_C_LEN hist below (MAX_C_LEN - 2 * mcov_out) (2 * mcov_out)
      (h * (2 * mcov_out))

/-- What `statistics` leaves behind: the globals `n_clust`, `n_bases` and
`max_clust_length`, and the histogram it built. -/
structure stat_result where
  n_clust : Nat
  n_bases : Nat
  max_clust_length : Nat
  clust_len_freq : Nat → Nat

/-- The function `statistics` of `clust2snp.cpp` on a cluster file holding
`records`, with `MAX_C_LEN = cfg.max_clust_length`; `lt_pval c n` is the
floating-point test `double(c)/double(n) < pval`. The result is `none` when
the run divides by zero or reads the histogram out of range. -/
def statistics (cfg : Config) (lt_pval : Nat → Nat → Bool) (records : List (Nat × Nat))
    (stale : Nat × Nat) : Option stat_result :=
  let MAX_C_LEN := cfg.max_clust_length
  let st := stat_scan MAX_C_LEN records stale
  let max := hist_max MAX_C_LEN fun i => st.clust_len_freq i * i
  match bars MAX_C_LEN st.clust_len_freq (fun h i => h * i) max (List.range (st.max_len + 1)) with
  | none => none
  | some _ =>
    match auto_lmax MAX_C_LEN cfg.mcov_out st.clust_len_freq (fun c => lt_pval c st.n_bases) with
    | none => none
    | some lmax =>
      let max2 := hist_max MAX_C_LEN st.clust_len_freq
      match bars MAX_C_LEN st.clust_len_freq (fun h _ => h) max2
          (List.range (st.max_len + 1)) with
      | none => none
      | some _ =>
        some { n_clust := st.n_clust, n_bases := st.n_bases, max_clust_length := lmax,
               clust_len_freq := st.clust_len_freq }

/-- The number of bases in the clusters of length `a` to `L`:
`Σ_{i=a..L} hist[i]·i`. -/
def cum_bases (hist : Nat → Nat) (a L : Nat) : Nat :=
  ∑ i ∈ Finset.Icc a L, hist i * i

/-! ## The EGSA cluster reader -/

/-- Modelled from the spec: `read_el` of `include.hpp`, which is not among
the sources. The entries of the EGSA file are read sequentially: `rows` is
the content of the file, `k` the number of entries read before this call, and
`eof_row` what the call returns once the file is exhausted. -/
def read_el (rows : List t_GSA) (eof_row : t_GSA) (k : Nat) : t_GSA :=
  rows.getD k eof_row

/-- The loop `while(i < start){ e = read_el(egsa, bcr); ++i; }` of
`find_events` on the pair `(i, e)`; it runs `start - i` times, the first
argument. When the position is `i`, `read_el` has been called `i + 1` times. -/
def skip_loop (rows : List t_GSA) (eof_row : t_GSA) : Nat → Nat × t_GSA → Nat × t_GSA
  | 0, s => s
  | n + 1, s => skip_loop rows eof_row n (s.1 + 1, read_el rows eof_row (s.1 + 1))

/-- The loop `while(i < start+length){ gsa_cluster.push_back(e);
e = read_el(egsa, bcr); ++i; }` of `find_events` on `(i, e, gsa_cluster)`; it
runs `start + length - i` times, the first argument. -/
def fill_loop (rows : List t_GSA) (eof_row : t_GSA) :
    Nat → Nat × t_GSA × List t_GSA → Nat × t_GSA × List t_GSA
  | 0, s => s
  | n + 1, s =>
    fill_loop rows eof_row n (s.1 + 1, read_el rows eof_row (s.1 + 1), s.2.2 ++ [s.2.1])

/-- The value of `n - 1` for an unsigned 64-bit `n`: it wraps to `2^64 - 1`
when `n` is zero. -/
def upred64 (n : Nat) : Nat :=
  if n = 0 then 18446744073709551615 else n - 1

/-- The variables of the loop of `find_events`: the position `i` on the
suffix array, the entry `e` read last, the vector `candidate_variants` and
the counter `cl`; `calls` records the buffers passed to `find_variants`. -/
structure events_state where
  i : Nat
  e : t_GSA
  candidate_variants : List candidate_variant
  calls : List (List t_GSA)
  cl : Nat

/-- The values of those variables before the loop: the first entry is read. -/
def events_init (rows : List t_GSA) (eof_row : t_GSA) : events_state :=
  { i := 0, e := read_el rows eof_row 0, candidate_variants := [], calls := [], cl := 0 }

/-- One iteration of the loop of `find_events` on the pair `r = (start,
length)`; `cfg.max_clust_length` is the value left by `statistics`. The
iteration ends with `perc = (cl*100)/(n_clust-1)` in unsigned 64-bit
arithmetic: `none` on a division by zero. -/
def events_step (cfg : Config) (n_clust : Nat) (rows : List t_GSA) (eof_row : t_GSA)
    (st : events_state) (r : Nat × Nat) : Option events_state :=
  let start := r.1
  let length := r.2
  let st1 : events_state :=
    if length ≥ cfg.mcov_out * 2 ∧ length ≤ cfg.max_clust_length then
      let s1 := skip_loop rows eof_row (start - st.i) (st.i, st.e)
      let s2 := fill_loop rows eof_row (start + length - s1.1) (s1.1, s1.2, [])
      { st with i := s2.1, e := s2.2.1,
                candidate_variants := st.candidate_variants ++ find_variants cfg s2.2.2,
                calls := st.calls ++ [s2.2.2] }
    else st
  (udiv ((st1.cl + 1) * 100) (upred64 n_clust)).map fun _ => { st1 with cl := st1.cl + 1 }

/-- The loop of `find_events` over the pairs met by its body. -/
def events_loop (cfg : Config) (n_clust : Nat) (rows : List t_GSA) (eof_row : t_GSA) :
    List (Nat × Nat) → events_state → Option events_state
  | [], st => some st
  | r :: rs, st =>
    match events_step cfg n_clust rows eof_row st r with
    | none => none
    | some st2 => events_loop cfg n_clust rows eof_row rs st2

/-- The function `find_events` of `clust2snp.cpp` on an EGSA file holding
`rows` and a cluster file holding `records`: the lines written to the output
file; `none` when the run aborts. -/
def find_events (cfg : Config) (n_clust : Nat) (get_reads : List Nat → List (List Char))
    (rows : List t_GSA) (eof_row : t_GSA) (records : List (Nat × Nat)) (stale : Nat × Nat) :
    Option (List (List Char)) :=
  match events_loop cfg n_clust rows eof_row (loop_records records stale)
      (events_init rows eof_row) with
  | none => none
  | some st =>
    match extract_variants get_reads cfg st.candidate_variants with
    | none => none
    | some output_variants => to_file cfg output_variants

/-- The two calls that end `main`: `statistics(clusters_path)`, then
`find_events(...)` with the globals `n_clust` and `max_clust_length` that
`statistics` has set. `stale_s` and `stale_f` are the values left in `start`
and `length` by the failed reads of the two functions. -/
def run (cfg : Config) (lt_pval : Nat → Nat → Bool) (get_reads : List Nat → List (List Char))
    (rows : List t_GSA) (eof_row : t_GSA) (records : List (Nat × Nat))
    (stale_s stale_f : Nat × Nat) : Option (List (List Char)) :=
  match statistics cfg lt_pval records stale_s with
  | none => none
  | some r =>
    find_events { cfg with max_clust_length := r.max_clust_length } r.n_clust get_reads rows
      eof_row records stale_f

/-- A cluster is examined by `find_events` when its length lies between
`2*mcov_out` and `Lmax` (the value of `max_clust_length` left by
`statistics`), both bounds included. -/
def admissible_length (cfg : Config) (r : Nat × Nat) : Bool :=
  decide (cfg.mcov_out * 2 ≤ r.2 ∧ r.2 ≤ cfg.max_clust_length)

/-- The EGSA rows `start, start+1, ..., start+length-1` of a cluster. -/
def cluster_rows (rows : List t_GSA) (r : Nat × Nat) : List t_GSA :=
  (rows.drop r.1).take r.2

/-- A configuration for the examples of `statistics`: `mcov_out = 2` and a
configured `max_clust_length` of 12. -/
def example_stat_cfg : Config :=
  { example_cfg with mcov_out := 2, max_clust_length := 12 }

/-- A cluster file of four records, of lengths 4, 5, 4 and 6. -/
def example_records : List (Nat × Nat) :=
  [(0, 4), (4, 5), (9, 4), (13, 6)]

/-- The test `cumulative/n_bases < pval` for `pval = 0.85`, in exact
arithmetic. -/
def example_lt_pval (c n : Nat) : Bool :=
  decide (c * 100 < 85 * n)

/-- The sum of the eight cells of the 2×4 matrix `counts`. -/
def cells_sum (counts : Nat → Nat → Nat) : Nat :=
  ∑ s ∈ Finset.range 2, ∑ c ∈ Finset.range 4, counts s c

/-- An EGSA entry whose `bwt` is not a base. -/
def example_entry_n : t_GSA :=
  ⟨3, 9, 3, 'N'⟩

/-! ## Option handling in `main` -/

/-- The `int` globals that the options of `main` set, and `nr_reads1`. The
globals `input`, `pval` and `bcr` are left out. -/
structure Globals where
  k_left : Int
  k_right : Int
  max_snvs : Int
  mcov_out : Int
  max_clust_length : Int
  max_gap : Int
  nr_reads1 : Nat

/-- The initial values of the globals: all are zero. -/
def globals_init : Globals :=
  { k_left := 0, k_right := 0, max_snvs := 0, mcov_out := 0, max_clust_length := 0,
    max_gap := 0, nr_reads1 := 0 }

/-- The default `k_left_def = 31`. -/
def k_left_def : Int := 31

/-- The default `k_right_def = 30`. -/
def k_right_def : Int := 30

/-- The default `mcov_out_def = 5`. -/
def mcov_out_def : Int := 5

/-- The default `max_clust_length_def = 150`. -/
def max_clust_length_def : Int := 150

/-- The default `max_gap_def = 10`. -/
def max_gap_def : Int := 10

/-- The call `getopt(argc, argv, "hi:n:p:v:L:R:m:g:")` on the option letter
`c`: a letter that is not in the option string is reported as `?`. -/
def getopt (c : Char) : Char :=
  if c ∈ ['h', 'i', 'n', 'p', 'v', 'L', 'R', 'm', 'g'] then c else '?'

/-- The `switch (opt)` of `main`, `arg` being `atoi(optarg)`; `none` when
`help()` is called, which exits. -/
def main_switch (g : Globals) (opt : Char) (arg : Int) : Option Globals :=
  if opt = 'h' then none
  else if opt = 'b' then some g
  else if opt = 'i' then some g
  else if opt = 'n' then some { g with nr_reads1 := (arg % 18446744073709551616).toNat }
  else if opt = 'm' then some { g with mcov_out := arg }
  else if opt = 'g' then some { g with max_gap := arg }
  else if opt = 'M' then some { g with max_clust_length := arg }
  else if opt = 'L' then some { g with k_left := arg }
  else if opt = 'R' then some { g with k_right := arg }
  else if opt = 'p' then some g
  else if opt = 'v' then some { g with max_snvs := arg }
  else none

/-- One iteration of the option loop of `main` for the option `-c arg`. -/
def main_option (g : Globals) (c : Char) (arg : Int) : Option Globals :=
  main_switch g (getopt c) arg

/-- The default resolution of `main`: a global that is zero takes its
default value. -/
def resolve_defaults (g : Globals) : Globals :=
  { g with
    max_gap := if g.max_gap = 0 then max_gap_def else g.max_gap,
    max_clust_length :=
      if g.max_clust_length = 0 then max_clust_length_def else g.max_clust_length,
    k_left := if g.k_left = 0 then k_left_def else g.k_left,
    k_right := if g.k_right = 0 then k_right_def else g.k_right,
    max_snvs := if g.max_snvs = 0 then max_snvs_def else g.max_snvs,
    mcov_out := if g.mcov_out = 0 then mcov_out_def else g.mcov_out }

/-- The configuration seen by the pipeline for globals that are not negative. -/
def to_config (g : Globals) : Config :=
  { k_left := g.k_left.toNat, k_right := g.k_right.toNat, max_snvs := g.max_snvs,
    mcov_out := g.mcov_out.toNat, max_clust_length := g.max_clust_length.toNat,
    max_gap := g.max_gap.toNat, nr_reads1 := g.nr_reads1 }

/-- A variant with left contexts of 12 characters: the first one without its
last character is a suffix of the second one. -/
def example_long_indel : variant_t :=
  ⟨['A','C','G','T','A','C','G','T','A','C','G','A'],
   ['T','A','C','G','T','A','C','G','T','A','C','G'], ['C','C','G']⟩

/-! ## The command line of `main` -/

/-- The argument of an option as its two readings: `atoi(optarg)` and
`atof(optarg)` (a double, here a rational). -/
structure optarg_t where
  atoi : Int
  atof : Rat

/-- The default `pval_def = 0.85`. -/
def pval_def : Rat := 85 / 100

/-- The option loop of `main` on the options `-c optarg` in the order of the
command line; the state is the `int` globals with `nr_reads1`, and `pval`.
It ends with `none` at the first option for which `help()` is called. -/
def main_loop : Globals × Rat → List (Char × optarg_t) → Option (Globals × Rat)
  | s, [] => some s
  | s, o :: rest =>
    match main_option s.1 o.1 o.2.atoi with
    | none => none
    | some g => main_loop (g, if getopt o.1 = 'p' then o.2.atof else s.2) rest

/-- The body of `main` up to the call of `statistics`: the test `argc < 3`
(a command line without any option), the option loop, the default resolution, the test `input.compare("")==0 or nr_reads1 == 0` (the
input is taken to be non-empty when an option `-i` is given) and the two
tests that the EGSA file and the clusters file can be opened. The result is
`none` when `help()` is called, and otherwise the globals with which
`statistics` and `find_events` run. The test of `pval` is commented out in
the source and is not part of the body. -/
def main_setup (opts : List (Char × optarg_t)) (egsa_good clusters_good : Bool) :
    Option (Globals × Rat) :=
  if opts.isEmpty then none
  else
    match main_loop (globals_init, 0) opts with
    | none => none
    | some s =>
      let g := resolve_defaults s.1
      let pval := if s.2 = 0 then pval_def else s.2
      if (opts.all fun o => decide (o.1 ≠ 'i')) ∨ g.nr_reads1 = 0 then none
      else if egsa_good = false then none
      else if clusters_good = false then none
      else some (g, pval)

/-- A variant with left contexts of 31 characters that differ in the last
one, and the right context `CCG`. -/
def example_snp_31 : variant_t :=
  ⟨List.replicate 30 'A' ++ ['A'], List.replicate 30 'A' ++ ['C'], ['C', 'C', 'G']⟩

/-! ## The progress counter of `get_reads` -/

/-- The values of `perc = (i*100)/(read_ranks.size()-1)` for the indices `is`
of the loop of `get_reads`, `d` being the 64-bit value `read_ranks.size()-1`;
`none` on a division by zero. -/
def perc_loop (d : Nat) : List Nat → Option (List Nat)
  | [] => some []
  | i :: r => (udiv (i * 100 % 18446744073709551616) d).bind fun p =>
      (perc_loop d r).map fun ps => p :: ps

/-- The progress values computed by the loop `for(i = 0; i < read_ranks.size(); ++i)`
of `get_reads`. -/
def get_reads_perc (read_ranks : List Nat) : Option (List Nat) :=
  perc_loop (upred64 read_ranks.length) (List.range read_ranks.length)

/-! ## compareVCF -/

/-- The default `indel_window_def = 10`. -/
def indel_window_def : Int := 10

/-- A VCF record, `vcf_entry`. -/
structure vcf_entry where
  chr : List Char
  pos : Nat
  REF : List Char
  ALT : List Char
  indel : Bool
deriving DecidableEq

/-- The test `s.compare(t) < 0` of `std::string`: `s` precedes `t` in the
lexicographic order of the character codes, a proper initial segment
preceding the longer string. -/
def str_lt : List Char → List Char → Bool
  | [], [] => false
  | [], _ :: _ => true
  | _ :: _, [] => false
  | x :: xs, y :: ys =>
    if x.toNat < y.toNat then true
    else if y.toNat < x.toNat then false
    else str_lt xs ys

/-- The order `vcf_entry::operator<`: by `chr`, then by `pos`. -/
def vcf_lt (x a : vcf_entry) : Bool :=
  if str_lt x.chr a.chr then true
  else if x.chr = a.chr then decide (x.pos < a.pos)
  else false

/-- The equality `vcf_entry::operator==`: same `chr`, `pos`, `REF` and `ALT`. -/
def vcf_eq (x a : vcf_entry) : Bool :=
  decide (x.chr = a.chr) && decide (x.pos = a.pos) && decide (x.REF = a.REF) &&
    decide (x.ALT = a.ALT)

/-- The call `vcf.insert(e)` on a `set<vcf_entry>`, the set being the list of
its elements in ascending order: `e` is put at its place unless the set holds
an element equivalent to it (neither is less than the other). -/
def set_insert (e : vcf_entry) : List vcf_entry → List vcf_entry
  | [] => [e]
  | x :: xs =>
    if vcf_lt e x then e :: x :: xs
    else if vcf_lt x e then x :: set_insert e xs
    else x :: xs

/-- The call `vcf2.lower_bound(v)`: the first element that is not less than
`v`, `none` for `end()`. -/
def lower_bound (s : List vcf_entry) (v : vcf_entry) : Option vcf_entry :=
  s.find? fun e => !vcf_lt e v

/-- The call `vcf2.upper_bound(v)`: the first element that `v` is less than,
`none` for `end()`. -/
def upper_bound (s : List vcf_entry) (v : vcf_entry) : Option vcf_entry :=
  s.find? fun e => vcf_lt v e

/-- The call `vcf2.find(v)`: the element equivalent to `v`, `none` for
`end()`. -/
def set_find (s : List vcf_entry) (v : vcf_entry) : Option vcf_entry :=
  s.find? fun e => !vcf_lt e v && !vcf_lt v e

/-- The function `read_vcf` on the data lines of the file (those that do not
start with `#`), each one given by its fields `chr`, `atoi(pos)`, `ref` and
`alt`. -/
def read_vcf (lines : List (List Char × Nat × List Char × List Char)) : List vcf_entry :=
  lines.foldl (fun vcf l =>
    set_insert ⟨l.1, l.2.1, l.2.2.1, l.2.2.2,
      decide (l.2.2.1.length > 1) || decide (l.2.2.2.length > 1)⟩ vcf) []

/-- The conversion `int(x)` of a 64-bit unsigned value. -/
def to_int (x : Nat) : Int :=
  if x % 4294967296 < 2147483648 then ((x % 4294967296 : Nat) : Int)
  else ((x % 4294967296 : Nat) : Int) - 4294967296

/-- The test of `main` on the iterator `it` (`itL` or `itU`) for the indel
call `v`: `it != vcf2.end() && it->indel and it->chr.compare(v.chr)==0 and
std::abs(int(it->pos)-int(v.pos)) <= indel_window`. -/
def indel_near (indel_window : Int) (v : vcf_entry) (it : Option vcf_entry) : Bool :=
  match it with
  | none => false
  | some e => e.indel && decide (e.chr = v.chr) &&
      decide (((to_int e.pos - to_int v.pos).natAbs : Int) ≤ indel_window)

/-- The state of the matching loop of `main`: the ground-truth set and the
four counters. -/
structure cmp_state where
  vcf2 : List vcf_entry
  TP_s : Nat
  FP_s : Nat
  TP_i : Nat
  FP_i : Nat

/-- The body of the loop `for(auto v:vcf1)` of `main`. -/
def cmp_step (indel_window : Int) (st : cmp_state) (v : vcf_entry) : cmp_state :=
  if v.indel then
    let itL := lower_bound st.vcf2 v
    let itU := upper_bound st.vcf2 v
    let it0 : Option vcf_entry := none
    let it1 := if indel_near indel_window v itL then itL else it0
    let it2 := if indel_near indel_window v itU then itU else it1
    match it2 with
    | some e => { st with TP_i := st.TP_i + 1, vcf2 := st.vcf2.erase e }
    | none => { st with FP_i := st.FP_i + 1 }
  else
    match set_find st.vcf2 v with
    | some e => { st with TP_s := st.TP_s + 1, vcf2 := st.vcf2.erase e }
    | none => { st with FP_s := st.FP_s + 1 }

/-- The six counts printed by `main`. -/
structure cmp_result where
  TP_s : Nat
  FP_s : Nat
  FN_s : Nat
  TP_i : Nat
  FP_i : Nat
  FN_i : Nat
deriving DecidableEq

/-- The counts computed by `main` of compareVCF: `d` is the value of the
option `-d` (0 when absent), `lines1` the data lines of the VCF to be
validated and `lines2` those of the ground truth. -/
def compare_vcf (d : Int) (lines1 lines2 : List (List Char × Nat × List Char × List Char)) :
    cmp_result :=
  let indel_window := if d = 0 then indel_window_def else d
  let st := (read_vcf lines1).foldl (cmp_step indel_window) ⟨read_vcf lines2, 0, 0, 0, 0⟩
  { TP_s := st.TP_s, FP_s := st.FP_s,
    FN_s := (st.vcf2.filter fun e => !e.indel).length,
    TP_i := st.TP_i, FP_i := st.FP_i,
    FN_i := (st.vcf2.filter fun e => e.indel).length }

/-- A data line of a VCF file: `chr`, `pos`, `ref` and `alt`. -/
def vcf_line (chr : String) (pos : Nat) (ref alt : String) :
    List Char × Nat × List Char × List Char :=
  (chr.toList, pos, ref.toList, alt.toList)

/-! ## Properties of `dH`, `min_element` and `distance` -/

theorem foldl_add_ge (f : Nat → Int) (hf : ∀ i, 0 ≤ f i) (l : List Nat) (d : Int) :
    d ≤ l.foldl (fun d i => d + f i) d := by
  induction l generalizing d with
  | nil => simp
  | cons x xs ih =>
    simp only [List.foldl_cons]
    exact le_trans (by have := hf x; omega) (ih (d + f x))

theorem foldl_add_zero (f : Nat → Int) (l : List Nat) (hf : ∀ i ∈ l, f i = 0) (d : Int) :
    l.foldl (fun d i => d + f i) d = d := by
  induction l generalizing d with
  | nil => simp
  | cons x xs ih =>
    simp only [List.foldl_cons]
    rw [hf x (by simp), add_zero]
    exact ih (fun i hi => hf i (by simp [hi])) d

theorem dH_nonneg (a b : List Char) : 0 ≤ dH a b := by
  unfold dH
  exact foldl_add_ge _ (fun i => by split <;> simp) _ 0

theorem dH_comm (a b : List Char) : dH a b = dH b a := by
  unfold dH
  have hlen : (if a.length < b.length then a.length else b.length)
      = (if b.length < a.length then b.length else a.length) := by
    split <;> split <;> omega
  rw [hlen]
  dsimp only
  congr 1
  funext d i
  by_cases h : a[a.length - i - 1]? = b[b.length - i - 1]?
  · simp [h]
  · have h2 : ¬ b[b.length - i - 1]? = a[a.length - i - 1]? := fun e => h e.symm
    simp [h, h2]

theorem dH_self (a : List Char) : dH a a = 0 := by
  unfold dH
  exact foldl_add_zero _ _ (fun i _ => by simp) 0

theorem min_element_loop_spec (xs : List Int) :
    ∀ (pre : List Int) (bi : Nat) (bv : Int), bi < pre.length → pre.getD bi 0 = bv →
      (∀ j, j < pre.length → bv ≤ pre.getD j 0) →
      min_element_loop xs pre.length bi bv < (pre ++ xs).length ∧
      ∀ j, j < (pre ++ xs).length →
        (pre ++ xs).getD (min_element_loop xs pre.length bi bv) 0 ≤ (pre ++ xs).getD j 0 := by
  induction xs with
  | nil =>
    intro pre bi bv hbi hbv hmin
    simp only [min_element_loop, List.append_nil]
    exact ⟨hbi, fun j hj => by rw [hbv]; exact hmin j hj⟩
  | cons x xs ih =>
    intro pre bi bv hbi hbv hmin
    have hpre : (pre ++ [x]).length = pre.length + 1 := by simp
    have happ : pre ++ x :: xs = (pre ++ [x]) ++ xs := by simp
    have hget : ∀ j, j < pre.length → (pre ++ [x]).getD j 0 = pre.getD j 0 := by
      intro j hj
      simp [List.getD_eq_getElem?_getD, List.getElem?_append_left hj]
    have hlast : (pre ++ [x]).getD pre.length 0 = x := by
      simp [List.getD_eq_getElem?_getD]
    simp only [min_element_loop]
    split
    · rename_i hlt
      have := ih (pre ++ [x]) pre.length x (by omega) hlast (by
        intro j hj
        rw [hpre] at hj
        by_cases hj2 : j < pre.length
        · rw [hget j hj2]; have := hmin j hj2; omega
        · have : j = pre.length := by omega
          rw [this, hlast])
      rw [hpre] at this
      rw [happ]; exact this
    · rename_i hlt
      have := ih (pre ++ [x]) bi bv (by omega) (by rw [hget bi hbi]; exact hbv) (by
        intro j hj
        rw [hpre] at hj
        by_cases hj2 : j < pre.length
        · rw [hget j hj2]; exact hmin j hj2
        · have : j = pre.length := by omega
          rw [this, hlast]; omega)
      rw [hpre] at this
      rw [happ]; exact this

theorem min_element_spec (xs : List Int) (h : xs ≠ []) :
    min_element xs < xs.length ∧
    ∀ j, j < xs.length → xs.getD (min_element xs) 0 ≤ xs.getD j 0 := by
  cases xs with
  | nil => exact absurd rfl h
  | cons x xs =>
    have := min_element_loop_spec xs [x] 0 x (by simp) (by simp) (by
      intro j hj
      have : j = 0 := by simpa using hj
      simp [this])
    simpa [min_element] using this

theorem dist_ab_length (g : Nat) (a b : List Char) : (dist_ab g a b).length = g := by
  simp [dist_ab]

theorem dist_ba_length (g : Nat) (a b : List Char) : (dist_ba g a b).length = g := by
  simp [dist_ba]

theorem dist_ab_getD (g : Nat) (a b : List Char) (j : Nat) (hj : j < g) :
    (dist_ab g a b).getD j 0 = dH (a.take (a.length - (j + 1))) b + ((j : Int) + 1) := by
  simp [dist_ab, List.getD_eq_getElem?_getD, List.getElem?_range', hj, add_comm]

theorem dist_ba_getD (g : Nat) (a b : List Char) (j : Nat) (hj : j < g) :
    (dist_ba g a b).getD j 0 = dH a (b.take (b.length - (j + 1))) + ((j : Int) + 1) := by
  simp [dist_ba, List.getD_eq_getElem?_getD, List.getElem?_range', hj, add_comm]

theorem dist_ab_swap (g : Nat) (a b : List Char) : dist_ab g a b = dist_ba g b a := by
  simp [dist_ab, dist_ba, dH_comm]

theorem dist_ab_min (g : Nat) (a b : List Char) (hg : g ≠ 0) :
    min_element (dist_ab g a b) < g ∧
    (dist_ab g a b).getD (min_element (dist_ab g a b)) 0
      = dH (a.take (a.length - (min_element (dist_ab g a b) + 1))) b
        + ((min_element (dist_ab g a b) : Int) + 1) ∧
    ∀ i : Nat, 1 ≤ i → i ≤ g →
      (dist_ab g a b).getD (min_element (dist_ab g a b)) 0
        ≤ dH (a.take (a.length - i)) b + (i : Int) := by
  have hne : dist_ab g a b ≠ [] := by
    intro h
    have := dist_ab_length g a b
    rw [h] at this
    exact hg (by simpa using this.symm)
  obtain ⟨h1, h2⟩ := min_element_spec (dist_ab g a b) hne
  rw [dist_ab_length] at h1 h2
  refine ⟨h1, dist_ab_getD g a b _ h1, ?_⟩
  intro i hi1 hi2
  have := h2 (i - 1) (by omega)
  rw [dist_ab_getD g a b (i - 1) (by omega)] at this
  have e : i - 1 + 1 = i := by omega
  have e2 : ((i - 1 : Nat) : Int) + 1 = (i : Int) := by omega
  rw [e, e2] at this
  exact this

theorem dist_ba_min (g : Nat) (a b : List Char) (hg : g ≠ 0) :
    min_element (dist_ba g a b) < g ∧
    (dist_ba g a b).getD (min_element (dist_ba g a b)) 0
      = dH a (b.take (b.length - (min_element (dist_ba g a b) + 1)))
        + ((min_element (dist_ba g a b) : Int) + 1) ∧
    ∀ i : Nat, 1 ≤ i → i ≤ g →
      (dist_ba g a b).getD (min_element (dist_ba g a b)) 0
        ≤ dH a (b.take (b.length - i)) + (i : Int) := by
  have h := dist_ab_min g b a hg
  rw [dist_ab_swap g b a] at h
  obtain ⟨h1, h2, h3⟩ := h
  refine ⟨h1, ?_, ?_⟩
  · rw [h2, dH_comm]
  · intro i hi1 hi2
    rw [dH_comm a]
    exact h3 i hi1 hi2

theorem distance_unfold (g : Nat) (a b : List Char)
    (hlen : a.length = b.length) (hgap : g ≤ a.length) (g0 : g ≠ 0) :
    distance g a b =
      (if dH a b < (dist_ab g a b).getD (min_element (dist_ab g a b)) 0 ∧
          dH a b < (dist_ba g a b).getD (min_element (dist_ba g a b)) 0 then
        some (dH a b, 0)
      else if (dist_ab g a b).getD (min_element (dist_ab g a b)) 0
          < (dist_ba g a b).getD (min_element (dist_ba g a b)) 0 then
        some ((dist_ab g a b).getD (min_element (dist_ab g a b)) 0
          - ((min_element (dist_ab g a b) : Int) + 1),
          (min_element (dist_ab g a b) : Int) + 1)
      else
        some ((dist_ba g a b).getD (min_element (dist_ba g a b)) 0
          - ((min_element (dist_ba g a b) : Int) + 1),
          -((min_element (dist_ba g a b) : Int) + 1))) := by
  simp [distance, hlen, g0, hlen ▸ hgap]

/-- C1: for equal-length `a`, `b` and `max_gap ≤ |a|`, `distance` returns a
pair `(D, L)` with `|L| ≤ max_gap` whose cost `D + |L|` is the minimum of
`dH(a,b)`, `dH(a[0..|a|-i], b) + i` and `dH(a, b[0..|b|-i]) + i` over
`i = 1..max_gap` (it is a lower bound of all of them and equals one of them);
`D = dH(a,b)` when `L = 0`, `D = dH(a[0..|a|-L], b)` when `L > 0`,
`D = dH(a, b[0..|b|+L])` when `L < 0`, and the result is `(dH(a,b), 0)` when
`max_gap = 0`. -/
theorem distance_min_alignment (max_gap : Nat) (a b : List Char)
    (hlen : a.length = b.length) (hgap : max_gap ≤ a.length) :
    ∃ D L : Int, distance max_gap a b = some (D, L) ∧ L.natAbs ≤ max_gap ∧
      D + (L.natAbs : Int) ≤ dH a b ∧
      (∀ i : Nat, 1 ≤ i → i ≤ max_gap →
        D + (L.natAbs : Int) ≤ dH (a.take (a.length - i)) b + (i : Int) ∧
        D + (L.natAbs : Int) ≤ dH a (b.take (b.length - i)) + (i : Int)) ∧
      (D + (L.natAbs : Int) = dH a b ∨
        ∃ i : Nat, 1 ≤ i ∧ i ≤ max_gap ∧
          (D + (L.natAbs : Int) = dH (a.take (a.length - i)) b + (i : Int) ∨
           D + (L.natAbs : Int) = dH a (b.take (b.length - i)) + (i : Int))) ∧
      (L = 0 → D = dH a b) ∧
      (0 < L → D = dH (a.take (a.length - L.natAbs)) b) ∧
      (L < 0 → D = dH a (b.take (b.length - L.natAbs))) ∧
      (max_gap = 0 → D = dH a b ∧ L = 0) := by
  by_cases g0 : max_gap = 0
  · subst g0
    refine ⟨dH a b, 0, by simp [distance, hlen], by simp, by simp, ?_, Or.inl (by simp),
      fun _ => rfl, fun h => absurd h (by simp), fun h => absurd h (by simp), fun _ => ⟨rfl, rfl⟩⟩
    intro i h1 h2
    omega
  · obtain ⟨ha1, ha2, ha3⟩ := dist_ab_min max_gap a b g0
    obtain ⟨hb1, hb2, hb3⟩ := dist_ba_min max_gap a b g0
    have hd := distance_unfold max_gap a b hlen hgap g0
    rw [hd]
    generalize min_element (dist_ab max_gap a b) = ia at *
    generalize min_element (dist_ba max_gap a b) = ib at *
    generalize (dist_ab max_gap a b).getD ia 0 = va at *
    generalize (dist_ba max_gap a b).getD ib 0 = vb at *
    have na : ((ia : Int) + 1).natAbs = ia + 1 := by omega
    have nb : (-((ib : Int) + 1)).natAbs = ib + 1 := by omega
    split_ifs with h1 h2
    · refine ⟨dH a b, 0, rfl, by simp, by simp, ?_, Or.inl (by simp),
        fun _ => rfl, fun h => absurd h (by simp), fun h => absurd h (by simp),
        fun h => absurd h g0⟩
      intro i hi1 hi2
      have := ha3 i hi1 hi2
      have := hb3 i hi1 hi2
      simp only [Int.natAbs_zero, Nat.cast_zero, add_zero]
      omega
    · refine ⟨va - ((ia : Int) + 1), (ia : Int) + 1, rfl, by omega, by rw [na]; push_cast; omega,
        ?_, Or.inr ⟨ia + 1, by omega, by omega, Or.inl (by rw [na, ha2]; push_cast; omega)⟩,
        fun h => by omega, fun _ => by rw [na, ha2]; omega, fun h => by omega,
        fun h => absurd h g0⟩
      intro i hi1 hi2
      have := ha3 i hi1 hi2
      have := hb3 i hi1 hi2
      rw [na]; push_cast
      omega
    · refine ⟨vb - ((ib : Int) + 1), -((ib : Int) + 1), rfl, by omega, by rw [nb]; push_cast; omega,
        ?_, Or.inr ⟨ib + 1, by omega, by omega, Or.inr (by rw [nb, hb2]; push_cast; omega)⟩,
        fun h => by omega, fun h => by omega, fun _ => by rw [nb, hb2]; omega,
        fun h => absurd h g0⟩
      intro i hi1 hi2
      have := ha3 i hi1 hi2
      have := hb3 i hi1 hi2
      rw [nb]; push_cast
      omega

/-- Witness of C1 on the documented example with `max_gap = 2`. -/
theorem distance_min_alignment_witness :
    ['A','C','C','T','A','C','T','G'].length = ['T','T','A','C','T','T','A','C'].length ∧
    2 ≤ ['A','C','C','T','A','C','T','G'].length ∧
    ∃ D L : Int, distance 2 ['A','C','C','T','A','C','T','G'] ['T','T','A','C','T','T','A','C']
        = some (D, L) ∧ L.natAbs ≤ 2 ∧
      D + (L.natAbs : Int) ≤ dH ['A','C','C','T','A','C','T','G'] ['T','T','A','C','T','T','A','C'] :=
  ⟨by decide, by decide,
    (distance_min_alignment 2 ['A','C','C','T','A','C','T','G'] ['T','T','A','C','T','T','A','C']
      (by decide) (by decide)).imp fun _ h => h.imp fun _ h => ⟨h.1, h.2.1, h.2.2.1⟩⟩

/-- C2 as stated fails: with `max_gap = 1`, `distance("AC","CA") = (0,-1)`
but `distance("CA","AC")` is `(0,-1)` too, not `(0,+1)`. -/
theorem distance_symm_counterexample :
    ¬ (distance 1 ['A','C'] ['C','A'] = some (0, -1) ↔
        distance 1 ['C','A'] ['A','C'] = some (0, -(-1))) := by
  decide

/-- C2 amended: for equal-length `a`, `b` with `max_gap ≤ |a|`,
`distance(a,b) = (D,L) ⇔ distance(b,a) = (D,-L)` whenever `max_gap = 0`, or
the cheapest insertion-in-`a` cost and the cheapest insertion-in-`b` cost
differ, or `dH(a,b)` is strictly below both; when the two costs tie and
`dH(a,b)` is not strictly below them, both `distance(a,b)` and
`distance(b,a)` return a negative `L` with the same total cost `D + |L|`. -/
theorem distance_symm_amended (max_gap : Nat) (a b : List Char)
    (hlen : a.length = b.length) (hgap : max_gap ≤ a.length) :
    ((max_gap = 0 ∨
       (dist_ab max_gap a b).getD (min_element (dist_ab max_gap a b)) 0
         ≠ (dist_ba max_gap a b).getD (min_element (dist_ba max_gap a b)) 0 ∨
       (dH a b < (dist_ab max_gap a b).getD (min_element (dist_ab max_gap a b)) 0 ∧
        dH a b < (dist_ba max_gap a b).getD (min_element (dist_ba max_gap a b)) 0)) →
      ∀ D L : Int, distance max_gap a b = some (D, L) ↔ distance max_gap b a = some (D, -L)) ∧
    (max_gap ≠ 0 →
      (dist_ab max_gap a b).getD (min_element (dist_ab max_gap a b)) 0
         = (dist_ba max_gap a b).getD (min_element (dist_ba max_gap a b)) 0 →
      ¬ (dH a b < (dist_ab max_gap a b).getD (min_element (dist_ab max_gap a b)) 0) →
      ∃ D L D2 L2 : Int, distance max_gap a b = some (D, L) ∧
        distance max_gap b a = some (D2, L2) ∧ L < 0 ∧ L2 < 0 ∧ D - L = D2 - L2) := by
  by_cases g0 : max_gap = 0
  · subst g0
    refine ⟨fun _ D L => ?_, fun h => absurd rfl h⟩
    have e1 : distance 0 a b = some (dH a b, 0) := by simp [distance, hlen]
    have e2 : distance 0 b a = some (dH a b, 0) := by simp [distance, hlen, dH_comm b a]
    rw [e1, e2]
    simp only [Option.some.injEq, Prod.mk.injEq]
    constructor
    · rintro ⟨h1, h2⟩
      exact ⟨h1, by omega⟩
    · rintro ⟨h1, h2⟩
      exact ⟨h1, by omega⟩
  · have hd := distance_unfold max_gap a b hlen hgap g0
    have hd2 := distance_unfold max_gap b a hlen.symm (hlen ▸ hgap) g0
    rw [dist_ab_swap max_gap b a, ← dist_ab_swap max_gap a b, dH_comm b a] at hd2
    rw [hd, hd2]
    generalize min_element (dist_ab max_gap a b) = ia
    generalize min_element (dist_ba max_gap a b) = ib
    generalize (dist_ab max_gap a b).getD ia 0 = va
    generalize (dist_ba max_gap a b).getD ib 0 = vb
    generalize dH a b = d0
    constructor
    · intro hc D L
      by_cases h1 : d0 < va ∧ d0 < vb
      · have h1s : d0 < vb ∧ d0 < va := ⟨h1.2, h1.1⟩
        simp only [h1, h1s, and_self, if_true, Option.some.injEq, Prod.mk.injEq]
        constructor
        · rintro ⟨e1, e2⟩
          exact ⟨e1, by omega⟩
        · rintro ⟨e1, e2⟩
          exact ⟨e1, by omega⟩
      · have h1s : ¬ (d0 < vb ∧ d0 < va) := fun h => h1 ⟨h.2, h.1⟩
        have hne : va ≠ vb := by
          rcases hc with h | h | h
          · exact absurd h g0
          · exact h
          · exact absurd h h1
        rw [if_neg h1, if_neg h1s]
        by_cases h2 : va < vb
        · have h2s : ¬ vb < va := by omega
          rw [if_pos h2, if_neg h2s]
          simp only [Option.some.injEq, Prod.mk.injEq]
          constructor
          · rintro ⟨e1, e2⟩
            exact ⟨e1, by omega⟩
          · rintro ⟨e1, e2⟩
            exact ⟨e1, by omega⟩
        · have h2s : vb < va := by omega
          rw [if_neg h2, if_pos h2s]
          simp only [Option.some.injEq, Prod.mk.injEq]
          constructor
          · rintro ⟨e1, e2⟩
            exact ⟨e1, by omega⟩
          · rintro ⟨e1, e2⟩
            exact ⟨e1, by omega⟩
    · intro _ htie hnot
      have h1 : ¬ (d0 < va ∧ d0 < vb) := fun h => hnot h.1
      have h1s : ¬ (d0 < vb ∧ d0 < va) := fun h => hnot h.2
      have h2 : ¬ va < vb := by omega
      have h2s : ¬ vb < va := by omega
      rw [if_neg h1, if_neg h1s, if_neg h2, if_neg h2s]
      exact ⟨_, _, _, _, rfl, rfl, by omega, by omega, by omega⟩

/-- Witness of the amended C2 on the documented example with `max_gap = 2`. -/
theorem distance_symm_amended_witness :
    distance 2 ['A','C','C','T','A','C','T','G'] ['T','T','A','C','T','T','A','C'] = some (1, 2) ∧
    distance 2 ['T','T','A','C','T','T','A','C'] ['A','C','C','T','A','C','T','G'] = some (1, -2) :=
  ⟨by decide,
    ((distance_symm_amended 2 ['A','C','C','T','A','C','T','G'] ['T','T','A','C','T','T','A','C']
      (by decide) (by decide)).1 (by decide) 1 2).1 (by decide)⟩

/-- C3: `distance(a, a) = (0, 0)` for every string `a` with `|a| ≥ max_gap`. -/
theorem distance_self (max_gap : Nat) (a : List Char) (hgap : max_gap ≤ a.length) :
    distance max_gap a a = some (0, 0) := by
  by_cases g0 : max_gap = 0
  · simp [distance, g0, dH_self]
  · rw [distance_unfold max_gap a a rfl hgap g0, dH_self]
    obtain ⟨_, ha2, _⟩ := dist_ab_min max_gap a a g0
    obtain ⟨_, hb2, _⟩ := dist_ba_min max_gap a a g0
    have p1 := dH_nonneg (a.take (a.length - (min_element (dist_ab max_gap a a) + 1))) a
    have p2 := dH_nonneg a (a.take (a.length - (min_element (dist_ba max_gap a a) + 1)))
    rw [if_pos ⟨by rw [ha2]; omega, by rw [hb2]; omega⟩]

/-- Witness of C3 at `a = "ACGT"`, `max_gap = 3`. -/
theorem distance_self_witness :
    3 ≤ ['A','C','G','T'].length ∧ distance 3 ['A','C','G','T'] ['A','C','G','T'] = some (0, 0) :=
  ⟨by decide, distance_self 3 ['A','C','G','T'] (by decide)⟩

/-- C4: the examples of the doc comment of `distance` hold for every
`max_gap` from 2 to 8: `distance(ACCTACTG, TTACTTAC) = <1,2>` and
`distance(TTACTTAC, ACCTACTG) = <1,-2>`. -/
theorem distance_doc_examples (max_gap : Nat) (h2 : 2 ≤ max_gap) (h8 : max_gap ≤ 8) :
    distance max_gap ['A','C','C','T','A','C','T','G'] ['T','T','A','C','T','T','A','C']
      = some (1, 2) ∧
    distance max_gap ['T','T','A','C','T','T','A','C'] ['A','C','C','T','A','C','T','G']
      = some (1, -2) := by
  interval_cases max_gap <;> exact ⟨by decide, by decide⟩

/-- Witness of C4 at `max_gap = 5`. -/
theorem distance_doc_examples_witness :
    2 ≤ 5 ∧ 5 ≤ 8 ∧
    distance 5 ['A','C','C','T','A','C','T','G'] ['T','T','A','C','T','T','A','C']
      = some (1, 2) ∧
    distance 5 ['T','T','A','C','T','T','A','C'] ['A','C','C','T','A','C','T','G']
      = some (1, -2) :=
  ⟨by decide, by decide, distance_doc_examples 5 (by decide) (by decide)⟩

/-! ## Properties of `find_variants` -/

theorem usub64_eq (a b : Nat) (hb : b ≤ a) (ha : a < 18446744073709551616) :
    usub64 a b = a - b := by
  unfold usub64
  omega

theorem scan_snoc (cfg : Config) (l : List t_GSA) (e : t_GSA) :
    scan cfg (l ++ [e]) = scan_step cfg (scan cfg l) e := by
  simp [scan, List.foldl_append]

theorem max_lcp_snoc (l : List t_GSA) (e : t_GSA) :
    max_lcp (l ++ [e]) = max (max_lcp l) e.lcp := by
  simp [max_lcp, List.foldl_append]

theorem le_max_lcp (l : List t_GSA) : ∀ x ∈ l, x.lcp ≤ max_lcp l := by
  induction l using List.reverseRecOn with
  | nil => simp
  | append_singleton l e ih =>
    intro x hx
    rw [max_lcp_snoc]
    rcases List.mem_append.mp hx with h | h
    · exact le_trans (ih x h) (le_max_left _ _)
    · have : x = e := by simpa using h
      rw [this]; exact le_max_right _ _

theorem scan_step_max_lcp_val (cfg : Config) (st : scan_state) (e : t_GSA) :
    (scan_step cfg st e).max_lcp_val = max st.max_lcp_val e.lcp := by
  unfold scan_step
  by_cases h : e.lcp > st.max_lcp_val
  · simp [h]; omega
  · simp [h]; omega

theorem scan_step_peak (cfg : Config) (st : scan_state) (e : t_GSA) :
    ((scan_step cfg st e).max_lcp_read_idx, (scan_step cfg st e).max_lcp_read_pos) =
      if e.lcp > st.max_lcp_val then (e.text, e.suff)
      else (st.max_lcp_read_idx, st.max_lcp_read_pos) := by
  unfold scan_step
  by_cases h : e.lcp > st.max_lcp_val
  · simp [h]
  · simp [h]

theorem scan_max_lcp_val (cfg : Config) (l : List t_GSA) :
    (scan cfg l).max_lcp_val = max_lcp l := by
  induction l using List.reverseRecOn with
  | nil => rfl
  | append_singleton l e ih =>
    rw [scan_snoc, scan_step_max_lcp_val, max_lcp_snoc, ih]

theorem scan_peak (cfg : Config) (l : List t_GSA) (hpos : 0 < max_lcp l) :
    ∃ e, peak_entry l = some e ∧ (scan cfg l).max_lcp_read_idx = e.text ∧
      (scan cfg l).max_lcp_read_pos = e.suff := by
  induction l using List.reverseRecOn with
  | nil => simp [max_lcp] at hpos
  | append_singleton l e ih =>
    have hp := scan_step_peak cfg (scan cfg l) e
    rw [← scan_snoc, scan_max_lcp_val] at hp
    by_cases h : e.lcp > max_lcp l
    · rw [if_pos h] at hp
      refine ⟨e, ?_, congrArg Prod.fst hp, congrArg Prod.snd hp⟩
      have hm : max_lcp (l ++ [e]) = e.lcp := by rw [max_lcp_snoc]; omega
      unfold peak_entry
      rw [hm, List.find?_append]
      have hnone : List.find? (fun x => decide (x.lcp = e.lcp)) l = none := by
        rw [List.find?_eq_none]
        intro x hx
        have := le_max_lcp l x hx
        simp only [decide_eq_true_eq]
        omega
      rw [hnone]
      simp
    · rw [if_neg h] at hp
      have hm : max_lcp (l ++ [e]) = max_lcp l := by rw [max_lcp_snoc]; omega
      rw [hm] at hpos
      obtain ⟨e0, h0, h1, h2⟩ := ih hpos
      refine ⟨e0, ?_, (congrArg Prod.fst hp).trans h1, (congrArg Prod.snd hp).trans h2⟩
      unfold peak_entry at h0 ⊢
      rw [hm, List.find?_append, h0]
      simp

theorem pair_step_eq (cfg : Config) (cl : List t_GSA) (st : scan_state) (c0 c1 : Char)
    (out : List candidate_variant) :
    pair_step cfg cl st c0 c1 out = out ++ (pair_cand cfg cl st c0 c1).toList := by
  unfold pair_step pair_cand
  by_cases h : c0 ≠ c1
  · rw [if_pos h, if_pos h]
    dsimp only
    split <;> simp
  · rw [if_neg h, if_neg h]
    simp

theorem inner_loop_eq (cfg : Config) (cl : List t_GSA) (st : scan_state) (c0 : Char)
    (f1 : List Char) (out : List candidate_variant) :
    f1.foldl (fun out c1 => pair_step cfg cl st c0 c1 out) out
      = out ++ f1.filterMap (pair_cand cfg cl st c0) := by
  induction f1 generalizing out with
  | nil => simp
  | cons c1 r ih =>
    rw [List.foldl_cons, ih, pair_step_eq, List.filterMap_cons]
    cases pair_cand cfg cl st c0 c1 <;> simp

theorem outer_loop_eq (cfg : Config) (cl : List t_GSA) (st : scan_state)
    (f0 f1 : List Char) (out : List candidate_variant) :
    f0.foldl (fun out c0 => f1.foldl (fun out c1 => pair_step cfg cl st c0 c1 out) out) out
      = out ++ f0.flatMap fun c0 => f1.filterMap (pair_cand cfg cl st c0) := by
  induction f0 generalizing out with
  | nil => simp
  | cons c0 r ih =>
    rw [List.foldl_cons, ih, inner_loop_eq]
    simp [List.flatMap_cons]

theorem left_snoc (cfg : Config) (c0 c1 : Char) (l : List t_GSA) (e : t_GSA) :
    (l ++ [e]).foldl (left_step cfg c0 c1) left_init
      = left_step cfg c0 c1 (l.foldl (left_step cfg c0 c1) left_init) e := by
  simp [List.foldl_append]

theorem left_fold_0 (cfg : Config) (c0 c1 : Char) (l : List t_GSA) :
    match last_entry_0 cfg l c0 with
    | some ea =>
      (l.foldl (left_step cfg c0 c1) left_init).max_left_len_0 = cfg.k_left ∧
      (l.foldl (left_step cfg c0 c1) left_init).max_left_idx_0 = ea.text ∧
      (l.foldl (left_step cfg c0 c1) left_init).max_left_pos_0 = usub64 ea.suff cfg.k_left
    | none => (l.foldl (left_step cfg c0 c1) left_init).max_left_len_0 = 0 := by
  induction l using List.reverseRecOn with
  | nil => simp [last_entry_0, left_init]
  | append_singleton l e ih =>
    rw [left_snoc]
    generalize l.foldl (left_step cfg c0 c1) left_init = ls at ih ⊢
    unfold last_entry_0 at ih ⊢
    rw [List.filter_append]
    by_cases hp : e.text < cfg.nr_reads1 ∧ e.bwt = c0 ∧ cfg.k_left ≤ e.suff
    · have hf : List.filter (fun e => decide (e.text < cfg.nr_reads1 ∧ e.bwt = c0 ∧
          cfg.k_left ≤ e.suff)) [e] = [e] := by simp [hp]
      rw [hf, List.getLast?_append]
      simp only [List.getLast?_singleton, Option.or_some]
      obtain ⟨h1, h2, h3⟩ := hp
      unfold left_step
      by_cases hq : e.suff ≥ cfg.k_left ∧ e.bwt = c1 ∧
          (if e.text < cfg.nr_reads1 then false else true) = true
      · simp [h1] at hq
      · simp [h1, h2, h3]
    · have hf : List.filter (fun e => decide (e.text < cfg.nr_reads1 ∧ e.bwt = c0 ∧
          cfg.k_left ≤ e.suff)) [e] = [] := by simp [hp]
      rw [hf, List.append_nil]
      have hstep : (left_step cfg c0 c1 ls e).max_left_len_0 = ls.max_left_len_0 ∧
          (left_step cfg c0 c1 ls e).max_left_idx_0 = ls.max_left_idx_0 ∧
          (left_step cfg c0 c1 ls e).max_left_pos_0 = ls.max_left_pos_0 := by
        have hn : ¬ (e.suff ≥ cfg.k_left ∧ e.bwt = c0 ∧
            (if e.text < cfg.nr_reads1 then false else true) = false) := by
          intro ⟨a1, a2, a3⟩
          apply hp
          refine ⟨?_, a2, a1⟩
          by_contra hlt
          simp [hlt] at a3
        simp only [left_step]
        rw [if_neg hn]
        by_cases hq : e.suff ≥ cfg.k_left ∧ e.bwt = c1 ∧
            (if e.text < cfg.nr_reads1 then false else true) = true
        · rw [if_pos hq]; exact ⟨rfl, rfl, rfl⟩
        · rw [if_neg hq]; exact ⟨rfl, rfl, rfl⟩
      rw [hstep.1, hstep.2.1, hstep.2.2]
      exact ih

theorem left_fold_1 (cfg : Config) (c0 c1 : Char) (l : List t_GSA) :
    match last_entry_1 cfg l c1 with
    | some eb =>
      (l.foldl (left_step cfg c0 c1) left_init).max_left_len_1 = cfg.k_left ∧
      (l.foldl (left_step cfg c0 c1) left_init).max_left_idx_1 = eb.text ∧
      (l.foldl (left_step cfg c0 c1) left_init).max_left_pos_1 = usub64 eb.suff cfg.k_left
    | none => (l.foldl (left_step cfg c0 c1) left_init).max_left_len_1 = 0 := by
  induction l using List.reverseRecOn with
  | nil => simp [last_entry_1, left_init]
  | append_singleton l e ih =>
    rw [left_snoc]
    generalize l.foldl (left_step cfg c0 c1) left_init = ls at ih ⊢
    unfold last_entry_1 at ih ⊢
    rw [List.filter_append]
    by_cases hp : cfg.nr_reads1 ≤ e.text ∧ e.bwt = c1 ∧ cfg.k_left ≤ e.suff
    · have hf : List.filter (fun e => decide (cfg.nr_reads1 ≤ e.text ∧ e.bwt = c1 ∧
          cfg.k_left ≤ e.suff)) [e] = [e] := by simp [hp]
      rw [hf, List.getLast?_append]
      simp only [List.getLast?_singleton, Option.or_some]
      obtain ⟨h1, h2, h3⟩ := hp
      have h1n : ¬ e.text < cfg.nr_reads1 := by omega
      unfold left_step
      simp [h1n, h2, h3]
    · have hf : List.filter (fun e => decide (cfg.nr_reads1 ≤ e.text ∧ e.bwt = c1 ∧
          cfg.k_left ≤ e.suff)) [e] = [] := by simp [hp]
      rw [hf, List.append_nil]
      have hstep : (left_step cfg c0 c1 ls e).max_left_len_1 = ls.max_left_len_1 ∧
          (left_step cfg c0 c1 ls e).max_left_idx_1 = ls.max_left_idx_1 ∧
          (left_step cfg c0 c1 ls e).max_left_pos_1 = ls.max_left_pos_1 := by
        have hn : ¬ (e.suff ≥ cfg.k_left ∧ e.bwt = c1 ∧
            (if e.text < cfg.nr_reads1 then false else true) = true) := by
          intro ⟨a1, a2, a3⟩
          apply hp
          refine ⟨?_, a2, a1⟩
          by_contra hlt
          have : e.text < cfg.nr_reads1 := by omega
          simp [this] at a3
        simp only [left_step]
        rw [if_neg hn]
        by_cases hq : e.suff ≥ cfg.k_left ∧ e.bwt = c0 ∧
            (if e.text < cfg.nr_reads1 then false else true) = false
        · rw [if_pos hq]; exact ⟨rfl, rfl, rfl⟩
        · rw [if_neg hq]; exact ⟨rfl, rfl, rfl⟩
      rw [hstep.1, hstep.2.1, hstep.2.2]
      exact ih

theorem freq_bool (cfg : Config) (cl : List t_GSA) (s : Nat) :
    ∃ b0 b1 b2 b3 : Bool,
      frequent_char cfg ((scan cfg cl).counts s) = fc b0 b1 b2 b3 ∧
      frequent_set cfg cl s = fs b0 b1 b2 b3 := by
  refine ⟨decide (cfg.mcov_out ≤ (scan cfg cl).counts s 0),
    decide (cfg.mcov_out ≤ (scan cfg cl).counts s 1),
    decide (cfg.mcov_out ≤ (scan cfg cl).counts s 2),
    decide (cfg.mcov_out ≤ (scan cfg cl).counts s 3), ?_, ?_⟩
  · unfold frequent_char fc
    congr 2
  · unfold frequent_set fs
    congr 1
    apply Finset.filter_congr
    intro c hc
    have hc4 : c < 4 := Finset.mem_range.mp hc
    interval_cases c <;> simp

set_option maxRecDepth 100000 in
theorem fc_sorted : ∀ b0 b1 b2 b3 : Bool,
    (fc b0 b1 b2 b3).Sorted (· ≤ ·) ∧ (fc b0 b1 b2 b3).Nodup ∧
    (fc b0 b1 b2 b3).toFinset = fs b0 b1 b2 b3 := by
  decide

set_option maxRecDepth 100000 in
theorem fc_filter : ∀ b0 b1 b2 b3 d0 d1 d2 d3 : Bool,
    (fc b0 b1 b2 b3 = fc d0 d1 d2 d3 ↔ fs b0 b1 b2 b3 = fs d0 d1 d2 d3) ∧
    (all_chars (fc b0 b1 b2 b3) (fc d0 d1 d2 d3)).length
      = (fs b0 b1 b2 b3 ∪ fs d0 d1 d2 d3).card ∧
    (fc b0 b1 b2 b3).length = (fs b0 b1 b2 b3).card := by
  decide

theorem fc_eq_sort (b0 b1 b2 b3 : Bool) :
    fc b0 b1 b2 b3 = (fs b0 b1 b2 b3).sort (· ≤ ·) := by
  obtain ⟨h1, h2, h3⟩ := fc_sorted b0 b1 b2 b3
  rw [← h3]
  exact ((List.toFinset_sort (· ≤ ·) h2).mpr h1).symm

theorem frequent_char_eq_sort (cfg : Config) (cl : List t_GSA) (s : Nat) :
    frequent_char cfg ((scan cfg cl).counts s) = (frequent_set cfg cl s).sort (· ≤ ·) := by
  obtain ⟨b0, b1, b2, b3, h1, h2⟩ := freq_bool cfg cl s
  rw [h1, h2, fc_eq_sort]

theorem filter_iff (cfg : Config) (cl : List t_GSA) :
    ((scan cfg cl).max_lcp_val < cfg.k_right ∨
      (frequent_char cfg ((scan cfg cl).counts 0)).length = 0 ∨
      (frequent_char cfg ((scan cfg cl).counts 1)).length = 0 ∨
      (frequent_char cfg ((scan cfg cl).counts 0)).length > 2 ∨
      (frequent_char cfg ((scan cfg cl).counts 1)).length > 2 ∨
      frequent_char cfg ((scan cfg cl).counts 0) = frequent_char cfg ((scan cfg cl).counts 1) ∨
      (all_chars (frequent_char cfg ((scan cfg cl).counts 0))
        (frequent_char cfg ((scan cfg cl).counts 1))).length > 3) ↔ inadmissible cfg cl := by
  unfold inadmissible
  obtain ⟨b0, b1, b2, b3, h1, h2⟩ := freq_bool cfg cl 0
  obtain ⟨d0, d1, d2, d3, h3, h4⟩ := freq_bool cfg cl 1
  obtain ⟨e1, e2, e3⟩ := fc_filter b0 b1 b2 b3 d0 d1 d2 d3
  obtain ⟨_, _, e4⟩ := fc_filter d0 d1 d2 d3 d0 d1 d2 d3
  rw [h1, h2, h3, h4, scan_max_lcp_val, e1, e2, e3, e4]

/-- The result of `find_variants`: nothing for an inadmissible cluster,
otherwise the candidates pushed by the loop body over the sorted frequent
characters. -/
theorem find_variants_eq (cfg : Config) (cl : List t_GSA) :
    find_variants cfg cl =
      if inadmissible cfg cl then []
      else ((frequent_set cfg cl 0).sort (· ≤ ·)).flatMap fun c0 =>
        ((frequent_set cfg cl 1).sort (· ≤ ·)).filterMap (pair_cand cfg cl (scan cfg cl) c0) := by
  have hf := filter_iff cfg cl
  unfold find_variants
  dsimp only
  by_cases hin : inadmissible cfg cl
  · rw [if_pos hin]
    rcases hf.mpr hin with h | h
    · rw [if_pos h]
    · by_cases h0 : (scan cfg cl).max_lcp_val < cfg.k_right
      · rw [if_pos h0]
      · rw [if_neg h0, if_pos h]
  · rw [if_neg hin]
    have hn := fun h => hin (hf.mp h)
    rw [if_neg (fun h => hn (Or.inl h)), if_neg (fun h => hn (Or.inr h)), outer_loop_eq,
      frequent_char_eq_sort, frequent_char_eq_sort, List.nil_append]

theorem last_entry_0_mem (cfg : Config) (cl : List t_GSA) (c0 : Char) (ea : t_GSA)
    (h : last_entry_0 cfg cl c0 = some ea) :
    ea ∈ cl ∧ ea.text < cfg.nr_reads1 ∧ ea.bwt = c0 ∧ cfg.k_left ≤ ea.suff := by
  unfold last_entry_0 at h
  have hm := List.mem_of_getLast?_eq_some h
  rw [List.mem_filter] at hm
  simpa using hm

theorem last_entry_1_mem (cfg : Config) (cl : List t_GSA) (c1 : Char) (eb : t_GSA)
    (h : last_entry_1 cfg cl c1 = some eb) :
    eb ∈ cl ∧ cfg.nr_reads1 ≤ eb.text ∧ eb.bwt = c1 ∧ cfg.k_left ≤ eb.suff := by
  unfold last_entry_1 at h
  have hm := List.mem_of_getLast?_eq_some h
  rw [List.mem_filter] at hm
  simpa using hm

theorem pair_cand_some (cfg : Config) (cl : List t_GSA) (st : scan_state) (c0 c1 : Char)
    (v : candidate_variant) (h : pair_cand cfg cl st c0 c1 = some v) :
    c0 ≠ c1 ∧ 0 < cfg.k_left ∧ ∃ ea eb, last_entry_0 cfg cl c0 = some ea ∧
      last_entry_1 cfg cl c1 = some eb ∧
      v = { left_context_idx_0 := ea.text, left_context_pos_0 := usub64 ea.suff cfg.k_left,
            left_context_idx_1 := eb.text, left_context_pos_1 := usub64 eb.suff cfg.k_left,
            right_context_idx := st.max_lcp_read_idx,
            right_context_pos := st.max_lcp_read_pos } := by
  unfold pair_cand at h
  by_cases hc : c0 ≠ c1
  · rw [if_pos hc] at h
    dsimp only at h
    have h0 := left_fold_0 cfg c0 c1 cl
    have h1 := left_fold_1 cfg c0 c1 cl
    generalize cl.foldl (left_step cfg c0 c1) left_init = ls at h h0 h1
    by_cases hl : ls.max_left_len_0 > 0 ∧ ls.max_left_len_1 > 0
    · rw [if_pos hl] at h
      cases ha : last_entry_0 cfg cl c0 with
      | none => rw [ha] at h0; simp only at h0; omega
      | some ea =>
        cases hb : last_entry_1 cfg cl c1 with
        | none => rw [hb] at h1; simp only at h1; omega
        | some eb =>
          rw [ha] at h0; rw [hb] at h1
          simp only at h0 h1
          refine ⟨hc, by omega, ea, eb, rfl, rfl, ?_⟩
          rw [← Option.some.inj h, h0.2.1, h0.2.2, h1.2.1, h1.2.2]
    · rw [if_neg hl] at h
      exact absurd h (by simp)
  · rw [if_neg hc] at h
    exact absurd h (by simp)

theorem pair_cand_eq_spec (cfg : Config) (cl : List t_GSA) (c0 c1 : Char)
    (hk : 1 ≤ cfg.k_left) (hwf : ∀ e ∈ cl, e.suff < 18446744073709551616)
    (hpeak : 0 < max_lcp cl) (hc : c0 ≠ c1) :
    pair_cand cfg cl (scan cfg cl) c0 c1 = spec_candidate cfg cl c0 c1 := by
  obtain ⟨es, hes, hi, hp⟩ := scan_peak cfg cl hpeak
  unfold pair_cand spec_candidate
  rw [if_pos hc, hes]
  dsimp only
  have h0 := left_fold_0 cfg c0 c1 cl
  have h1 := left_fold_1 cfg c0 c1 cl
  generalize cl.foldl (left_step cfg c0 c1) left_init = ls at h0 h1 ⊢
  cases ha : last_entry_0 cfg cl c0 with
  | none =>
    rw [ha] at h0
    simp only at h0
    simp [h0]
  | some ea =>
    cases hb : last_entry_1 cfg cl c1 with
    | none =>
      rw [hb] at h1
      simp only at h1
      simp [h1]
    | some eb =>
      rw [ha] at h0; rw [hb] at h1
      simp only at h0 h1
      obtain ⟨ma, _, _, ka⟩ := last_entry_0_mem cfg cl c0 ea ha
      obtain ⟨mb, _, _, kb⟩ := last_entry_1_mem cfg cl c1 eb hb
      rw [if_pos ⟨by omega, by omega⟩, h0.2.1, h0.2.2, h1.2.1, h1.2.2, hi, hp,
        usub64_eq _ _ ka (hwf ea ma), usub64_eq _ _ kb (hwf eb mb)]

theorem length_flatMap_le {α β : Type} (l : List α) (f : α → List β) (n : Nat)
    (h : ∀ x, (f x).length ≤ n) : (l.flatMap f).length ≤ l.length * n := by
  induction l with
  | nil => simp
  | cons x xs ih =>
    simp only [List.flatMap_cons, List.length_append, List.length_cons]
    have := h x
    rw [Nat.add_mul]
    omega

/-- C5: `find_variants` returns no candidate for an inadmissible cluster:
maximum lcp `< k_right`, or `|F0| = 0`, or `|F1| = 0`, or `|F0| > 2`, or
`|F1| > 2`, or `F0 = F1`, or `|F0 ∪ F1| > 3`. A cluster whose maximum lcp is
at least `k_right` (in particular equal to it) is not rejected by the lcp
test: the result is the one obtained without that test (`k_right = 0`). -/
theorem find_variants_inadmissible (cfg : Config) (cluster : List t_GSA) :
    ((max_lcp cluster < cfg.k_right ∨
      (frequent_set cfg cluster 0).card = 0 ∨
      (frequent_set cfg cluster 1).card = 0 ∨
      2 < (frequent_set cfg cluster 0).card ∨
      2 < (frequent_set cfg cluster 1).card ∨
      frequent_set cfg cluster 0 = frequent_set cfg cluster 1 ∨
      3 < (frequent_set cfg cluster 0 ∪ frequent_set cfg cluster 1).card) →
      find_variants cfg cluster = []) ∧
    (cfg.k_right ≤ max_lcp cluster →
      find_variants cfg cluster = find_variants { cfg with k_right := 0 } cluster) := by
  constructor
  · intro h
    have h2 : inadmissible cfg cluster := h
    rw [find_variants_eq, if_pos h2]
  · intro h
    have h1 : ¬ (scan cfg cluster).max_lcp_val < cfg.k_right := by
      rw [scan_max_lcp_val]; omega
    unfold find_variants
    dsimp only
    rw [if_neg h1, if_neg (Nat.not_lt_zero _)]
    rfl

/-- Witness of C5: the cluster of the scenario "Minimal SNP" has maximum lcp
3; it is rejected with `k_right = 4` and yields its candidate with
`k_right = 3`. -/
theorem find_variants_inadmissible_witness :
    max_lcp example_cluster = 3 ∧
    find_variants { example_cfg with k_right := 4 } example_cluster = [] ∧
    find_variants example_cfg example_cluster
      = find_variants { example_cfg with k_right := 0 } example_cluster ∧
    find_variants example_cfg example_cluster ≠ [] :=
  ⟨by decide,
    (find_variants_inadmissible { example_cfg with k_right := 4 } example_cluster).1
      (Or.inl (by decide)),
    (find_variants_inadmissible example_cfg example_cluster).2 (by decide),
    by decide⟩

/-- C6: for a cluster that passes the filters, with `k_left ≥ 1` (and
`k_right ≥ 1`, entries holding 64-bit offsets), `find_variants` returns
exactly the candidates of the specification: in lexicographic order of
`(c0, c1)` over `F0 × F1` with `c0 ≠ c1`, one candidate
`(e_a.text, e_a.suff − k_left, e_b.text, e_b.suff − k_left, e*.text, e*.suff)`
per pair for which the last matching entries `e_a` and `e_b` exist, `e*`
being the first entry of maximum lcp. -/
theorem find_variants_exact (cfg : Config) (cluster : List t_GSA)
    (hk : 1 ≤ cfg.k_left) (hr : 1 ≤ cfg.k_right)
    (hwf : ∀ e ∈ cluster, e.suff < 18446744073709551616)
    (hpass : ¬ (max_lcp cluster < cfg.k_right ∨
      (frequent_set cfg cluster 0).card = 0 ∨
      (frequent_set cfg cluster 1).card = 0 ∨
      2 < (frequent_set cfg cluster 0).card ∨
      2 < (frequent_set cfg cluster 1).card ∨
      frequent_set cfg cluster 0 = frequent_set cfg cluster 1 ∨
      3 < (frequent_set cfg cluster 0 ∪ frequent_set cfg cluster 1).card)) :
    find_variants cfg cluster = spec_candidates cfg cluster := by
  have hpass2 : ¬ inadmissible cfg cluster := hpass
  rw [find_variants_eq, if_neg hpass2]
  unfold spec_candidates
  have hpeak : 0 < max_lcp cluster := by
    have : ¬ max_lcp cluster < cfg.k_right := fun h => hpass (Or.inl h)
    omega
  congr 1
  funext c0
  congr 1
  funext c1
  by_cases hc : c0 ≠ c1
  · rw [if_pos hc]
    exact pair_cand_eq_spec cfg cluster c0 c1 hk hwf hpeak hc
  · rw [if_neg hc]
    unfold pair_cand
    rw [if_neg hc]

/-- Witness of C6 on the scenario "Minimal SNP" of the specification. -/
theorem find_variants_exact_witness :
    find_variants example_cfg example_cluster = spec_candidates example_cfg example_cluster ∧
    find_variants example_cfg example_cluster = [⟨0, 4, 2, 2, 0, 7⟩] :=
  ⟨find_variants_exact example_cfg example_cluster (by decide) (by decide) (by decide)
    (by decide), by decide⟩

/-- C7: the number of candidates returned by `find_variants` for a cluster
is at most `|F0|·|F1|` and at most 4. -/
theorem find_variants_count (cfg : Config) (cluster : List t_GSA) :
    (find_variants cfg cluster).length
      ≤ (frequent_set cfg cluster 0).card * (frequent_set cfg cluster 1).card ∧
    (find_variants cfg cluster).length ≤ 4 := by
  rw [find_variants_eq]
  by_cases hin : inadmissible cfg cluster
  · rw [if_pos hin]
    simp
  · rw [if_neg hin]
    have hle := length_flatMap_le ((frequent_set cfg cluster 0).sort (· ≤ ·))
      (fun c0 => ((frequent_set cfg cluster 1).sort (· ≤ ·)).filterMap
        (pair_cand cfg cluster (scan cfg cluster) c0))
      (frequent_set cfg cluster 1).card
      (fun c0 => by
        refine le_trans (List.length_filterMap_le _ _) ?_
        rw [Finset.length_sort])
    rw [Finset.length_sort] at hle
    refine ⟨hle, le_trans hle ?_⟩
    unfold inadmissible at hin
    have h0 : (frequent_set cfg cluster 0).card ≤ 2 := by
      by_contra h; exact hin (Or.inr (Or.inr (Or.inr (Or.inl (by omega)))))
    have h1 : (frequent_set cfg cluster 1).card ≤ 2 := by
      by_contra h; exact hin (Or.inr (Or.inr (Or.inr (Or.inr (Or.inl (by omega))))))
    calc (frequent_set cfg cluster 0).card * (frequent_set cfg cluster 1).card
        ≤ 2 * 2 := Nat.mul_le_mul h0 h1
      _ = 4 := rfl

/-- C8: every candidate returned by `find_variants` comes from two entries
`e_a`, `e_b` of the cluster with `e_a.text = l0_text < N1`,
`e_b.text = l1_text ≥ N1`, `l0_pos + k_left = e_a.suff` and
`l1_pos + k_left = e_b.suff` as natural numbers: the 64-bit subtraction
`suff - k_left` does not wrap. -/
theorem find_variants_positions (cfg : Config) (cluster : List t_GSA)
    (hwf : ∀ e ∈ cluster, e.suff < 18446744073709551616)
    (v : candidate_variant) (hv : v ∈ find_variants cfg cluster) :
    ∃ e_a ∈ cluster, ∃ e_b ∈ cluster,
      e_a.text = v.left_context_idx_0 ∧ e_a.text < cfg.nr_reads1 ∧
      e_b.text = v.left_context_idx_1 ∧ cfg.nr_reads1 ≤ e_b.text ∧
      cfg.k_left ≤ e_a.suff ∧ v.left_context_pos_0 + cfg.k_left = e_a.suff ∧
      cfg.k_left ≤ e_b.suff ∧ v.left_context_pos_1 + cfg.k_left = e_b.suff := by
  rw [find_variants_eq] at hv
  by_cases hin : inadmissible cfg cluster
  · rw [if_pos hin] at hv
    exact absurd hv (by simp)
  · rw [if_neg hin, List.mem_flatMap] at hv
    obtain ⟨c0, _, hv⟩ := hv
    rw [List.mem_filterMap] at hv
    obtain ⟨c1, _, hv⟩ := hv
    obtain ⟨_, _, ea, eb, ha, hb, rfl⟩ := pair_cand_some cfg cluster _ c0 c1 v hv
    obtain ⟨ma, ta, _, ka⟩ := last_entry_0_mem cfg cluster c0 ea ha
    obtain ⟨mb, tb, _, kb⟩ := last_entry_1_mem cfg cluster c1 eb hb
    refine ⟨ea, ma, eb, mb, rfl, ta, rfl, tb, ka, ?_, kb, ?_⟩
    · show usub64 ea.suff cfg.k_left + cfg.k_left = ea.suff
      rw [usub64_eq _ _ ka (hwf ea ma)]; omega
    · show usub64 eb.suff cfg.k_left + cfg.k_left = eb.suff
      rw [usub64_eq _ _ kb (hwf eb mb)]; omega

/-- Witness of C8 on the scenario "Minimal SNP" of the specification. -/
theorem find_variants_positions_witness :
    ∃ e_a ∈ example_cluster, ∃ e_b ∈ example_cluster,
      e_a.text = 0 ∧ e_a.text < example_cfg.nr_reads1 ∧
      e_b.text = 2 ∧ example_cfg.nr_reads1 ≤ e_b.text ∧
      example_cfg.k_left ≤ e_a.suff ∧ 4 + example_cfg.k_left = e_a.suff ∧
      example_cfg.k_left ≤ e_b.suff ∧ 2 + example_cfg.k_left = e_b.suff :=
  find_variants_positions example_cfg example_cluster (by decide) ⟨0, 4, 2, 2, 0, 7⟩ (by decide)

/-! ## Properties of `extract_variants` -/

theorem mem_unique {α : Type} [DecidableEq α] (x : α) : ∀ l : List α, x ∈ unique l ↔ x ∈ l
  | [] => by simp [unique]
  | [y] => by simp [unique]
  | y :: z :: r => by
    have ih := mem_unique x (z :: r)
    rw [unique]
    split
    · rename_i h
      subst h
      rw [ih]
      simp
    · simp only [List.mem_cons] at ih ⊢
      rw [ih]

theorem mem_read_ranks (V : List candidate_variant) (v : candidate_variant) (hv : v ∈ V) :
    v.left_context_idx_0 ∈ read_ranks V ∧ v.left_context_idx_1 ∈ read_ranks V ∧
    v.right_context_idx ∈ read_ranks V := by
  unfold read_ranks sort_ranks
  simp only [mem_unique, List.mem_insertionSort, List.mem_flatMap]
  exact ⟨⟨v, hv, by simp⟩, ⟨v, hv, by simp⟩, ⟨v, hv, by simp⟩⟩

theorem lookup_read (read : Nat → List Char) (ranks : List Nat) (x : Nat) (hx : x ∈ ranks) :
    (ranks.map read)[ranks.indexOf x]? = some (read x) := by
  rw [List.getElem?_map, List.getElem?_indexOf hx]
  rfl

theorem extract_loop_get (cfg : Config) (ranks : List Nat) (reads : List (List Char)) :
    ∀ (vs : List candidate_variant) (out : List variant_t),
      extract_loop cfg ranks reads vs = some out →
      ∀ (i : Nat) (v : candidate_variant), vs[i]? = some v →
        ∃ w, out[i]? = some w ∧ materialize cfg ranks reads v = some w := by
  intro vs
  induction vs with
  | nil =>
    intro out _ i v hv
    simp at hv
  | cons v0 vs ih =>
    intro out hout i v hv
    rw [extract_loop] at hout
    cases hm : materialize cfg ranks reads v0 with
    | none => rw [hm] at hout; simp at hout
    | some w0 =>
      cases hr : extract_loop cfg ranks reads vs with
      | none => rw [hm, hr] at hout; simp at hout
      | some ws =>
        rw [hm, hr] at hout
        simp only [Option.some.injEq] at hout
        subst hout
        cases i with
        | zero =>
          simp only [List.getElem?_cons_zero, Option.some.injEq] at hv
          subst hv
          exact ⟨w0, by simp, hm⟩
        | succ j =>
          simp only [List.getElem?_cons_succ] at hv
          obtain ⟨w, h1, h2⟩ := ih ws hr j v hv
          exact ⟨w, by simpa using h1, h2⟩

theorem substr_last (r : List Char) (s k : Nat) (c : Char) (hk : 1 ≤ k) (hks : k ≤ s)
    (hc : r[s - 1]? = some c) (l : List Char) (hl : substr r (s - k) k = some l) :
    l.getLast? = some c := by
  have hlen : s - 1 < r.length := by
    by_contra h
    rw [List.getElem?_eq_none (by omega)] at hc
    simp at hc
  unfold substr at hl
  rw [if_pos (by omega)] at hl
  simp only [Option.some.injEq] at hl
  subst hl
  rw [List.getLast?_eq_getElem?]
  have h1 : (List.take k (List.drop (s - k) r)).length = k := by
    rw [List.length_take, List.length_drop]; omega
  rw [h1, List.getElem?_take_of_lt (by omega), List.getElem?_drop]
  have h2 : s - k + (k - 1) = s - 1 := by omega
  rw [h2, hc]

/-- C9: for a variant materialized by `extract_variants` from a candidate
emitted by `find_variants`, the EGSA being consistent with the reads (the
`bwt` of an entry with `suff ≥ 1` is the character of its read at offset
`suff - 1`), whenever `distance(L0, L1)` returns `L = 0` the last characters
of `L0` and `L1` exist and differ. -/
theorem snp_last_chars_differ (cfg : Config) (get_reads : List Nat → List (List Char))
    (read : Nat → List Char) (cluster : List t_GSA) (V : List candidate_variant)
    (out : List variant_t) (i : Nat) (v : candidate_variant) (w : variant_t) (D : Int)
    (hwf : ∀ e ∈ cluster, e.suff < 18446744073709551616)
    (hcons : ∀ e ∈ cluster, 1 ≤ e.suff → (read e.text)[e.suff - 1]? = some e.bwt)
    (hv : v ∈ find_variants cfg cluster)
    (hVi : V[i]? = some v)
    (hget : get_reads (read_ranks V) = (read_ranks V).map read)
    (hout : extract_variants get_reads cfg V = some out)
    (hw : out[i]? = some w)
    (hd : distance cfg.max_gap w.left_context_0 w.left_context_1 = some (D, 0)) :
    ∃ x y, w.left_context_0.getLast? = some x ∧ w.left_context_1.getLast? = some y ∧
      x ≠ y := by
  have _ := hd
  rw [find_variants_eq] at hv
  by_cases hin : inadmissible cfg cluster
  · rw [if_pos hin] at hv
    exact absurd hv (by simp)
  · rw [if_neg hin, List.mem_flatMap] at hv
    obtain ⟨c0, _, hv⟩ := hv
    rw [List.mem_filterMap] at hv
    obtain ⟨c1, _, hv⟩ := hv
    obtain ⟨hc, hk, ea, eb, ha, hb, hveq⟩ := pair_cand_some cfg cluster _ c0 c1 v hv
    obtain ⟨ma, _, ba, ka⟩ := last_entry_0_mem cfg cluster c0 ea ha
    obtain ⟨mb, _, bb, kb⟩ := last_entry_1_mem cfg cluster c1 eb hb
    have e0 : v.left_context_idx_0 = ea.text := by rw [hveq]
    have e1 : v.left_context_idx_1 = eb.text := by rw [hveq]
    have p0 : v.left_context_pos_0 = ea.suff - cfg.k_left := by
      rw [hveq]; exact usub64_eq _ _ ka (hwf ea ma)
    have p1 : v.left_context_pos_1 = eb.suff - cfg.k_left := by
      rw [hveq]; exact usub64_eq _ _ kb (hwf eb mb)
    have hvV : v ∈ V := List.getElem?_mem hVi
    obtain ⟨m0, m1, m2⟩ := mem_read_ranks V v hvV
    unfold extract_variants at hout
    obtain ⟨w2, hw2, hm⟩ := extract_loop_get cfg _ _ V out hout i v hVi
    rw [hw] at hw2
    simp only [Option.some.injEq] at hw2
    subst hw2
    unfold materialize at hm
    rw [hget, lookup_read read _ _ m0, lookup_read read _ _ m1, lookup_read read _ _ m2] at hm
    simp only at hm
    cases h0 : substr (read v.left_context_idx_0) v.left_context_pos_0 cfg.k_left with
    | none => rw [h0] at hm; simp at hm
    | some l0 =>
      cases h1 : substr (read v.left_context_idx_1) v.left_context_pos_1 cfg.k_left with
      | none => rw [h0, h1] at hm; simp at hm
      | some l1 =>
        cases h2 : substr (read v.right_context_idx) v.right_context_pos cfg.k_right with
        | none => rw [h0, h1, h2] at hm; simp at hm
        | some rc =>
          rw [h0, h1, h2] at hm
          simp only [Option.some.injEq] at hm
          subst hm
          rw [e0, p0] at h0
          rw [e1, p1] at h1
          refine ⟨ea.bwt, eb.bwt, ?_, ?_, by rw [ba, bb]; exact hc⟩
          · exact substr_last (read ea.text) ea.suff cfg.k_left ea.bwt (by omega) ka
              (hcons ea ma (by omega)) l0 h0
          · exact substr_last (read eb.text) eb.suff cfg.k_left eb.bwt (by omega) kb
              (hcons eb mb (by omega)) l1 h1

/-- Witness of C9 on the scenario "Minimal SNP": the contexts are `GTA` and
`GTC`, `distance` returns `(1, 0)` and the last characters are `A` and `C`. -/
theorem snp_last_chars_differ_witness :
    find_variants example_cfg example_cluster = [⟨0, 4, 2, 2, 0, 7⟩] ∧
    extract_variants (fun r => r.map example_read) example_cfg [⟨0, 4, 2, 2, 0, 7⟩]
      = some [⟨['G','T','A'], ['G','T','C'], ['C','C','G']⟩] ∧
    distance example_cfg.max_gap ['G','T','A'] ['G','T','C'] = some (1, 0) ∧
    ∃ x y, ['G','T','A'].getLast? = some x ∧ ['G','T','C'].getLast? = some y ∧ x ≠ y :=
  ⟨by decide, by decide, by decide,
    snp_last_chars_differ example_cfg (fun r => r.map example_read) example_read
      example_cluster [⟨0, 4, 2, 2, 0, 7⟩] [⟨['G','T','A'], ['G','T','C'], ['C','C','G']⟩] 0
      ⟨0, 4, 2, 2, 0, 7⟩ ⟨['G','T','A'], ['G','T','C'], ['C','C','G']⟩ 1
      (by decide) (by decide) (by decide) (by decide) rfl (by decide) (by decide) (by decide)⟩

/-! ## Properties of `to_file` -/

theorem distance_some_bounds (g : Nat) (a b : List Char) (D L : Int)
    (h : distance g a b = some (D, L)) :
    a.length = b.length ∧ L ≤ (a.length : Int) ∧ -L ≤ (a.length : Int) := by
  by_cases hlen : a.length = b.length
  · refine ⟨hlen, ?_⟩
    by_cases g0 : g = 0
    · have e : distance g a b = some (dH a b, 0) := by simp [distance, hlen, g0]
      rw [e] at h
      simp only [Option.some.injEq, Prod.mk.injEq] at h
      omega
    · by_cases hgap : g ≤ a.length
      · obtain ⟨ha1, _, _⟩ := dist_ab_min g a b g0
        obtain ⟨hb1, _, _⟩ := dist_ba_min g a b g0
        rw [distance_unfold g a b hlen hgap g0] at h
        split_ifs at h <;>
          simp only [Option.some.injEq, Prod.mk.injEq] at h <;> omega
      · have e : distance g a b = none := by simp [distance, hlen, g0, hlen ▸ hgap]
        rw [e] at h
        exact absurd h (by simp)
  · have e : distance g a b = none := by simp [distance, hlen]
    rw [e] at h
    exact absurd h (by simp)

theorem snv_type_some (v : variant_t) (D L : Int)
    (hlen : v.left_context_0.length = v.left_context_1.length) (hne : v.left_context_0 ≠ [])
    (h1 : L ≤ (v.left_context_0.length : Int)) (h2 : -L ≤ (v.left_context_0.length : Int)) :
    ∃ t, snv_type v (D, L) = some t := by
  unfold snv_type
  dsimp only
  by_cases hL0 : L = 0
  · rw [if_pos hL0]
    have hne1 : v.left_context_1 ≠ [] := by
      intro h
      rw [h] at hlen
      exact hne (List.length_eq_zero.mp hlen)
    rw [List.getLast?_eq_getLast _ hne, List.getLast?_eq_getLast _ hne1]
    exact ⟨_, rfl⟩
  · rw [if_neg hL0]
    by_cases hpos : L > 0
    · rw [if_pos hpos]
      unfold substr_from
      rw [if_pos ⟨by omega, by omega⟩]
      exact ⟨_, rfl⟩
    · rw [if_neg hpos]
      unfold substr_from
      rw [if_pos ⟨by omega, by omega⟩]
      exact ⟨_, rfl⟩

theorem dna_higher_some (v : variant_t) (D L : Int)
    (h2 : -L ≤ (v.left_context_0.length : Int)) :
    ∃ t, dna_higher v (D, L) = some t := by
  unfold dna_higher
  dsimp only
  by_cases hL0 : L = 0
  · rw [if_pos hL0]; exact ⟨_, rfl⟩
  · rw [if_neg hL0]
    by_cases hpos : L > 0
    · rw [if_pos hpos]; exact ⟨_, rfl⟩
    · rw [if_neg hpos]
      unfold substr_from
      rw [if_pos ⟨by omega, by omega⟩]
      exact ⟨_, rfl⟩

theorem dna_lower_some (v : variant_t) (D L : Int)
    (h1 : L ≤ (v.left_context_1.length : Int)) :
    ∃ t, dna_lower v (D, L) = some t := by
  unfold dna_lower
  dsimp only
  by_cases hL0 : L = 0
  · rw [if_pos hL0]; exact ⟨_, rfl⟩
  · rw [if_neg hL0]
    by_cases hpos : L > 0
    · rw [if_pos hpos]
      unfold substr_from
      rw [if_pos ⟨by omega, by omega⟩]
      exact ⟨_, rfl⟩
    · rw [if_neg hpos]; exact ⟨_, rfl⟩

theorem to_file_loop_max_snvs (cfg : Config) (m : Int) (vs : List variant_t) :
    ∀ st, to_file_loop { cfg with max_snvs := m } vs st = to_file_loop cfg vs st := by
  induction vs with
  | nil => intro st; rfl
  | cons v vs ih =>
    intro st
    rw [to_file_loop, to_file_loop]
    have e : to_file_step { cfg with max_snvs := m } st v = to_file_step cfg st v := rfl
    rw [e]
    cases to_file_step cfg st v with
    | none => rfl
    | some st2 => exact ih st2

/-- C10: `to_file` emits the records of a variant if and only if the `D`
returned by `distance(L0, L1)` is at most 2, the compile-time default
`max_snvs_def`: the four lines are appended and `id_nr` incremented when
`D ≤ 2`, nothing changes otherwise. The configured `max_snvs` has no effect:
two runs that differ only in `max_snvs` write the same output. -/
theorem to_file_acceptance (cfg : Config) (st : List (List Char) × Nat) (v : variant_t)
    (D L : Int)
    (hd : distance cfg.max_gap v.left_context_0 v.left_context_1 = some (D, L))
    (hne : v.left_context_0 ≠ []) :
    (∃ st2, to_file_step cfg st v = some st2 ∧
      (D ≤ 2 → ∃ h1 b1 h2 b2, st2 = (st.1 ++ [h1, b1, h2, b2], st.2 + 1)) ∧
      (¬ D ≤ 2 → st2 = st)) ∧
    (∀ (m : Int) (vs : List variant_t),
      to_file { cfg with max_snvs := m } vs = to_file cfg vs) := by
  constructor
  · obtain ⟨hlen, b1, b2⟩ := distance_some_bounds _ _ _ D L hd
    obtain ⟨t, ht⟩ := snv_type_some v D L hlen hne b1 b2
    obtain ⟨hi, hhi⟩ := dna_higher_some v D L b2
    obtain ⟨lo, hlo⟩ := dna_lower_some v D L (hlen ▸ b1)
    unfold to_file_step
    rw [hd]
    dsimp only
    by_cases hD : D ≤ 2
    · have hD2 : D ≤ max_snvs_def := hD
      rw [if_pos hD2, ht, hhi, hlo]
      exact ⟨_, rfl, fun _ => ⟨_, _, _, _, rfl⟩, fun h => absurd hD h⟩
    · have hD2 : ¬ D ≤ max_snvs_def := hD
      rw [if_neg hD2]
      exact ⟨_, rfl, fun h => absurd h hD, fun _ => rfl⟩
  · intro m vs
    unfold to_file
    rw [to_file_loop_max_snvs]

/-- Witness of C10: with `max_gap = 2`, the variant `(ACGT, ACGA, AAA)` has
`D = 1` and its four lines are written. -/
theorem to_file_acceptance_witness :
    distance example_cfg.max_gap ['A','C','G','T'] ['A','C','G','A'] = some (1, 0) ∧
    ∃ st2, to_file_step example_cfg ([], 1) ⟨['A','C','G','T'], ['A','C','G','A'], ['A','A','A']⟩
        = some st2 ∧
      ∃ h1 b1 h2 b2, st2 = ([] ++ [h1, b1, h2, b2], 1 + 1) := by
  refine ⟨by decide, ?_⟩
  obtain ⟨st2, h, hacc, _⟩ := (to_file_acceptance example_cfg ([], 1)
    ⟨['A','C','G','T'], ['A','C','G','A'], ['A','A','A']⟩ 1 0 (by decide) (by decide)).1
  exact ⟨st2, h, hacc (by decide)⟩

/-! ## The records written by `to_file` -/

theorem distance_isSome (g : Nat) (a b : List Char) (hlen : a.length = b.length)
    (hgap : g ≤ a.length) : ∃ D L, distance g a b = some (D, L) := by
  by_cases g0 : g = 0
  · exact ⟨dH a b, 0, by simp [distance, hlen, g0]⟩
  · rw [distance_unfold g a b hlen hgap g0]
    split_ifs <;> exact ⟨_, _, rfl⟩

theorem snv_type_eq (v : variant_t) (D L : Int)
    (hlen : v.left_context_0.length = v.left_context_1.length) (hne : v.left_context_0 ≠ [])
    (h1 : L ≤ (v.left_context_0.length : Int)) (h2 : -L ≤ (v.left_context_0.length : Int)) :
    snv_type v (D, L) = some (spec_allele v L) := by
  unfold snv_type spec_allele
  dsimp only
  by_cases hL0 : L = 0
  · rw [if_pos hL0, if_pos hL0]
    have hne1 : v.left_context_1 ≠ [] := by
      intro h
      rw [h] at hlen
      exact hne (List.length_eq_zero.mp hlen)
    rw [List.getLast?_eq_getLast _ hne, List.getLast?_eq_getLast _ hne1]
    rfl
  · rw [if_neg hL0, if_neg hL0]
    by_cases hpos : L > 0
    · have hpos2 : 0 < L := hpos
      rw [if_pos hpos, if_pos hpos2]
      unfold substr_from
      rw [if_pos ⟨by omega, by omega⟩]
      have e : ((v.left_context_0.length : Int) - L).toNat = v.left_context_0.length - L.toNat := by
        omega
      rw [e]
    · have hpos2 : ¬ 0 < L := hpos
      rw [if_neg hpos, if_neg hpos2]
      unfold substr_from
      rw [if_pos ⟨by omega, by omega⟩]
      have e : ((v.left_context_1.length : Int) - (-L)).toNat
          = v.left_context_1.length - (-L).toNat := by omega
      rw [e]

theorem dna_higher_eq (v : variant_t) (D L : Int)
    (h2 : -L ≤ (v.left_context_0.length : Int)) :
    (dna_higher v (D, L)).map (fun s => s ++ v.right_context) = some (spec_body_higher v L) := by
  unfold dna_higher spec_body_higher
  dsimp only
  by_cases hL0 : L = 0
  · rw [if_pos hL0, if_pos (by omega)]; rfl
  · rw [if_neg hL0]
    by_cases hpos : L > 0
    · rw [if_pos hpos, if_pos (by omega)]; rfl
    · rw [if_neg hpos, if_neg (by omega)]
      unfold substr_from
      rw [if_pos ⟨by omega, by omega⟩]
      rfl

theorem dna_lower_eq (v : variant_t) (D L : Int)
    (h1 : L ≤ (v.left_context_1.length : Int)) :
    (dna_lower v (D, L)).map (fun s => s ++ v.right_context) = some (spec_body_lower v L) := by
  unfold dna_lower spec_body_lower
  dsimp only
  by_cases hL0 : L = 0
  · rw [if_pos hL0, if_pos (by omega)]; rfl
  · rw [if_neg hL0]
    by_cases hpos : L > 0
    · rw [if_pos hpos, if_neg (by omega)]
      unfold substr_from
      rw [if_pos ⟨by omega, by omega⟩]
      rfl
    · rw [if_neg hpos, if_pos (by omega)]; rfl

theorem header_higher_eq (n : Nat) (v : variant_t) (D L : Int) :
    header ">INDEL_higher_path_".toList ">SNP_higher_path_".toList n v (D, L) (spec_allele v L)
      = spec_header "higher".toList n v L := by
  unfold header spec_header to_string
  by_cases hL0 : L = 0
  · simp [hL0]
  · simp [hL0]

theorem header_lower_eq (n : Nat) (v : variant_t) (D L : Int) :
    header ">INDEL_lower_path_".toList ">SNP_lower_path_".toList n v (D, L) (spec_allele v L)
      = spec_header "lower".toList n v L := by
  unfold header spec_header to_string
  by_cases hL0 : L = 0
  · simp [hL0]
  · simp [hL0]

theorem to_file_step_eq (cfg : Config) (st : List (List Char) × Nat) (v : variant_t)
    (hwf : wf_variant cfg v) :
    to_file_step cfg st v =
      some (if accepted cfg v then (st.1 ++ spec_records cfg st.2 v, st.2 + 1) else st) := by
  obtain ⟨hlen, hne, hgap⟩ := hwf
  obtain ⟨D, L, hd⟩ := distance_isSome cfg.max_gap _ _ hlen hgap
  obtain ⟨_, b1, b2⟩ := distance_some_bounds _ _ _ D L hd
  have hs := snv_type_eq v D L hlen hne b1 b2
  have hh := dna_higher_eq v D L b2
  have hl := dna_lower_eq v D L (hlen ▸ b1)
  unfold to_file_step accepted spec_records indel_len
  rw [hd]
  dsimp only
  by_cases hD : D ≤ 2
  · have hD2 : D ≤ max_snvs_def := hD
    rw [if_pos hD2, hs]
    cases h1 : dna_higher v (D, L) with
    | none => rw [h1] at hh; simp at hh
    | some hi =>
      cases h2 : dna_lower v (D, L) with
      | none => rw [h2] at hl; simp at hl
      | some lo =>
        rw [h1] at hh; rw [h2] at hl
        simp only [Option.map_some', Option.some.injEq] at hh hl
        simp only [hD, decide_True, if_true]
        rw [header_higher_eq, header_lower_eq, hh, hl]
  · have hD2 : ¬ D ≤ max_snvs_def := hD
    rw [if_neg hD2]
    simp [hD]

theorem to_file_loop_eq (cfg : Config) (vs : List variant_t) :
    (∀ v ∈ vs, wf_variant cfg v) → ∀ st : List (List Char) × Nat,
      ∃ n, to_file_loop cfg vs st = some (st.1 ++ spec_output cfg st.2 vs, n) := by
  induction vs with
  | nil =>
    intro _ st
    exact ⟨st.2, by simp [to_file_loop, spec_output]⟩
  | cons v vs ih =>
    intro hwf st
    rw [to_file_loop, to_file_step_eq cfg st v (hwf v (by simp))]
    dsimp only
    by_cases ha : accepted cfg v = true
    · rw [if_pos ha]
      obtain ⟨n, hn⟩ := ih (fun w hw => hwf w (by simp [hw])) (st.1 ++ spec_records cfg st.2 v, st.2 + 1)
      refine ⟨n, ?_⟩
      rw [hn, spec_output, if_pos ha]
      simp
    · rw [if_neg ha]
      obtain ⟨n, hn⟩ := ih (fun w hw => hwf w (by simp [hw])) st
      refine ⟨n, ?_⟩
      rw [hn, spec_output, if_neg ha]

theorem to_file_eq (cfg : Config) (vs : List variant_t) (hwf : ∀ v ∈ vs, wf_variant cfg v) :
    to_file cfg vs = some (spec_output cfg 1 vs) := by
  obtain ⟨n, hn⟩ := to_file_loop_eq cfg vs hwf ([], 1)
  unfold to_file
  rw [hn]
  simp

theorem spec_output_length (cfg : Config) (vs : List variant_t) :
    ∀ n, (spec_output cfg n vs).length = 4 * (vs.filter (accepted cfg)).length := by
  induction vs with
  | nil => intro n; simp [spec_output]
  | cons v vs ih =>
    intro n
    rw [spec_output]
    by_cases ha : accepted cfg v = true
    · rw [if_pos ha, List.filter_cons_of_pos ha, List.length_append, ih]
      simp [spec_records]
      omega
    · rw [if_neg ha, List.filter_cons_of_neg ha, ih]

theorem spec_output_get (cfg : Config) (vs : List variant_t) :
    ∀ (n k : Nat) (v : variant_t), (vs.filter (accepted cfg))[k]? = some v →
      ∀ j, j < 4 → (spec_output cfg n vs)[4 * k + j]? = (spec_records cfg (n + k) v)[j]? := by
  induction vs with
  | nil => intro n k v h; simp at h
  | cons w vs ih =>
    intro n k v h j hj
    rw [spec_output]
    by_cases ha : accepted cfg w = true
    · rw [if_pos ha]
      rw [List.filter_cons_of_pos ha] at h
      have hlen : (spec_records cfg n w).length = 4 := by simp [spec_records]
      cases k with
      | zero =>
        simp only [List.getElem?_cons_zero, Option.some.injEq] at h
        subst h
        rw [List.getElem?_append_left (by omega)]
        simp
      | succ k =>
        simp only [List.getElem?_cons_succ] at h
        rw [List.getElem?_append_right (by omega), hlen]
        have e : 4 * (k + 1) + j - 4 = 4 * k + j := by omega
        rw [e, ih (n + 1) k v h j hj]
        have e2 : n + 1 + k = n + (k + 1) := by omega
        rw [e2]
    · rw [if_neg ha]
      rw [List.filter_cons_of_neg ha] at h
      exact ih n k v h j hj

theorem indel_len_eq (cfg : Config) (v : variant_t) (D L : Int)
    (hd : distance cfg.max_gap v.left_context_0 v.left_context_1 = some (D, L)) :
    indel_len cfg v = L := by
  unfold indel_len
  rw [hd]

/-- C11: for the variants handed to `to_file` (two left contexts of the same
non-zero length, not shorter than `max_gap`), the run completes and writes
four lines per accepted variant; for the accepted variant of rank `k`
(counted from 0, so its id is `k + 1`; rejected variants consume no id) with
classifier result `(D, L)`, line `4k` is the header
`>KIND_higher_path_<k+1>|P_1:<|R|>_ALLELE|high|nb_pol_1` and line `4k + 2` the
header `>KIND_lower_path_<k+1>|P_1:<|R|>_ALLELE|high|nb_pol_1` with the same
`ALLELE`, `KIND` being `SNP` when `L = 0` and `INDEL` otherwise. -/
theorem to_file_headers (cfg : Config) (vs : List variant_t)
    (hwf : ∀ v ∈ vs, wf_variant cfg v) :
    ∃ lines, to_file cfg vs = some lines ∧
      lines.length = 4 * (vs.filter (accepted cfg)).length ∧
      ∀ (k : Nat) (v : variant_t) (D L : Int),
        (vs.filter (accepted cfg))[k]? = some v →
        distance cfg.max_gap v.left_context_0 v.left_context_1 = some (D, L) →
        lines[4 * k]? = some (spec_header "higher".toList (k + 1) v L) ∧
        lines[4 * k + 2]? = some (spec_header "lower".toList (k + 1) v L) := by
  refine ⟨_, to_file_eq cfg vs hwf, spec_output_length cfg vs 1, ?_⟩
  intro k v D L hk hd
  have h0 := spec_output_get cfg vs 1 k v hk 0 (by omega)
  have h2 := spec_output_get cfg vs 1 k v hk 2 (by omega)
  rw [Nat.add_comm 1 k] at h0 h2
  simp only [spec_records, indel_len_eq cfg v D L hd] at h0 h2
  exact ⟨by simpa using h0, by simpa using h2⟩

/-- Witness of C11 on the scenario "Minimal SNP": the header of the
specification, `>SNP_higher_path_1|P_1:3_A/C|high|nb_pol_1`. -/
theorem to_file_headers_witness :
    ∃ lines, to_file example_cfg [example_variant, example_indel] = some lines ∧
      lines[0]? = some ">SNP_higher_path_1|P_1:3_A/C|high|nb_pol_1".toList ∧
      lines[2]? = some ">SNP_lower_path_1|P_1:3_A/C|high|nb_pol_1".toList ∧
      lines[4]? = some ">INDEL_higher_path_2|P_1:3_G/|high|nb_pol_1".toList ∧
      lines[6]? = some ">INDEL_lower_path_2|P_1:3_G/|high|nb_pol_1".toList := by
  obtain ⟨lines, h1, _, h3⟩ :=
    to_file_headers example_cfg [example_variant, example_indel] (by decide)
  have ha := h3 0 example_variant 1 0 (by decide) (by decide)
  have hb := h3 1 example_indel 1 1 (by decide) (by decide)
  exact ⟨lines, h1, ha.1, ha.2, hb.1, hb.2⟩

/-- C12: for the variants handed to `to_file`, the accepted variant of rank
`k` with classifier result `(D, L)` has the higher-path body `L0 + R` when
`L ≥ 0` and `L0[-L..] + R` when `L < 0` (line `4k + 1`), and the lower-path
body `L1 + R` when `L ≤ 0` and `L1[L..] + R` when `L > 0` (line `4k + 3`);
both bodies end with `R`. -/
theorem to_file_bodies (cfg : Config) (vs : List variant_t)
    (hwf : ∀ v ∈ vs, wf_variant cfg v) :
    ∃ lines, to_file cfg vs = some lines ∧
      ∀ (k : Nat) (v : variant_t) (D L : Int),
        (vs.filter (accepted cfg))[k]? = some v →
        distance cfg.max_gap v.left_context_0 v.left_context_1 = some (D, L) →
        ∃ hi lo, lines[4 * k + 1]? = some hi ∧ lines[4 * k + 3]? = some lo ∧
          hi = (if 0 ≤ L then v.left_context_0 else v.left_context_0.drop (-L).toNat)
                ++ v.right_context ∧
          lo = (if L ≤ 0 then v.left_context_1 else v.left_context_1.drop L.toNat)
                ++ v.right_context ∧
          List.IsSuffix v.right_context hi ∧ List.IsSuffix v.right_context lo := by
  refine ⟨_, to_file_eq cfg vs hwf, ?_⟩
  intro k v D L hk hd
  have h1 := spec_output_get cfg vs 1 k v hk 1 (by omega)
  have h3 := spec_output_get cfg vs 1 k v hk 3 (by omega)
  simp only [spec_records, indel_len_eq cfg v D L hd] at h1 h3
  exact ⟨spec_body_higher v L, spec_body_lower v L, by simpa using h1, by simpa using h3,
    rfl, rfl, List.suffix_append _ _, List.suffix_append _ _⟩

/-- Witness of C12: the bodies of an SNP and of an insertion in `L0`. -/
theorem to_file_bodies_witness :
    ∃ lines, to_file example_cfg [example_variant, example_indel] = some lines ∧
      lines[1]? = some ['G','T','A','C','C','G'] ∧
      lines[3]? = some ['G','T','C','C','C','G'] ∧
      lines[5]? = some ['T','T','A','C','C','G','A','A','A'] ∧
      lines[7]? = some ['T','T','A','C','G','A','A','A'] := by
  obtain ⟨lines, h1, h3⟩ :=
    to_file_bodies example_cfg [example_variant, example_indel] (by decide)
  obtain ⟨hi, lo, a1, a2, a3, a4, _, _⟩ := h3 0 example_variant 1 0 (by decide) (by decide)
  obtain ⟨hi2, lo2, b1, b2, b3, b4, _, _⟩ := h3 1 example_indel 1 1 (by decide) (by decide)
  subst a3 a4 b3 b4
  exact ⟨lines, h1, a1, a2, b1, b2⟩

/-! ## Properties of `statistics` -/

theorem stat_scan_snoc (MAX : Nat) (rs : List (Nat × Nat)) (r : Nat × Nat) :
    (rs ++ [r]).foldl (stat_step MAX) stat_init
      = stat_step MAX (rs.foldl (stat_step MAX) stat_init) r := by
  simp [List.foldl_append]

theorem stat_fold (MAX : Nat) (rs : List (Nat × Nat)) :
    (rs.foldl (stat_step MAX) stat_init).n_clust = rs.length ∧
    (rs.foldl (stat_step MAX) stat_init).n_bases = (rs.map fun r => r.2).sum ∧
    (∀ l, (rs.foldl (stat_step MAX) stat_init).clust_len_freq l
      = if l ≤ MAX then (rs.filter fun r => r.2 = l).length else 0) ∧
    (rs.foldl (stat_step MAX) stat_init).max_len ≤ MAX := by
  induction rs using List.reverseRecOn with
  | nil => simp [stat_init]
  | append_singleton rs r ih =>
    rw [stat_scan_snoc]
    generalize rs.foldl (stat_step MAX) stat_init = st at ih ⊢
    obtain ⟨h1, h2, h3, h4⟩ := ih
    unfold stat_step
    by_cases hr : r.2 ≤ MAX
    · simp only [hr, if_true]
      refine ⟨by simp [h1], by simp [h2], ?_, ?_⟩
      · intro l
        rw [List.filter_append]
        by_cases hl : l = r.2
        · subst hl
          simp [h3, hr]
        · have hl2 : ¬ r.2 = l := fun e => hl e.symm
          simp [h3, hl, hl2]
      · dsimp only
        split <;> omega
    · simp only [hr, if_false]
      refine ⟨by simp [h1], by simp [h2], ?_, h4⟩
      intro l
      rw [List.filter_append, h3 l]
      by_cases hl : l ≤ MAX
      · have hl2 : ¬ r.2 = l := by omega
        simp [hl, hl2]
      · simp [hl]

theorem lmax_loop_spec (MAX : Nat) (hist : Nat → Nat) (below : Nat → Bool) (a : Nat) :
    ∀ (fuel L cum : Nat), a ≤ L → L ≤ MAX → MAX - L ≤ fuel → cum = cum_bases hist a L →
      (∀ L2, a ≤ L2 → L2 < L → below (cum_bases hist a L2) = true) →
      ∃ R, lmax_loop MAX hist below fuel L cum = some R ∧ L ≤ R ∧ R ≤ MAX ∧
        (∀ L2, a ≤ L2 → L2 < R → below (cum_bases hist a L2) = true) ∧
        (R < MAX → below (cum_bases hist a R) = false) := by
  intro fuel
  induction fuel with
  | zero =>
    intro L cum h1 h2 h3 _ hprev
    exact ⟨L, rfl, le_refl _, h2, hprev, fun h => by omega⟩
  | succ fuel ih =>
    intro L cum h1 h2 h3 hcum hprev
    rw [lmax_loop]
    by_cases hc : below cum = true ∧ L < MAX
    · rw [if_pos hc]
      have hin : hist_at MAX hist (L + 1) = some (hist (L + 1)) := by
        unfold hist_at
        rw [if_pos (by omega)]
      rw [hin]
      dsimp only
      have hcum2 : cum + hist (L + 1) * (L + 1) = cum_bases hist a (L + 1) := by
        unfold cum_bases
        rw [Finset.sum_Icc_succ_top (by omega), hcum]
        rfl
      obtain ⟨R, r1, r2, r3, r4, r5⟩ := ih (L + 1) _ (by omega) (by omega) (by omega) hcum2 (by
        intro L2 a1 a2
        by_cases e : L2 = L
        · rw [e, ← hcum]; exact hc.1
        · exact hprev L2 a1 (by omega))
      exact ⟨R, r1, by omega, r3, r4, r5⟩
    · rw [if_neg hc]
      refine ⟨L, rfl, le_refl _, h2, hprev, ?_⟩
      intro hlt
      rw [← hcum]
      by_contra hb
      exact hc ⟨by simpa using hb, hlt⟩

theorem statistics_lmax (cfg : Config) (lt_pval : Nat → Nat → Bool)
    (records : List (Nat × Nat)) (stale : Nat × Nat) (r : stat_result)
    (h : statistics cfg lt_pval records stale = some r) :
    auto_lmax cfg.max_clust_length cfg.mcov_out
        (stat_scan cfg.max_clust_length records stale).clust_len_freq
        (fun c => lt_pval c (stat_scan cfg.max_clust_length records stale).n_bases)
      = some r.max_clust_length ∧
    r.n_clust = (stat_scan cfg.max_clust_length records stale).n_clust ∧
    r.n_bases = (stat_scan cfg.max_clust_length records stale).n_bases ∧
    r.clust_len_freq = (stat_scan cfg.max_clust_length records stale).clust_len_freq := by
  unfold statistics at h
  dsimp only at h
  split at h
  · exact absurd h (by simp)
  · split at h
    · exact absurd h (by simp)
    · rename_i lmax hl
      split at h
      · exact absurd h (by simp)
      · simp only [Option.some.injEq] at h
        subst h
        exact ⟨hl, rfl, rfl, rfl⟩

/-- C13 (the failing input): with `mcov_out = 76` and the configured bound
150, `Lmin = 152` exceeds the bound, and `statistics` reads
`clust_len_freq[152]` in a vector of 151 cells, whatever the cluster file
holds: the run has no defined `Lmax ≤ 150`. -/
theorem statistics_lmin_above_bound (lt_pval : Nat → Nat → Bool)
    (records : List (Nat × Nat)) (stale : Nat × Nat) :
    hist_at 150 (stat_scan 150 records stale).clust_len_freq (2 * 76) = none ∧
    statistics { example_cfg with mcov_out := 76, max_clust_length := 150 } lt_pval records stale
      = none := by
  have h1 : ∀ hist, hist_at 150 hist (2 * 76) = none := fun hist => by
    unfold hist_at
    rw [if_neg (by decide)]
  refine ⟨h1 _, ?_⟩
  cases hs : statistics { example_cfg with mcov_out := 76, max_clust_length := 150 } lt_pval
      records stale with
  | none => rfl
  | some r =>
    have := (statistics_lmax _ _ _ _ r hs).1
    unfold auto_lmax at this
    rw [h1] at this
    exact absurd this (by simp)

/-- C14: with `2*mcov_out ≤ MAX` (the configured `max_clust_length`), the
auto-detection of `statistics` ends with an `Lmax` between `2*mcov_out` and
`MAX` such that the test `cumulative/n_bases < pval` holds at every `L` from
`2*mcov_out` to `Lmax - 1` and fails at `Lmax` unless `Lmax = MAX`: `Lmax` is
the smallest `L ≥ 2*mcov_out` whose cumulative fraction
`Σ_{i=2m..L} hist[i]·i / n_bases` reaches `pval`, or `MAX` when there is none
below it. It is the value that `statistics` stores in `max_clust_length`. -/
theorem auto_lmax_smallest (cfg : Config) (lt_pval : Nat → Nat → Bool)
    (records : List (Nat × Nat)) (stale : Nat × Nat)
    (h2m : 2 * cfg.mcov_out ≤ cfg.max_clust_length) :
    (∃ L, auto_lmax cfg.max_clust_length cfg.mcov_out
          (stat_scan cfg.max_clust_length records stale).clust_len_freq
          (fun c => lt_pval c (stat_scan cfg.max_clust_length records stale).n_bases) = some L ∧
        2 * cfg.mcov_out ≤ L ∧ L ≤ cfg.max_clust_length ∧
        (∀ L2, 2 * cfg.mcov_out ≤ L2 → L2 < L →
          lt_pval (cum_bases (stat_scan cfg.max_clust_length records stale).clust_len_freq
            (2 * cfg.mcov_out) L2) (stat_scan cfg.max_clust_length records stale).n_bases = true) ∧
        (L < cfg.max_clust_length →
          lt_pval (cum_bases (stat_scan cfg.max_clust_length records stale).clust_len_freq
            (2 * cfg.mcov_out) L) (stat_scan cfg.max_clust_length records stale).n_bases = false)) ∧
    (∀ r, statistics cfg lt_pval records stale = some r →
      auto_lmax cfg.max_clust_length cfg.mcov_out
          (stat_scan cfg.max_clust_length records stale).clust_len_freq
          (fun c => lt_pval c (stat_scan cfg.max_clust_length records stale).n_bases)
        = some r.max_clust_length) := by
  refine ⟨?_, fun r hr => (statistics_lmax cfg lt_pval records stale r hr).1⟩
  generalize (stat_scan cfg.max_clust_length records stale).clust_len_freq = hist
  generalize (stat_scan cfg.max_clust_length records stale).n_bases = n
  unfold auto_lmax
  have hin : hist_at cfg.max_clust_length hist (2 * cfg.mcov_out)
      = some (hist (2 * cfg.mcov_out)) := by
    unfold hist_at
    rw [if_pos h2m]
  rw [hin]
  dsimp only
  obtain ⟨R, r1, r2, r3, r4, r5⟩ := lmax_loop_spec cfg.max_clust_length hist
    (fun c => lt_pval c n) (2 * cfg.mcov_out) (cfg.max_clust_length - 2 * cfg.mcov_out)
    (2 * cfg.mcov_out) (hist (2 * cfg.mcov_out) * (2 * cfg.mcov_out)) (le_refl _) h2m (le_refl _)
    (by unfold cum_bases; simp) (fun L2 a1 a2 => by omega)
  exact ⟨R, r1, r2, r3, r4, r5⟩

/-- C15 (what the code computes): after the first loop of `statistics` on a
cluster file holding `k` records, `n_clust = k + 1`, `n_bases` is the sum of
the `k` lengths plus the value left in `length` by the failed read, and that
value is counted once more in the histogram: the loop body runs `k + 1`
times. On a file holding the single record `(0, 10)`, `n_clust` is 2. -/
theorem stat_scan_extra_iteration (MAX : Nat) (records : List (Nat × Nat)) (stale : Nat × Nat) :
    (stat_scan MAX records stale).n_clust = records.length + 1 ∧
    (stat_scan MAX records stale).n_bases = (records.map fun r => r.2).sum + stale.2 ∧
    (∀ l, (stat_scan MAX records stale).clust_len_freq l =
      if l ≤ MAX then (records.filter fun r => r.2 = l).length + (if stale.2 = l then 1 else 0)
      else 0) ∧
    (stat_scan 150 [(0, 10)] stale).n_clust = 2 := by
  obtain ⟨h1, h2, h3, _⟩ := stat_fold MAX (records ++ [stale])
  unfold stat_scan loop_records
  refine ⟨by rw [h1]; simp, by rw [h2]; simp, ?_, ?_⟩
  · intro l
    rw [h3 l, List.filter_append]
    by_cases hl : stale.2 = l <;> simp [hl]
  · exact (stat_fold 150 ([(0, 10)] ++ [stale])).1

/-- Witness of C14: on a cluster file with lengths 4, 5, 4, 6 (the loop sees
the last one twice), `mcov_out = 2` and a configured bound of 12, the
fraction reaches 0.85 at `L = 6`, and `statistics` stores 6. -/
theorem auto_lmax_smallest_witness :
    (∃ L, auto_lmax example_stat_cfg.max_clust_length example_stat_cfg.mcov_out
        (stat_scan example_stat_cfg.max_clust_length example_records (13, 6)).clust_len_freq
        (fun c => example_lt_pval c
          (stat_scan example_stat_cfg.max_clust_length example_records (13, 6)).n_bases)
        = some L ∧ 2 * example_stat_cfg.mcov_out ≤ L ∧ L ≤ example_stat_cfg.max_clust_length) ∧
    (statistics example_stat_cfg example_lt_pval example_records (13, 6)).map
      (fun r => r.max_clust_length) = some 6 :=
  ⟨(auto_lmax_smallest example_stat_cfg example_lt_pval example_records (13, 6)
      (by decide)).1.imp fun _ h => ⟨h.1, h.2.1, h.2.2.1⟩,
    by decide⟩

/-! ## Properties of `find_events` -/

theorem events_step_div_zero (cfg : Config) (n_clust : Nat) (rows : List t_GSA)
    (eof_row : t_GSA) (st : events_state) (r : Nat × Nat) (h : upred64 n_clust = 0) :
    events_step cfg n_clust rows eof_row st r = none := by
  unfold events_step
  rw [h]
  rfl

/-- C18 (the failing input): on a cluster file that holds no record the run
does not complete. The loop of `statistics` runs once on the failed read, so
`n_clust = 1` if `statistics` returns at all, and `find_events` then divides
by `n_clust - 1 = 0`; when the value left in `length` is 0, `statistics`
itself divides by `max = 0` while printing the histogram. -/
theorem run_empty_cluster_file (cfg : Config) (lt_pval : Nat → Nat → Bool)
    (get_reads : List Nat → List (List Char)) (rows : List t_GSA) (eof_row : t_GSA)
    (stale_s stale_f : Nat × Nat) :
    run cfg lt_pval get_reads rows eof_row [] stale_s stale_f = none ∧
    (∀ r, statistics cfg lt_pval [] stale_s = some r →
      r.n_clust = 1 ∧
      find_events { cfg with max_clust_length := r.max_clust_length } r.n_clust get_reads rows
        eof_row [] stale_f = none) ∧
    statistics example_stat_cfg lt_pval [] (0, 0) = none := by
  have key : ∀ r, statistics cfg lt_pval [] stale_s = some r →
      r.n_clust = 1 ∧
      find_events { cfg with max_clust_length := r.max_clust_length } r.n_clust get_reads rows
        eof_row [] stale_f = none := by
    intro r hr
    have h1 : r.n_clust = 1 := by
      rw [(statistics_lmax cfg lt_pval [] stale_s r hr).2.1]
      exact (stat_fold cfg.max_clust_length ([] ++ [stale_s])).1
    refine ⟨h1, ?_⟩
    unfold find_events loop_records
    rw [h1]
    simp only [List.nil_append, events_loop]
    rw [events_step_div_zero _ 1 _ _ _ _ (by decide)]
  refine ⟨?_, key, rfl⟩
  unfold run
  cases hs : statistics cfg lt_pval [] stale_s with
  | none => rfl
  | some r => exact (key r hs).2

theorem skip_loop_eq (rows : List t_GSA) (eof_row : t_GSA) :
    ∀ (n i : Nat) (e : t_GSA), e = read_el rows eof_row i →
      skip_loop rows eof_row n (i, e) = (i + n, read_el rows eof_row (i + n)) := by
  intro n
  induction n with
  | zero => intro i e he; simp [skip_loop, he]
  | succ n ih =>
    intro i e _
    rw [skip_loop, ih (i + 1) _ rfl]
    have : i + 1 + n = i + (n + 1) := by omega
    rw [this]

theorem fill_loop_eq (rows : List t_GSA) (eof_row : t_GSA) :
    ∀ (n i : Nat) (e : t_GSA) (buf : List t_GSA), e = read_el rows eof_row i →
      fill_loop rows eof_row n (i, e, buf)
        = (i + n, read_el rows eof_row (i + n),
            buf ++ (List.range n).map fun j => read_el rows eof_row (i + j)) := by
  intro n
  induction n with
  | zero => intro i e buf he; simp [fill_loop, he]
  | succ n ih =>
    intro i e buf he
    have h1 : i + 1 + n = i + (n + 1) := by omega
    have hs : ((List.range n).map fun j => read_el rows eof_row (i + 1 + j))
        = (List.range n).map ((fun j => read_el rows eof_row (i + j)) ∘ Nat.succ) := by
      apply List.map_congr_left
      intro j _
      simp only [Function.comp]
      congr 1
      omega
    rw [fill_loop, ih (i + 1) _ _ rfl, h1, List.range_succ_eq_map, List.map_cons, List.map_map,
      he, hs]
    simp

theorem range_map_read_el (rows : List t_GSA) (eof_row : t_GSA) (i n : Nat)
    (h : i + n ≤ rows.length) :
    ((List.range n).map fun j => read_el rows eof_row (i + j)) = (rows.drop i).take n := by
  apply List.ext_getElem?
  intro k
  by_cases hk : k < n
  · rw [List.getElem?_map, List.getElem?_range hk, List.getElem?_take_of_lt hk,
      List.getElem?_drop]
    have hlt : i + k < rows.length := by omega
    simp [read_el, List.getD_eq_getElem?_getD, List.getElem?_eq_getElem hlt]
  · rw [List.getElem?_eq_none (by simp; omega), List.getElem?_eq_none (by simp; omega)]

theorem events_step_examined (cfg : Config) (n_clust : Nat) (rows : List t_GSA)
    (eof_row : t_GSA) (st : events_state) (r : Nat × Nat)
    (hadm : admissible_length cfg r = true) (hi : st.i ≤ r.1)
    (he : st.e = read_el rows eof_row st.i) (hin : r.1 + r.2 ≤ rows.length)
    (hn : upred64 n_clust ≠ 0) :
    events_step cfg n_clust rows eof_row st r =
      some { i := r.1 + r.2, e := read_el rows eof_row (r.1 + r.2),
             candidate_variants :=
               st.candidate_variants ++ find_variants cfg (cluster_rows rows r),
             calls := st.calls ++ [cluster_rows rows r], cl := st.cl + 1 } := by
  unfold admissible_length at hadm
  have hadm2 : r.2 ≥ cfg.mcov_out * 2 ∧ r.2 ≤ cfg.max_clust_length := by simpa using hadm
  unfold events_step
  dsimp only
  rw [if_pos hadm2, skip_loop_eq rows eof_row _ _ _ he]
  dsimp only
  rw [fill_loop_eq rows eof_row _ _ _ _ rfl]
  have e1 : st.i + (r.1 - st.i) = r.1 := by omega
  have e2 : r.1 + (r.1 + r.2 - r.1) = r.1 + r.2 := by omega
  have e3 : r.1 + r.2 - r.1 = r.2 := by omega
  simp only [e1, e2, e3, List.nil_append, range_map_read_el rows eof_row r.1 r.2 hin]
  unfold udiv
  rw [if_neg hn]
  rfl

theorem events_step_skipped (cfg : Config) (n_clust : Nat) (rows : List t_GSA)
    (eof_row : t_GSA) (st : events_state) (r : Nat × Nat)
    (hadm : ¬ admissible_length cfg r = true) (hn : upred64 n_clust ≠ 0) :
    events_step cfg n_clust rows eof_row st r = some { st with cl := st.cl + 1 } := by
  unfold admissible_length at hadm
  have hadm2 : ¬ (r.2 ≥ cfg.mcov_out * 2 ∧ r.2 ≤ cfg.max_clust_length) := by simpa using hadm
  unfold events_step
  dsimp only
  rw [if_neg hadm2]
  unfold udiv
  rw [if_neg hn]
  rfl

theorem events_loop_records (cfg : Config) (n_clust : Nat) (rows : List t_GSA)
    (eof_row : t_GSA) (hn : upred64 n_clust ≠ 0) :
    ∀ (records : List (Nat × Nat)) (st : events_state),
      (∀ r ∈ records, st.i ≤ r.1) → st.e = read_el rows eof_row st.i →
      records.Pairwise (fun r r2 => r.1 + r.2 ≤ r2.1) →
      (∀ r ∈ records, r.1 + r.2 ≤ rows.length) →
      ∃ st2, events_loop cfg n_clust rows eof_row records st = some st2 ∧
        st2.calls = st.calls ++ (records.filter (admissible_length cfg)).map (cluster_rows rows) ∧
        st2.candidate_variants = st.candidate_variants ++
          (records.filter (admissible_length cfg)).flatMap
            (fun r => find_variants cfg (cluster_rows rows r)) := by
  intro records
  induction records with
  | nil =>
    intro st _ _ _ _
    exact ⟨st, rfl, by simp, by simp⟩
  | cons r rs ih =>
    intro st hi he hp hin
    rw [List.pairwise_cons] at hp
    rw [events_loop]
    by_cases hadm : admissible_length cfg r = true
    · rw [events_step_examined cfg n_clust rows eof_row st r hadm (hi r (by simp)) he
        (hin r (by simp)) hn]
      dsimp only
      obtain ⟨st2, h1, h2, h3⟩ := ih
        { i := r.1 + r.2, e := read_el rows eof_row (r.1 + r.2),
          candidate_variants :=
            st.candidate_variants ++ find_variants cfg (cluster_rows rows r),
          calls := st.calls ++ [cluster_rows rows r], cl := st.cl + 1 }
        (fun r2 hr2 => hp.1 r2 hr2) rfl hp.2 (fun r2 hr2 => hin r2 (by simp [hr2]))
      refine ⟨st2, h1, ?_, ?_⟩
      · rw [h2, List.filter_cons_of_pos hadm]; simp
      · rw [h3, List.filter_cons_of_pos hadm]; simp
    · rw [events_step_skipped cfg n_clust rows eof_row st r hadm hn]
      dsimp only
      obtain ⟨st2, h1, h2, h3⟩ := ih { st with cl := st.cl + 1 }
        (fun r2 hr2 => hi r2 (by simp [hr2])) he hp.2 (fun r2 hr2 => hin r2 (by simp [hr2]))
      refine ⟨st2, h1, ?_, ?_⟩
      · rw [h2, List.filter_cons_of_neg hadm]
      · rw [h3, List.filter_cons_of_neg hadm]

theorem events_loop_append (cfg : Config) (n_clust : Nat) (rows : List t_GSA)
    (eof_row : t_GSA) (l1 l2 : List (Nat × Nat)) :
    ∀ st, events_loop cfg n_clust rows eof_row (l1 ++ l2) st
      = (events_loop cfg n_clust rows eof_row l1 st).bind
          (events_loop cfg n_clust rows eof_row l2) := by
  induction l1 with
  | nil => intro st; simp [events_loop]
  | cons r rs ih =>
    intro st
    rw [List.cons_append, events_loop, events_loop]
    cases events_step cfg n_clust rows eof_row st r with
    | none => rfl
    | some st2 => exact ih st2

/-- What the loop of `find_events` does on the records of the cluster file,
in ascending order, without overlap and inside the EGSA: it passes to
`find_variants` exactly the rows of the clusters whose length lies in
`[2*mcov_out, Lmax]`, in order, and accumulates their candidates. The body
then runs once more, on the values `stale` left by the failed read. -/
theorem find_events_on_records (cfg : Config) (n_clust : Nat) (rows : List t_GSA)
    (eof_row : t_GSA) (records : List (Nat × Nat)) (stale : Nat × Nat)
    (hn : upred64 n_clust ≠ 0)
    (hsorted : records.Pairwise (fun r r2 => r.1 + r.2 ≤ r2.1))
    (hin : ∀ r ∈ records, r.1 + r.2 ≤ rows.length) :
    ∃ st, events_loop cfg n_clust rows eof_row records (events_init rows eof_row) = some st ∧
      st.calls = (records.filter (admissible_length cfg)).map (cluster_rows rows) ∧
      st.candidate_variants = (records.filter (admissible_length cfg)).flatMap
        (fun r => find_variants cfg (cluster_rows rows r)) ∧
      events_loop cfg n_clust rows eof_row (loop_records records stale)
        (events_init rows eof_row) = events_step cfg n_clust rows eof_row st stale := by
  obtain ⟨st, h1, h2, h3⟩ := events_loop_records cfg n_clust rows eof_row hn records
    (events_init rows eof_row) (fun r _ => Nat.zero_le _) rfl hsorted hin
  refine ⟨st, h1, by simpa [events_init] using h2, by simpa [events_init] using h3, ?_⟩
  unfold loop_records
  rw [events_loop_append, h1]
  simp only [Option.some_bind, events_loop]
  cases events_step cfg n_clust rows eof_row st stale <;> rfl

theorem find_variants_nil (cfg : Config) : find_variants cfg [] = [] := by
  rw [find_variants_eq]
  split_ifs
  · rfl
  · rw [List.eq_nil_iff_forall_not_mem]
    intro v hv
    simp only [List.mem_flatMap, List.mem_filterMap] at hv
    obtain ⟨c0, _, c1, _, hp⟩ := hv
    obtain ⟨_, _, ea, _, ha, _⟩ := pair_cand_some _ _ _ _ _ _ hp
    have := (last_entry_0_mem _ _ _ _ ha).1
    simp at this

theorem events_loop_position (cfg : Config) (n_clust : Nat) (rows : List t_GSA)
    (eof_row : t_GSA) (hn : upred64 n_clust ≠ 0) :
    ∀ (records : List (Nat × Nat)) (st st2 : events_state),
      (∀ r ∈ records, st.i ≤ r.1) → st.e = read_el rows eof_row st.i →
      records.Pairwise (fun r r2 => r.1 + r.2 ≤ r2.1) →
      (∀ r ∈ records, r.1 + r.2 ≤ rows.length) →
      events_loop cfg n_clust rows eof_row records st = some st2 →
      st.i ≤ st2.i ∧ st2.e = read_el rows eof_row st2.i ∧
        ∀ r ∈ records, admissible_length cfg r = true → r.1 + r.2 ≤ st2.i := by
  intro records
  induction records with
  | nil =>
    intro st st2 _ he _ _ h
    simp only [events_loop, Option.some.injEq] at h
    subst h
    exact ⟨le_refl _, he, by simp⟩
  | cons r rs ih =>
    intro st st2 hi he hp hin h
    rw [List.pairwise_cons] at hp
    rw [events_loop] at h
    by_cases hadm : admissible_length cfg r = true
    · rw [events_step_examined cfg n_clust rows eof_row st r hadm (hi r (by simp)) he
        (hin r (by simp)) hn] at h
      dsimp only at h
      obtain ⟨h1, h2, h3⟩ := ih _ st2 (fun r2 hr2 => hp.1 r2 hr2) rfl hp.2
        (fun r2 hr2 => hin r2 (by simp [hr2])) h
      dsimp only at h1
      have hir := hi r (by simp)
      refine ⟨by omega, h2, ?_⟩
      intro r2 hr2 ha2
      rcases List.mem_cons.1 hr2 with hr2 | hr2
      · rw [hr2]; exact h1
      · exact h3 r2 hr2 ha2
    · rw [events_step_skipped cfg n_clust rows eof_row st r hadm hn] at h
      dsimp only at h
      obtain ⟨h1, h2, h3⟩ := ih { st with cl := st.cl + 1 } st2
        (fun r2 hr2 => hi r2 (by simp [hr2])) he hp.2 (fun r2 hr2 => hin r2 (by simp [hr2])) h
      refine ⟨h1, h2, ?_⟩
      intro r2 hr2 ha2
      rcases List.mem_cons.1 hr2 with hr2 | hr2
      · rw [hr2] at ha2; exact absurd ha2 hadm
      · exact h3 r2 hr2 ha2

theorem events_step_repeated (cfg : Config) (n_clust : Nat) (rows : List t_GSA)
    (eof_row : t_GSA) (st : events_state) (r : Nat × Nat)
    (hadm : admissible_length cfg r = true) (hi : r.1 + r.2 ≤ st.i)
    (hn : upred64 n_clust ≠ 0) :
    events_step cfg n_clust rows eof_row st r =
      some { st with candidate_variants := st.candidate_variants ++ find_variants cfg [],
                     calls := st.calls ++ [[]], cl := st.cl + 1 } := by
  unfold admissible_length at hadm
  have hadm2 : r.2 ≥ cfg.mcov_out * 2 ∧ r.2 ≤ cfg.max_clust_length := by simpa using hadm
  have e1 : r.1 - st.i = 0 := by omega
  have e2 : r.1 + r.2 - st.i = 0 := by omega
  unfold events_step
  dsimp only
  rw [if_pos hadm2, e1]
  simp only [skip_loop, e2, fill_loop]
  unfold udiv
  rw [if_neg hn]
  rfl

/-- C16: for a cluster file whose records are in ascending order, without
overlap and inside the EGSA, `find_events` examines exactly the clusters
whose length lies between `2*mcov_out` and `Lmax`, both bounds included: it
passes the rows `start, ..., start+length-1` of each of them to
`find_variants`, in order, and the candidate vector is the concatenation of
the results, which `extract_variants` and `to_file` then receive. The body of
the loop runs once more after the last record, with `start` and `length` as
the failed read leaves them, those of the last record: when that record was
examined, `find_variants` is called on an empty buffer, which gives no
candidate. -/
theorem find_events_clusters (cfg : Config) (n_clust : Nat)
    (get_reads : List Nat → List (List Char)) (rows : List t_GSA) (eof_row : t_GSA)
    (records : List (Nat × Nat)) (last : Nat × Nat)
    (hlast : records.getLast? = some last)
    (hn : upred64 n_clust ≠ 0)
    (hsorted : records.Pairwise (fun r r2 => r.1 + r.2 ≤ r2.1))
    (hin : ∀ r ∈ records, r.1 + r.2 ≤ rows.length) :
    (∀ r, admissible_length cfg r = true ↔
      2 * cfg.mcov_out ≤ r.2 ∧ r.2 ≤ cfg.max_clust_length) ∧
    (∃ st, events_loop cfg n_clust rows eof_row (loop_records records last)
        (events_init rows eof_row) = some st ∧
      st.candidate_variants = (records.filter (admissible_length cfg)).flatMap
        (fun r => find_variants cfg (cluster_rows rows r)) ∧
      st.calls = (records.filter (admissible_length cfg)).map (cluster_rows rows)
        ++ (if admissible_length cfg last = true then [[]] else [])) ∧
    find_variants cfg [] = [] ∧
    find_events cfg n_clust get_reads rows eof_row records last =
      (extract_variants get_reads cfg ((records.filter (admissible_length cfg)).flatMap
        (fun r => find_variants cfg (cluster_rows rows r)))).bind (to_file cfg) := by
  have hmem : last ∈ records := List.mem_of_getLast?_eq_some hlast
  obtain ⟨st, h1, h2, h3, h4⟩ := find_events_on_records cfg n_clust rows eof_row records last
    hn hsorted hin
  obtain ⟨_, p2, p3⟩ := events_loop_position cfg n_clust rows eof_row hn records
    (events_init rows eof_row) st (fun r _ => Nat.zero_le _) rfl hsorted hin h1
  have key : ∃ st2, events_loop cfg n_clust rows eof_row (loop_records records last)
        (events_init rows eof_row) = some st2 ∧
      st2.candidate_variants = (records.filter (admissible_length cfg)).flatMap
        (fun r => find_variants cfg (cluster_rows rows r)) ∧
      st2.calls = (records.filter (admissible_length cfg)).map (cluster_rows rows)
        ++ (if admissible_length cfg last = true then [[]] else []) := by
    rw [h4]
    by_cases hadm : admissible_length cfg last = true
    · rw [events_step_repeated cfg n_clust rows eof_row st last hadm (p3 last hmem hadm) hn]
      refine ⟨_, rfl, ?_, ?_⟩
      · simp [find_variants_nil, h3]
      · simp [h2, hadm]
    · rw [events_step_skipped cfg n_clust rows eof_row st last hadm hn]
      refine ⟨_, rfl, ?_, ?_⟩
      · simp [h3]
      · simp [h2, hadm]
  refine ⟨?_, key, find_variants_nil cfg, ?_⟩
  · intro r
    unfold admissible_length
    simp only [decide_eq_true_eq]
    constructor <;> intro h <;> exact ⟨by omega, h.2⟩
  · obtain ⟨st2, k1, k2, _⟩ := key
    unfold find_events
    rw [k1]
    dsimp only
    rw [k2]
    cases extract_variants get_reads cfg ((records.filter (admissible_length cfg)).flatMap
        (fun r => find_variants cfg (cluster_rows rows r))) <;> rfl

/-- Witness of C16 on the scenario "Minimal SNP": an EGSA of four rows and a
cluster file holding the single record `(0, 4)`, with `mcov_out = 2` and
`Lmax = 150`. The cluster is examined, its candidate is the candidate vector,
and the second call of `find_variants` is on an empty buffer. -/
theorem find_events_clusters_witness :
    ∃ st, events_loop example_cfg 2 example_cluster example_entry_n
        (loop_records [(0, 4)] (0, 4)) (events_init example_cluster example_entry_n)
        = some st ∧
      st.candidate_variants = [⟨0, 4, 2, 2, 0, 7⟩] ∧
      st.calls = [example_cluster, []] := by
  obtain ⟨st, h1, h2, h3⟩ := (find_events_clusters example_cfg 2
    (fun r => r.map example_read) example_cluster example_entry_n [(0, 4)] (0, 4) rfl
    (by decide) (by simp) (by decide)).2.1
  exact ⟨st, h1, h2.trans (by decide), h3.trans (by decide)⟩

/-! ## The materialized variants -/

theorem unique_sorted : ∀ l : List Nat, l.Sorted (· ≤ ·) → (unique l).Sorted (· < ·)
  | [] => by intro _; simp [unique]
  | [x] => by intro _; simp [unique]
  | x :: y :: r => by
    intro h
    have hyr : (y :: r).Sorted (· ≤ ·) := h.of_cons
    have ih := unique_sorted (y :: r) hyr
    have hxy : x ≤ y := List.rel_of_sorted_cons h y (by simp)
    have hy : ∀ z ∈ y :: r, y ≤ z := by
      intro z hz
      rcases List.mem_cons.mp hz with e | e
      · rw [e]
      · exact List.rel_of_sorted_cons hyr z e
    rw [unique]
    split
    · exact ih
    · rename_i hne
      refine List.sorted_cons.mpr ⟨?_, ih⟩
      intro b hb
      have hb2 := hy b ((mem_unique b (y :: r)).mp hb)
      omega

theorem read_ranks_sorted (V : List candidate_variant) : (read_ranks V).Sorted (· < ·) := by
  unfold read_ranks sort_ranks
  exact unique_sorted _ (List.sorted_insertionSort _ _)

theorem extract_loop_map (cfg : Config) (ranks : List Nat) (reads : List (List Char))
    (f : candidate_variant → variant_t) :
    ∀ vs : List candidate_variant, (∀ v ∈ vs, materialize cfg ranks reads v = some (f v)) →
      extract_loop cfg ranks reads vs = some (vs.map f) := by
  intro vs
  induction vs with
  | nil => intro _; rfl
  | cons v vs ih =>
    intro h
    rw [extract_loop, h v (by simp), ih (fun w hw => h w (by simp [hw]))]
    rfl

theorem length_window (r : List Char) (p k : Nat) (h : p + k ≤ r.length) :
    ((r.drop p).take k).length = k := by
  rw [List.length_take, List.length_drop]
  omega

/-- C17: when `get_reads` returns, for a sorted duplicate-free vector of
ranks, the DNA of each requested read in order, and the windows of the
candidates start inside their reads, `extract_variants` returns the vector
whose `i`-th element is `(read(l0_text)[l0_pos..l0_pos+k_left],
read(l1_text)[l1_pos..l1_pos+k_left], read(r_text)[r_pos..r_pos+k_right])`
for the `i`-th candidate (same length, same order); the access plan handed to
`get_reads` is sorted and duplicate-free; and for a candidate whose windows
lie inside their reads, `|L0| = |L1| = k_left` and `|R| = k_right`. -/
theorem extract_variants_windows (cfg : Config) (get_reads : List Nat → List (List Char))
    (read : Nat → List Char) (V : List candidate_variant)
    (hget : ∀ ranks : List Nat, ranks.Sorted (· < ·) → get_reads ranks = ranks.map read)
    (hpos : ∀ v ∈ V, v.left_context_pos_0 ≤ (read v.left_context_idx_0).length ∧
      v.left_context_pos_1 ≤ (read v.left_context_idx_1).length ∧
      v.right_context_pos ≤ (read v.right_context_idx).length) :
    extract_variants get_reads cfg V = some (V.map fun v =>
      { left_context_0 := ((read v.left_context_idx_0).drop v.left_context_pos_0).take cfg.k_left,
        left_context_1 := ((read v.left_context_idx_1).drop v.left_context_pos_1).take cfg.k_left,
        right_context := ((read v.right_context_idx).drop v.right_context_pos).take cfg.k_right })
    ∧ (read_ranks V).Sorted (· < ·)
    ∧ ∀ v ∈ V, v.left_context_pos_0 + cfg.k_left ≤ (read v.left_context_idx_0).length →
        v.left_context_pos_1 + cfg.k_left ≤ (read v.left_context_idx_1).length →
        v.right_context_pos + cfg.k_right ≤ (read v.right_context_idx).length →
        (((read v.left_context_idx_0).drop v.left_context_pos_0).take cfg.k_left).length
          = cfg.k_left ∧
        (((read v.left_context_idx_1).drop v.left_context_pos_1).take cfg.k_left).length
          = cfg.k_left ∧
        (((read v.right_context_idx).drop v.right_context_pos).take cfg.k_right).length
          = cfg.k_right := by
  refine ⟨?_, read_ranks_sorted V, fun v _ h0 h1 h2 =>
    ⟨length_window _ _ _ h0, length_window _ _ _ h1, length_window _ _ _ h2⟩⟩
  unfold extract_variants
  rw [hget _ (read_ranks_sorted V)]
  apply extract_loop_map
  intro v hv
  obtain ⟨m0, m1, m2⟩ := mem_read_ranks V v hv
  obtain ⟨p0, p1, p2⟩ := hpos v hv
  unfold materialize
  rw [lookup_read read _ _ m0, lookup_read read _ _ m1, lookup_read read _ _ m2]
  simp only [substr, if_pos p0, if_pos p1, if_pos p2]

/-- Witness of C17 on the scenario "Minimal SNP": the candidate
`(0, 4, 2, 2, 0, 7)` is materialized as `(GTA, GTC, CCG)`. -/
theorem extract_variants_windows_witness :
    extract_variants (fun r => r.map example_read) example_cfg [⟨0, 4, 2, 2, 0, 7⟩]
      = some [example_variant] :=
  (extract_variants_windows example_cfg (fun r => r.map example_read) example_read
    [⟨0, 4, 2, 2, 0, 7⟩] (fun _ _ => rfl) (by decide)).1

/-! ## The per-sample histogram -/

theorem base_index_lt (cfg : Config) (c : Char) : base_index cfg c < 4 := by
  unfold base_index base_to_int
  split_ifs <;> simp

theorem scan_step_counts (cfg : Config) (st : scan_state) (e : t_GSA) :
    (scan_step cfg st e).counts = fun s c =>
      if s = (if e.text < cfg.nr_reads1 then 0 else 1) ∧ c = base_index cfg e.bwt then
        (st.counts s c + 1) % 4294967296
      else st.counts s c := by
  unfold scan_step
  dsimp only
  by_cases hl : e.lcp > st.max_lcp_val <;> by_cases ht : e.text < cfg.nr_reads1 <;>
    simp [hl, ht]

theorem scan_cells (cfg : Config) (l : List t_GSA) (hlen : l.length < 4294967296) :
    (∀ s c, (scan cfg l).counts s c ≤ l.length) ∧
    cells_sum (scan cfg l).counts = l.length := by
  induction l using List.reverseRecOn with
  | nil => simp [scan, scan_init, cells_sum]
  | append_singleton l e ih =>
    have hl : l.length < 4294967296 := by
      rw [List.length_append] at hlen; simp at hlen; omega
    have hl1 : l.length + 1 < 4294967296 := by
      rw [List.length_append] at hlen; simpa using hlen
    obtain ⟨ih1, ih2⟩ := ih hl
    rw [scan_snoc, List.length_append, List.length_singleton, ← ih2]
    generalize scan cfg l = st at ih1 ih2 ⊢
    have hb4 := base_index_lt cfg e.bwt
    rw [scan_step_counts cfg st e]
    generalize base_index cfg e.bwt = b at hb4 ⊢
    have hmod : ∀ s c, (st.counts s c + 1) % 4294967296 = st.counts s c + 1 := by
      intro s c
      have := ih1 s c
      omega
    constructor
    · intro s c
      have := ih1 s c
      simp only [hmod]
      split_ifs <;> omega
    · simp only [hmod]
      unfold cells_sum
      simp only [Finset.sum_range_succ, Finset.sum_range_zero, zero_add]
      by_cases ht : e.text < cfg.nr_reads1
      · simp only [ht, if_true]
        interval_cases b <;> simp <;> omega
      · simp only [ht, if_false]
        interval_cases b <;> simp <;> omega

/-- C20 (counterexample): the cluster of the scenario "Minimal SNP" followed
by an entry of the second sample with `bwt = N` has four entries with a `bwt`
in `{A, C, G, T}`, but the eight cells of `counts` sum to 5, for each of the
four columns that `base_to_int` can return for `N`: the increment of
`find_variants` is executed for every entry. With the column 0 the cell
`counts[1][0]` goes from 0 to 1, with the column 1 the cell `counts[1][1]`
goes from 2 to 3. -/
theorem counts_non_acgt_counterexample :
    ((example_cluster ++ [example_entry_n]).filter
      fun e => decide (e.bwt ∈ ['A', 'C', 'G', 'T'])).length = 4 ∧
    cells_sum (scan { example_cfg with base_other := fun _ => 0 }
      (example_cluster ++ [example_entry_n])).counts = 5 ∧
    cells_sum (scan { example_cfg with base_other := fun _ => 1 }
      (example_cluster ++ [example_entry_n])).counts = 5 ∧
    cells_sum (scan { example_cfg with base_other := fun _ => 2 }
      (example_cluster ++ [example_entry_n])).counts = 5 ∧
    cells_sum (scan { example_cfg with base_other := fun _ => 3 }
      (example_cluster ++ [example_entry_n])).counts = 5 ∧
    (scan example_cfg example_cluster).counts 1 0 = 0 ∧
    (scan_step example_cfg (scan example_cfg example_cluster) example_entry_n).counts 1 0 = 1 ∧
    (scan { example_cfg with base_other := fun _ => 1 } example_cluster).counts 1 1 = 2 ∧
    (scan_step { example_cfg with base_other := fun _ => 1 }
      (scan { example_cfg with base_other := fun _ => 1 } example_cluster)
      example_entry_n).counts 1 1 = 3 :=
  ⟨by decide,
    (scan_cells _ (example_cluster ++ [example_entry_n]) (by decide)).2,
    (scan_cells _ (example_cluster ++ [example_entry_n]) (by decide)).2,
    (scan_cells _ (example_cluster ++ [example_entry_n]) (by decide)).2,
    (scan_cells _ (example_cluster ++ [example_entry_n]) (by decide)).2,
    by decide, by decide, by decide, by decide⟩

/-- C20 (amended): in `find_variants` every entry of the cluster increments
one cell of the 2×4 matrix `counts` (modulo `2^32`), the cell of its sample
and of the column `base_to_int(bwt)`, whatever its `bwt` is; that column is
one of the four, and it is the column of the base when `bwt` is `A`, `C`, `G`
or `T`. For a cluster of fewer than `2^32` entries the sum of the eight cells
is the number of entries of the cluster. -/
theorem counts_every_entry (cfg : Config) :
    (∀ (st : scan_state) (e : t_GSA),
      (scan_step cfg st e).counts = fun s c =>
        if s = (if e.text < cfg.nr_reads1 then 0 else 1) ∧ c = base_index cfg e.bwt then
          (st.counts s c + 1) % 4294967296
        else st.counts s c) ∧
    (∀ c, base_index cfg c < 4) ∧
    (base_index cfg 'A' = 0 ∧ base_index cfg 'C' = 1 ∧ base_index cfg 'G' = 2 ∧
      base_index cfg 'T' = 3) ∧
    (∀ cluster : List t_GSA, cluster.length < 4294967296 →
      cells_sum (scan cfg cluster).counts = cluster.length) :=
  ⟨scan_step_counts cfg, base_index_lt cfg, ⟨rfl, rfl, rfl, rfl⟩,
    fun cluster h => (scan_cells cfg cluster h).2⟩

/-- Witness of C20 (amended): a cluster of five entries, one of them with
`bwt = N`; the cells sum to 5. -/
theorem counts_every_entry_witness :
    (example_cluster ++ [example_entry_n]).length < 4294967296 ∧
    cells_sum (scan example_cfg (example_cluster ++ [example_entry_n])).counts = 5 :=
  ⟨by decide, (counts_every_entry example_cfg).2.2.2 (example_cluster ++ [example_entry_n])
    (by decide)⟩

/-! ## The option `-g 0` -/

/-- C19 (the failing input): the option `-g 0` leaves `max_gap = 0`, which
the default resolution of `main` replaces by `max_gap_def = 10`: indels are
not disabled. With the resulting configuration `distance` returns `L = 1` for
the contexts `ACGTACGTACGA` and `TACGTACGTACG`, and `to_file` writes an
`INDEL` record. -/
theorem option_g_zero_keeps_indels :
    ∃ g, main_option globals_init 'g' 0 = some g ∧ g.max_gap = 0 ∧
      (resolve_defaults g).max_gap = 10 ∧
      distance (to_config (resolve_defaults g)).max_gap example_long_indel.left_context_0
        example_long_indel.left_context_1 = some (0, 1) ∧
      ∃ lines, to_file (to_config (resolve_defaults g)) [example_long_indel] = some lines ∧
        lines[0]? = some ">INDEL_higher_path_1|P_1:3_A/|high|nb_pol_1".toList :=
  ⟨_, rfl, rfl, by decide, by decide, _, rfl, by decide⟩

/-! ## The command line -/

theorem distance_gap_too_large (g : Nat) (a b : List Char) (h : a.length < g) :
    distance g a b = none := by
  unfold distance
  by_cases hl : a.length = b.length
  · have g0 : g ≠ 0 := by omega
    have hg : ¬ g ≤ a.length := by omega
    simp [hl, g0]
    omega
  · simp [hl]

theorem main_switch_max_clust_length (g g2 : Globals) (c : Char) (arg : Int)
    (h : main_option g c arg = some g2) : g2.max_clust_length = g.max_clust_length := by
  unfold main_option getopt main_switch at h
  by_cases hc : c ∈ ['h', 'i', 'n', 'p', 'v', 'L', 'R', 'm', 'g']
  · rw [if_pos hc] at h
    simp only [List.mem_cons, List.mem_singleton, List.not_mem_nil, or_false] at hc
    rcases hc with hc | hc | hc | hc | hc | hc | hc | hc | hc <;> subst hc <;>
      simp at h <;> subst h <;> rfl
  · rw [if_neg hc] at h
    simp at h

theorem main_loop_max_clust_length :
    ∀ (opts : List (Char × optarg_t)) (s s2 : Globals × Rat),
      main_loop s opts = some s2 → s2.1.max_clust_length = s.1.max_clust_length
  | [], s, s2, h => by
    simp only [main_loop, Option.some.injEq] at h
    rw [h]
  | o :: rest, s, s2, h => by
    rw [main_loop] at h
    cases hm : main_option s.1 o.1 o.2.atoi with
    | none => rw [hm] at h; simp at h
    | some g =>
      rw [hm] at h
      have := main_loop_max_clust_length rest _ s2 h
      rw [this]
      exact main_switch_max_clust_length _ _ _ _ hm

theorem main_setup_max_clust_length (opts : List (Char × optarg_t)) (b1 b2 : Bool)
    (s : Globals × Rat) (h : main_setup opts b1 b2 = some s) : s.1.max_clust_length = 150 := by
  unfold main_setup at h
  by_cases he : opts.isEmpty = true
  · rw [if_pos he] at h
    simp at h
  · rw [if_neg he] at h
    cases hm : main_loop (globals_init, 0) opts with
    | none => rw [hm] at h; simp at h
    | some s1 =>
      rw [hm] at h
      have h0 : s1.1.max_clust_length = 0 := main_loop_max_clust_length opts _ _ hm
      dsimp only at h
      split_ifs at h <;>
        (simp only [Option.some.injEq] at h
         rw [← h]
         simp [resolve_defaults, h0, max_clust_length_def])

/-- C21 (the failing input): `main` accepts the command line
`-i x -n 1 -g 40 -p 2` when both input files exist. Nothing tests `pval`
(the test is commented out) nor compares `max_gap` with `k_left`, so
`statistics` and `find_events` run with `max_gap = 40 > k_left = 31` and
`pval = 2`. With that configuration the assertion `max_gap <= a.length()` of
`distance` fails on every pair of left contexts of `k_left = 31` characters,
and `to_file` does not complete on such a variant. -/
theorem main_accepts_out_of_range :
    ∃ s, main_setup [('i', ⟨0, 0⟩), ('n', ⟨1, 1⟩), ('g', ⟨40, 40⟩), ('p', ⟨2, 2⟩)] true true
        = some s ∧
      s.1.max_gap = 40 ∧ s.1.k_left = 31 ∧ s.2 = 2 ∧
      (∀ a b : List Char, a.length = (to_config s.1).k_left →
        distance (to_config s.1).max_gap a b = none) ∧
      to_file (to_config s.1) [example_snp_31] = none := by
  have hm : main_setup [('i', ⟨0, 0⟩), ('n', ⟨1, 1⟩), ('g', ⟨40, 40⟩), ('p', ⟨2, 2⟩)] true true
      = some ({ k_left := 31, k_right := 30, max_snvs := 2, mcov_out := 5,
                max_clust_length := 150, max_gap := 40, nr_reads1 := 1 }, 2) := by
    simp [main_setup, main_loop, main_option, main_switch, getopt, globals_init,
      resolve_defaults, max_gap_def, max_clust_length_def, k_left_def, k_right_def,
      max_snvs_def, mcov_out_def]
  refine ⟨_, hm, rfl, rfl, rfl, ?_, ?_⟩
  · intro a b ha
    apply distance_gap_too_large
    rw [ha]
    decide
  · decide

/-- C22 (the failing input): the option string of `getopt` has no `M`, so
`-M 100` is reported as `?`, the `default` branch calls `help()` and the run
ends: `case 'M'` is never reached. Every command line that `main` accepts
runs with the bound 150, and so does `-i x -n 10`. -/
theorem option_M_is_rejected :
    getopt 'M' = '?' ∧
    (∀ g arg, main_option g 'M' arg = none) ∧
    main_setup [('i', ⟨0, 0⟩), ('n', ⟨10, 10⟩), ('M', ⟨100, 100⟩)] true true = none ∧
    (∀ opts b1 b2 s, main_setup opts b1 b2 = some s → s.1.max_clust_length = 150) ∧
    (main_setup [('i', ⟨0, 0⟩), ('n', ⟨10, 10⟩)] true true).map
      (fun s => s.1.max_clust_length) = some 150 := by
  refine ⟨by decide, fun g arg => rfl, ?_, main_setup_max_clust_length, ?_⟩
  · simp [main_setup, main_loop, main_option, main_switch, getopt]
  · simp [main_setup, main_loop, main_option, main_switch, getopt, globals_init,
      resolve_defaults, max_clust_length_def]

/-! ## The progress counter of `get_reads` -/

theorem find_variants_samples (cfg : Config) (cl : List t_GSA) (v : candidate_variant)
    (h : v ∈ find_variants cfg cl) :
    v.left_context_idx_0 < cfg.nr_reads1 ∧ cfg.nr_reads1 ≤ v.left_context_idx_1 := by
  rw [find_variants_eq] at h
  split_ifs at h with hin
  · simp at h
  · simp only [List.mem_flatMap, List.mem_filterMap] at h
    obtain ⟨c0, _, c1, _, hp⟩ := h
    obtain ⟨_, _, ea, eb, ha, hb, hv⟩ := pair_cand_some _ _ _ _ _ _ hp
    rw [hv]
    exact ⟨(last_entry_0_mem _ _ _ _ ha).2.1, (last_entry_1_mem _ _ _ _ hb).2.1⟩

theorem two_le_length_of_mem (l : List Nat) (x y : Nat) (hx : x ∈ l) (hy : y ∈ l)
    (h : x ≠ y) : 2 ≤ l.length := by
  match l, hx, hy with
  | [], hx, _ => simp at hx
  | [a], hx, hy =>
    simp only [List.mem_singleton] at hx hy
    exact absurd (hx.trans hy.symm) h
  | _ :: _ :: _, _, _ => simp

theorem perc_loop_some (d : Nat) (hd : d ≠ 0) :
    ∀ l : List Nat, ∃ ps, perc_loop d l = some ps ∧ ps.length = l.length
  | [] => ⟨[], rfl, rfl⟩
  | i :: r => by
    obtain ⟨ps, h, hl⟩ := perc_loop_some d hd r
    refine ⟨i * 100 % 18446744073709551616 / d :: ps, ?_, by simp [hl]⟩
    rw [perc_loop, h]
    simp [udiv, hd]

/-- C24: for a non-empty candidate vector `V` whose elements come from
`find_variants` (with the same `nr_reads1`), the access plan `read_ranks V`
holds two distinct ranks, so `read_ranks.size()-1` is not zero and every
`perc = (i*100)/(read_ranks.size()-1)` of the loop of `get_reads` is
computed; for the empty vector the plan is empty and the loop body is never
executed. -/
theorem get_reads_progress_defined (cfg : Config) (V : List candidate_variant)
    (hV : ∀ v ∈ V, ∃ cluster, v ∈ find_variants cfg cluster) :
    (V ≠ [] → (∃ x ∈ read_ranks V, ∃ y ∈ read_ranks V, x ≠ y) ∧
      2 ≤ (read_ranks V).length ∧ upred64 (read_ranks V).length ≠ 0) ∧
    (∃ ps, get_reads_perc (read_ranks V) = some ps ∧ ps.length = (read_ranks V).length) ∧
    read_ranks [] = [] ∧ get_reads_perc (read_ranks []) = some [] := by
  have key : V ≠ [] → (∃ x ∈ read_ranks V, ∃ y ∈ read_ranks V, x ≠ y) ∧
      2 ≤ (read_ranks V).length ∧ upred64 (read_ranks V).length ≠ 0 := by
    intro hne
    obtain ⟨v, hv⟩ := List.exists_mem_of_ne_nil V hne
    obtain ⟨cl, hcl⟩ := hV v hv
    obtain ⟨h0, h1⟩ := find_variants_samples cfg cl v hcl
    obtain ⟨m0, m1, _⟩ := mem_read_ranks V v hv
    have hxy : v.left_context_idx_0 ≠ v.left_context_idx_1 := by omega
    have h2 := two_le_length_of_mem _ _ _ m0 m1 hxy
    refine ⟨⟨_, m0, _, m1, hxy⟩, h2, ?_⟩
    unfold upred64
    rw [if_neg (by omega)]
    omega
  refine ⟨key, ?_, rfl, rfl⟩
  by_cases hne : V = []
  · rw [hne]
    exact ⟨[], rfl, rfl⟩
  · obtain ⟨ps, h, hl⟩ := perc_loop_some _ (key hne).2.2 (List.range (read_ranks V).length)
    exact ⟨ps, h, by simpa using hl⟩

/-- Witness of C24 on the scenario "Minimal SNP": the candidate of the
cluster gives the access plan `[0, 2]`, and the two progress values are 0 and
100. -/
theorem get_reads_progress_defined_witness :
    (find_variants example_cfg example_cluster ≠ [] ∧
      2 ≤ (read_ranks (find_variants example_cfg example_cluster)).length) ∧
    get_reads_perc (read_ranks (find_variants example_cfg example_cluster)) = some [0, 100] :=
  ⟨⟨by decide, ((get_reads_progress_defined example_cfg
      (find_variants example_cfg example_cluster)
      (fun _ hv => ⟨example_cluster, hv⟩)).1 (by decide)).2.1⟩, by decide⟩

/-! ## compareVCF -/

theorem str_lt_irrefl : ∀ a, str_lt a a = false
  | [] => rfl
  | x :: xs => by simp [str_lt, str_lt_irrefl xs]

theorem char_eq_of_toNat (x y : Char) (h : x.toNat = y.toNat) : x = y := by
  rw [← Char.ofNat_toNat x, ← Char.ofNat_toNat y, h]

theorem str_lt_connected : ∀ a b, str_lt a b = false → str_lt b a = false → a = b
  | [], [], _, _ => rfl
  | [], _ :: _, h, _ => by simp [str_lt] at h
  | _ :: _, [], _, h => by simp [str_lt] at h
  | x :: xs, y :: ys, h1, h2 => by
    simp only [str_lt] at h1 h2
    split_ifs at h1 h2 with ha hb
    have hxy : x = y := char_eq_of_toNat x y (by omega)
    rw [hxy, str_lt_connected xs ys h1 h2]

theorem str_lt_trans : ∀ a b c, str_lt a b = true → str_lt b c = true → str_lt a c = true
  | [], [], _, h, _ => by simp [str_lt] at h
  | [], _ :: _, [], _, h => by simp [str_lt] at h
  | [], _ :: _, _ :: _, _, _ => by simp [str_lt]
  | _ :: _, [], _, h, _ => by simp [str_lt] at h
  | _ :: _, _ :: _, [], _, h => by simp [str_lt] at h
  | x :: xs, y :: ys, z :: zs, h1, h2 => by
    simp only [str_lt] at h1 h2 ⊢
    split_ifs at h1 h2 ⊢ <;> first | rfl | omega | exact str_lt_trans xs ys zs h1 h2

theorem str_lt_asymm (a b : List Char) (h : str_lt a b = true) : str_lt b a = false := by
  cases h2 : str_lt b a with
  | false => rfl
  | true =>
    have := str_lt_trans a b a h h2
    rw [str_lt_irrefl] at this
    exact absurd this (by simp)

theorem vcf_lt_iff (x a : vcf_entry) :
    vcf_lt x a = true ↔ str_lt x.chr a.chr = true ∨ (x.chr = a.chr ∧ x.pos < a.pos) := by
  unfold vcf_lt
  by_cases h1 : str_lt x.chr a.chr = true
  · simp [h1]
  · by_cases h2 : x.chr = a.chr
    · simp [h2]
    · simp [h1, h2]

theorem vcf_lt_trans (x y z : vcf_entry) (h1 : vcf_lt x y = true) (h2 : vcf_lt y z = true) :
    vcf_lt x z = true := by
  rw [vcf_lt_iff] at *
  rcases h1 with h1 | ⟨h1, h1p⟩ <;> rcases h2 with h2 | ⟨h2, h2p⟩
  · exact Or.inl (str_lt_trans _ _ _ h1 h2)
  · exact Or.inl (h2 ▸ h1)
  · exact Or.inl (h1 ▸ h2)
  · exact Or.inr ⟨h1.trans h2, lt_trans h1p h2p⟩

theorem vcf_lt_asymm (x y : vcf_entry) (h1 : vcf_lt x y = true) : vcf_lt y x = false := by
  cases h : vcf_lt y x with
  | false => rfl
  | true =>
    rw [vcf_lt_iff] at h1 h
    exfalso
    rcases h1 with h1 | ⟨h1, h1p⟩ <;> rcases h with h2 | ⟨h2, h2p⟩
    · rw [str_lt_asymm _ _ h1] at h2; exact absurd h2 (by simp)
    · rw [h2, str_lt_irrefl] at h1; exact absurd h1 (by simp)
    · rw [h1, str_lt_irrefl] at h2; exact absurd h2 (by simp)
    · omega

theorem vcf_equiv_iff (e v : vcf_entry) :
    (!vcf_lt e v && !vcf_lt v e) = true ↔ e.chr = v.chr ∧ e.pos = v.pos := by
  have h1 := vcf_lt_iff e v
  have h2 := vcf_lt_iff v e
  constructor
  · intro h
    simp only [Bool.and_eq_true, Bool.not_eq_true', ← Bool.not_eq_true] at h
    rw [h1, h2] at h
    obtain ⟨ha, hb⟩ := h
    push_neg at ha hb
    have hc : e.chr = v.chr :=
      str_lt_connected _ _ (by simpa using ha.1) (by simpa using hb.1)
    exact ⟨hc, by have := ha.2 hc; have := hb.2 hc.symm; omega⟩
  · rintro ⟨hc, hp⟩
    have n1 : ¬ vcf_lt e v = true := by
      rw [h1, hc, hp]; simp [str_lt_irrefl]
    have n2 : ¬ vcf_lt v e = true := by
      rw [h2, hc, hp]; simp [str_lt_irrefl]
    simp [n1, n2]

theorem set_find_some (s : List vcf_entry) (v e : vcf_entry) (h : set_find s v = some e) :
    e ∈ s ∧ e.chr = v.chr ∧ e.pos = v.pos := by
  unfold set_find at h
  have h2 := List.find?_some h
  exact ⟨List.mem_of_find?_eq_some h, (vcf_equiv_iff e v).1 h2⟩

theorem set_find_isSome (s : List vcf_entry) (v : vcf_entry) :
    (∃ e ∈ s, e.chr = v.chr ∧ e.pos = v.pos) ↔
      ∃ e, set_find s v = some e ∧ e ∈ s ∧ e.chr = v.chr ∧ e.pos = v.pos := by
  constructor
  · rintro ⟨e, he, hk⟩
    cases hf : set_find s v with
    | none =>
      unfold set_find at hf
      rw [List.find?_eq_none] at hf
      exact absurd ((vcf_equiv_iff e v).2 hk) (hf e he)
    | some e2 => exact ⟨e2, rfl, set_find_some s v e2 hf⟩
  · rintro ⟨e, _, he, hk⟩
    exact ⟨e, he, hk⟩

theorem set_insert_mem (e y : vcf_entry) :
    ∀ l : List vcf_entry, y ∈ set_insert e l → y = e ∨ y ∈ l
  | [] => by simp [set_insert]
  | x :: xs => by
    intro h
    rw [set_insert] at h
    split_ifs at h
    · simpa using h
    · rcases List.mem_cons.1 h with h | h
      · exact Or.inr (by simp [h])
      · rcases set_insert_mem e y xs h with h | h
        · exact Or.inl h
        · exact Or.inr (List.mem_cons_of_mem _ h)
    · exact Or.inr h

theorem set_insert_sorted (e : vcf_entry) :
    ∀ l : List vcf_entry, l.Pairwise (fun x y => vcf_lt x y = true) →
      (set_insert e l).Pairwise (fun x y => vcf_lt x y = true)
  | [] => by simp [set_insert]
  | x :: xs => by
    intro h
    rw [set_insert]
    rw [List.pairwise_cons] at h
    split_ifs with h1 h2
    · rw [List.pairwise_cons]
      refine ⟨?_, List.pairwise_cons.2 h⟩
      intro y hy
      rcases List.mem_cons.1 hy with hy | hy
      · rw [hy]; exact h1
      · exact vcf_lt_trans _ _ _ h1 (h.1 y hy)
    · rw [List.pairwise_cons]
      refine ⟨?_, set_insert_sorted e xs h.2⟩
      intro y hy
      rcases set_insert_mem e y xs hy with hy | hy
      · rw [hy]; exact h2
      · exact h.1 y hy
    · exact List.pairwise_cons.2 h

theorem foldl_set_insert_sorted (f : List Char × Nat × List Char × List Char → vcf_entry) :
    ∀ (lines : List (List Char × Nat × List Char × List Char)) (acc : List vcf_entry),
      acc.Pairwise (fun x y => vcf_lt x y = true) →
      (lines.foldl (fun vcf l => set_insert (f l) vcf) acc).Pairwise
        (fun x y => vcf_lt x y = true)
  | [], _, h => h
  | l :: ls, acc, h => foldl_set_insert_sorted f ls _ (set_insert_sorted (f l) acc h)

theorem read_vcf_sorted (lines : List (List Char × Nat × List Char × List Char)) :
    (read_vcf lines).Pairwise (fun x y => vcf_lt x y = true) :=
  foldl_set_insert_sorted _ lines [] List.Pairwise.nil

theorem sorted_key_unique :
    ∀ l : List vcf_entry, l.Pairwise (fun x y => vcf_lt x y = true) →
      ∀ x ∈ l, ∀ y ∈ l, x.chr = y.chr → x.pos = y.pos → x = y
  | [], _ => by simp
  | a :: l, h => by
    rw [List.pairwise_cons] at h
    intro x hx y hy hc hp
    have irr : ∀ u w : vcf_entry, u.chr = w.chr → u.pos = w.pos → vcf_lt u w ≠ true := by
      intro u w hc hp hlt
      rw [vcf_lt_iff, hc, hp, str_lt_irrefl] at hlt
      simp at hlt
    rcases List.mem_cons.1 hx with hxa | hxl <;> rcases List.mem_cons.1 hy with hya | hyl
    · rw [hxa, hya]
    · rw [hxa] at hc hp ⊢
      exact absurd (h.1 y hyl) (irr _ _ hc hp)
    · rw [hya] at hc hp ⊢
      exact absurd (h.1 x hxl) (irr _ _ hc.symm hp.symm)
    · exact sorted_key_unique l h.2 x hxl y hyl hc hp

theorem cmp_step_snp_found (w : Int) (st : cmp_state) (v e : vcf_entry) (hv : v.indel = false)
    (h : set_find st.vcf2 v = some e) :
    cmp_step w st v = { st with TP_s := st.TP_s + 1, vcf2 := st.vcf2.erase e } := by
  unfold cmp_step
  rw [hv]
  simp [h]

theorem cmp_step_snp_missing (w : Int) (st : cmp_state) (v : vcf_entry) (hv : v.indel = false)
    (h : set_find st.vcf2 v = none) :
    cmp_step w st v = { st with FP_s := st.FP_s + 1 } := by
  unfold cmp_step
  rw [hv]
  simp [h]

theorem cmp_step_indel_all_before (w : Int) (st : cmp_state) (v : vcf_entry)
    (hv : v.indel = true) (h : ∀ e ∈ st.vcf2, vcf_lt e v = true) :
    cmp_step w st v = { st with FP_i := st.FP_i + 1 } := by
  have hL : lower_bound st.vcf2 v = none := by
    unfold lower_bound
    rw [List.find?_eq_none]
    intro e he
    simp [h e he]
  have hU : upper_bound st.vcf2 v = none := by
    unfold upper_bound
    rw [List.find?_eq_none]
    intro e he
    simp [vcf_lt_asymm e v (h e he)]
  unfold cmp_step
  rw [hv, hL, hU]
  simp [indel_near]

/-- C23 (the failing input): with the default window of 10 bases, the indel
call `chr1:100` is counted as a false positive and the ground-truth indel
`chr1:95` as a false negative, although they lie 5 bases apart:
`lower_bound` and `upper_bound` only return entries at or after the call.
More generally a call that follows every remaining ground-truth entry is
never matched. An indel after the call is found when it is the next entry
(`chr1:105`), and missed when another entry lies in between (`chr1:101`, a
SNP, before the indel `chr1:103`). -/
theorem indel_before_call_is_missed :
    compare_vcf 0 [vcf_line "chr1" 100 "AT" "A"] [vcf_line "chr1" 95 "GC" "G"] = ⟨0, 0, 0, 0, 1, 1⟩ ∧
    (∀ (w : Int) (st : cmp_state) (v : vcf_entry), v.indel = true →
      (∀ e ∈ st.vcf2, vcf_lt e v = true) →
      (cmp_step w st v).TP_i = st.TP_i ∧ (cmp_step w st v).FP_i = st.FP_i + 1) ∧
    compare_vcf 0 [vcf_line "chr1" 100 "AT" "A"] [vcf_line "chr1" 105 "GC" "G"] = ⟨0, 0, 0, 1, 0, 0⟩ ∧
    compare_vcf 0 [vcf_line "chr1" 100 "AT" "A"] [vcf_line "chr1" 101 "G" "C", vcf_line "chr1" 103 "GC" "G"]
      = ⟨0, 0, 1, 0, 1, 1⟩ := by
  refine ⟨by decide, ?_, by decide, by decide⟩
  intro w st v hv h
  rw [cmp_step_indel_all_before w st v hv h]
  exact ⟨rfl, rfl⟩

/-- C25: `read_vcf` keeps at most one entry per `(chr, pos)`, and for a call
`v` that is not an indel the loop of `main` counts a SNP true positive if and
only if the remaining ground-truth set holds an entry with the `chr` and the
`pos` of `v`, and a SNP false positive otherwise; the entry found is the one
erased, its `REF`, `ALT` and `indel` play no part, and the indel counters do
not change. -/
theorem snp_match_by_chr_pos (w : Int) (lines : List (List Char × Nat × List Char × List Char))
    (st : cmp_state) (v : vcf_entry) (hv : v.indel = false) :
    (∀ x ∈ read_vcf lines, ∀ y ∈ read_vcf lines, x.chr = y.chr → x.pos = y.pos → x = y) ∧
    ((∃ e ∈ st.vcf2, e.chr = v.chr ∧ e.pos = v.pos) →
      (cmp_step w st v).TP_s = st.TP_s + 1 ∧ (cmp_step w st v).FP_s = st.FP_s ∧
      ∃ e ∈ st.vcf2, e.chr = v.chr ∧ e.pos = v.pos ∧
        (cmp_step w st v).vcf2 = st.vcf2.erase e) ∧
    ((¬ ∃ e ∈ st.vcf2, e.chr = v.chr ∧ e.pos = v.pos) →
      (cmp_step w st v).TP_s = st.TP_s ∧ (cmp_step w st v).FP_s = st.FP_s + 1 ∧
      (cmp_step w st v).vcf2 = st.vcf2) ∧
    (cmp_step w st v).TP_i = st.TP_i ∧ (cmp_step w st v).FP_i = st.FP_i := by
  refine ⟨sorted_key_unique _ (read_vcf_sorted lines), ?_, ?_, ?_⟩
  · intro h
    obtain ⟨e, hf, he, hc, hp⟩ := (set_find_isSome st.vcf2 v).1 h
    rw [cmp_step_snp_found w st v e hv hf]
    exact ⟨rfl, rfl, e, he, hc, hp, rfl⟩
  · intro h
    have hf : set_find st.vcf2 v = none := by
      cases hs : set_find st.vcf2 v with
      | none => rfl
      | some e =>
        exact absurd ((set_find_isSome st.vcf2 v).2 ⟨e, hs, set_find_some _ v e hs⟩) h
    rw [cmp_step_snp_missing w st v hv hf]
    exact ⟨rfl, rfl, rfl⟩
  · cases hs : set_find st.vcf2 v with
    | none => rw [cmp_step_snp_missing w st v hv hs]; exact ⟨rfl, rfl⟩
    | some e => rw [cmp_step_snp_found w st v e hv hs]; exact ⟨rfl, rfl⟩

/-- Witness of C25: the SNP call `chr1:100 G>C` is matched with the
ground-truth entry `chr1:100 AT>A`, an indel with another `REF` and `ALT`
(`operator==` does not hold between them), and with nothing else. -/
theorem snp_match_by_chr_pos_witness :
    (cmp_step 10 ⟨read_vcf [vcf_line "chr1" 100 "AT" "A", vcf_line "chr1" 101 "G" "C"], 0, 0, 0, 0⟩
      ⟨"chr1".toList, 100, "G".toList, "C".toList, false⟩).TP_s = 1 ∧
    vcf_eq ⟨"chr1".toList, 100, "AT".toList, "A".toList, true⟩ ⟨"chr1".toList, 100, "G".toList, "C".toList, false⟩ = false ∧
    (cmp_step 10 ⟨read_vcf [vcf_line "chr1" 100 "AT" "A"], 0, 0, 0, 0⟩
      ⟨"chr1".toList, 101, "G".toList, "C".toList, false⟩).FP_s = 1 :=
  ⟨((snp_match_by_chr_pos 10 [] ⟨read_vcf [vcf_line "chr1" 100 "AT" "A", vcf_line "chr1" 101 "G" "C"],
      0, 0, 0, 0⟩ ⟨"chr1".toList, 100, "G".toList, "C".toList, false⟩ rfl).2.1
      ⟨⟨"chr1".toList, 100, "AT".toList, "A".toList, true⟩, by decide, rfl, rfl⟩).1,
   by decide,
   ((snp_match_by_chr_pos 10 [] ⟨read_vcf [vcf_line "chr1" 100 "AT" "A"], 0, 0, 0, 0⟩
      ⟨"chr1".toList, 101, "G".toList, "C".toList, false⟩ rfl).2.2.1 (by decide)).2.1⟩

end Ebwt2snp
